import Mathlib

/-!
# VST effect host: presets, loading, callbacks and stored parameters

A shallow embedding of parts of `src/effects/VST/VSTEffect.cpp`:

* `VSTEffect::b64encode` / `VSTEffect::b64decode`
* `VSTEffectDialog::LoadFXProgram`, `LoadFXB`, `LoadFXP`, `SaveFXProgram`,
  `SaveFXP`, `SaveFXB`
* `VSTEffect::GetBlockSize`, `SetSampleRate`, `GetLatency`, `SetBufferDelay`,
  `PowerOn`, `PowerOff`, `ProcessInitialize`, `ProcessFinalize`
* `VSTEffect::Load`, `Unload`, the constructor, `RealtimeAddProcessor`,
  `callSetParameter`, `AudioMaster`
* `VSTEffectsModule::RegisterPlugin`
* `VSTEffect::SaveParameters`, `LoadParameters`, `GetVersion`,
  `GetDescription`

Conventions.  A `wxString` is a `List Char`; a byte buffer is a `List Nat`
whose entries are below 256; a C `int` / `int32_t` is an `Int` in the signed
32-bit range; a `float` is carried by its IEEE-754 binary32 bit pattern
(a `Nat` below `2^32`), and the comparisons the code makes on floats are
defined on that bit pattern.  Calls made to the plugin (and to the program
combo box of the dialog) are recorded, in order, in a trace.
-/

namespace VSTEffect

/-! ## Base64 en/decoding -/

/-- Lookup table for encoding: `cset`. -/
def cset : List Char :=
  "ABCDEFGHIJKLMNOPQRSTUVWXYZabcdefghijklmnopqrstuvwxyz0123456789+/".toList

/-- The pad character `padc`. -/
def padc : Char := '='

/-- The expression `cset[k]`; every index the encoder uses is below 64. -/
def csetAt (k : Nat) : Char := cset.getD k 'A'

/-- `VSTEffect::b64encode(in, len)`, with `len` the length of the list.
The first equation is one iteration of the `for (i < len / 3)` loop, the
next two are the `case 2` and `case 1` arms of `switch (len % 3)`. -/
def b64encode : List Nat → List Char
  | b0 :: b1 :: b2 :: rest =>
    let temp := (b0 <<< 16) + (b1 <<< 8) + b2
    csetAt ((temp &&& 0x00FC0000) >>> 18) ::
    csetAt ((temp &&& 0x0003F000) >>> 12) ::
    csetAt ((temp &&& 0x00000FC0) >>> 6) ::
    csetAt (temp &&& 0x0000003F) :: b64encode rest
  | [b0, b1] =>
    let temp := (b0 <<< 16) + (b1 <<< 8)
    [csetAt ((temp &&& 0x00FC0000) >>> 18),
     csetAt ((temp &&& 0x0003F000) >>> 12),
     csetAt ((temp &&& 0x00000FC0) >>> 6),
     padc]
  | [b0] =>
    let temp := b0 <<< 16
    [csetAt ((temp &&& 0x00FC0000) >>> 18),
     csetAt ((temp &&& 0x0003F000) >>> 12),
     padc,
     padc]
  | [] => []

/-- The body of the inner `for` loop of `b64decode` after `temp <<= 6`:
the `if` / `else if` chain on the character `c` (already narrowed to
`unsigned char`).  `remaining` is `len - i`.  The result is either the new
`temp` (`Except.ok`) or, for the two `return`s inside the `switch`, the
bytes stored through `p` just before returning (`Except.error`). -/
def b64decodeChar (c temp remaining : Nat) : Except (List Nat) Nat :=
  if 0x41 ≤ c ∧ c ≤ 0x5A then .ok (temp ||| (c - 0x41))
  else if 0x61 ≤ c ∧ c ≤ 0x7A then .ok (temp ||| (c - 0x47))
  else if 0x30 ≤ c ∧ c ≤ 0x39 then .ok (temp ||| (c + 0x04))
  else if c = 0x2B then .ok (temp ||| 0x3E)
  else if c = 0x2F then .ok (temp ||| 0x3F)
  else if c = padc.toNat then
    match remaining with
    | 1 => .error [(temp >>> 16) &&& 0x000000FF, (temp >>> 8) &&& 0x000000FF]
    | 2 => .error [(temp >>> 10) &&& 0x000000FF]
    | _ => .ok temp
  else .ok temp

/-- The `while (i < len)` loop of `b64decode` with its inner
`for (quantumPosition < 4)` loop.  The first argument is the part of the
input not yet read (`in[i] ..`, so its length is `len - i`), `qp` is
`quantumPosition`, `temp` the `unsigned long` accumulator (64 bits; only
bits 0..23 are ever read back) and `out` the bytes stored through `p` so
far.  After the fourth character of a quantum three bytes are stored. -/
def b64decodeLoop : List Char → Nat → Nat → List Nat → List Nat
  | [], _, _, out => out
  | ch :: rest, qp, temp, out =>
    match b64decodeChar (ch.toNat % 256) ((temp <<< 6) % 2 ^ 64) (rest.length + 1) with
    | .error bytes => out ++ bytes
    | .ok temp1 =>
      if qp = 3 then
        b64decodeLoop rest 0 temp1
          (out ++ [(temp1 >>> 16) &&& 0x000000FF, (temp1 >>> 8) &&& 0x000000FF,
                   temp1 &&& 0x000000FF])
      else b64decodeLoop rest (qp + 1) temp1 out

/-- `VSTEffect::b64decode(in, out)`: the returned `int` and the bytes written
to `out`.  When `len % 4` is non-zero nothing is written and 0 is returned;
otherwise the return value is `p - out`, the number of bytes stored. -/
def b64decode (inp : List Char) : Nat × List Nat :=
  if inp.length % 4 ≠ 0 then (0, [])
  else
    let out := b64decodeLoop inp 0 0 []
    (out.length, out)

/-! ## Block size -/

/-- The two block-size members of `VSTEffect`: `mBlockSize` (the size in
use) and `mUserBlockSize` (the configured one, 8192 unless changed). -/
structure BlockState where
  mBlockSize : Int
  mUserBlockSize : Int
  deriving DecidableEq, Repr

/-- `VSTEffect::GetBlockSize(maxBlockSize)`: the returned value and the
state afterwards. -/
def GetBlockSize (s : BlockState) (maxBlockSize : Int) : Int × BlockState :=
  let s1 : BlockState :=
    if s.mUserBlockSize > maxBlockSize then { s with mBlockSize := maxBlockSize }
    else { s with mBlockSize := s.mUserBlockSize }
  (s1.mBlockSize, s1)

end VSTEffect

/-! ## IEEE-754 binary32 values, by bit pattern -/

/-- Sign bit of a binary32 bit pattern. -/
def f32Sign (b : Nat) : Nat := b / 2 ^ 31 % 2

/-- Biased exponent field of a binary32 bit pattern. -/
def f32Exp (b : Nat) : Nat := b / 2 ^ 23 % 256

/-- Fraction field of a binary32 bit pattern. -/
def f32Frac (b : Nat) : Nat := b % 2 ^ 23

/-- Not-a-number: exponent all ones, fraction non-zero. -/
def f32IsNaN (b : Nat) : Bool := f32Exp b = 255 && f32Frac b != 0

/-- Infinity: exponent all ones, fraction zero. -/
def f32IsInf (b : Nat) : Bool := f32Exp b = 255 && f32Frac b = 0

/-- Significand of a finite binary32: its magnitude is
`f32Mant b * 2 ^ f32Scale b / 2 ^ 149`. -/
def f32Mant (b : Nat) : Nat := if f32Exp b = 0 then f32Frac b else 2 ^ 23 + f32Frac b

/-- Binary scale of a finite binary32 (see `f32Mant`). -/
def f32Scale (b : Nat) : Nat := if f32Exp b = 0 then 0 else f32Exp b - 1

/-- The C comparison `val < 0.0` on a `float` with bit pattern `b`: false for
a NaN and for both zeros, true for every other value with the sign bit set. -/
def f32Lt0 (b : Nat) : Bool :=
  !f32IsNaN b && f32Sign b = 1 && (f32IsInf b || f32Mant b != 0)

/-- The C comparison `val > 1.0` on a `float` with bit pattern `b`: false for
a NaN, true for plus infinity and for the positive finite values whose
magnitude exceeds `2 ^ 149 / 2 ^ 149`. -/
def f32Gt1 (b : Nat) : Bool :=
  !f32IsNaN b && f32Sign b = 0 && (f32IsInf b || decide (2 ^ 149 < f32Mant b * 2 ^ f32Scale b))

/-! ## Preset files -/

namespace VSTEffectDialog

/-- The fields of the plugin's `AEffect` that the preset code reads. -/
structure AEffect where
  uniqueID : Int
  version : Int
  numParams : Int
  numPrograms : Int
  flags : Nat
  deriving DecidableEq, Repr

/-- Modelled from the spec: the capability flag `hasProgramChunks`
(`effFlagsProgramChunks`), declared in the plugin ABI header, which is not
among the sources; the bit is the one of the VST 2 ABI. -/
def effFlagsProgramChunks : Nat := 1 <<< 5

/-- Dispatcher opcodes used by the host. -/
inductive Opcode where
  | effSetProgram
  | effGetProgram
  | effSetProgramName
  | effGetProgramNameIndexed
  | effGetChunk
  | effSetChunk
  | effOpen
  | effClose
  | effSetSampleRate
  | effSetBlockSize
  | effMainsChanged
  | effStartProcess
  | effStopProcess
  | effIdentify
  | effGetEffectName
  | effGetProductString
  | effGetVendorString
  | effGetVendorVersion
  | effIdle
  | effEditIdle
  deriving DecidableEq, Repr

/-- One call made while loading a preset, in the order made.
* `setParameter i v`: `mEffect->callSetParameter(i, v)`, `v` the bit pattern
  of the `float`;
* `dispatcher op index value bytes`: `mEffect->callDispatcher(op, index,
  value, ptr, 0.0)`, `bytes` being what `ptr` points at (for `effSetChunk`
  the `value` bytes of the chunk; empty for a null pointer);
* `setString op str index`: `mEffect->SetString(op, str, index)`;
* `comboSetString`, `comboSetValue`, `comboSetSelection`: the calls
  `mProgram->SetString`, `mProgram->SetValue`, `mProgram->SetSelection`. -/
inductive Call where
  | setParameter (index : Int) (value : Nat)
  | dispatcher (op : Opcode) (index : Int) (value : Int) (bytes : List Nat)
  | setString (op : Opcode) (str : List Nat) (index : Int)
  | comboSetString (index : Int) (str : List Nat)
  | comboSetValue (str : List Nat)
  | comboSetSelection (index : Int)
  deriving DecidableEq, Repr

/-- `CCONST(a, b, c, d)`: the four characters packed into an `int`, first
character in the most significant byte. -/
def CCONST (a b c d : Char) : Int :=
  ((a.toNat <<< 24) ||| (b.toNat <<< 16) ||| (c.toNat <<< 8) ||| d.toNat : Nat)

/-- Conversion of an unsigned 32-bit value to `int32_t`. -/
def toInt32 (u : Nat) : Int :=
  if u % 2 ^ 32 < 2 ^ 31 then (u % 2 ^ 32 : Nat) else ((u % 2 ^ 32 : Nat) : Int) - 2 ^ 32

/-- Wrap of an integer into the `int` range (two's complement). -/
def wrapInt32 (x : Int) : Int := toInt32 (x % 2 ^ 32).toNat

/-- The byte at offset `i` of the buffer `data` (0 outside the buffer, where
the C code reads out of bounds). -/
def byteAt (data : List Nat) (i : Int) : Nat :=
  if 0 ≤ i then data.getD i.toNat 0 % 256 else 0

/-- `wxUINT32_SWAP_ON_LE(iptr[k])` with `iptr = (int32_t *) *bptr` and
`*bptr = data + pos`: the big-endian 32-bit word at byte offset
`pos + 4 * k`. -/
def rdU32 (data : List Nat) (pos : Int) (k : Int) : Nat :=
  byteAt data (pos + 4 * k) * 2 ^ 24 + byteAt data (pos + 4 * k + 1) * 2 ^ 16
    + byteAt data (pos + 4 * k + 2) * 2 ^ 8 + byteAt data (pos + 4 * k + 3)

/-- `wxINT32_SWAP_ON_LE(iptr[k])`: the same word as a signed `int`. -/
def rdI32 (data : List Nat) (pos : Int) (k : Int) : Int := toInt32 (rdU32 data pos k)

/-- The zero-terminated string starting at byte offset `off`
(`wxString::From8BitData((char *) p)`), one character per byte. -/
def cstrAt (data : List Nat) (off : Int) : List Nat :=
  ((data.drop off.toNat).map (· % 256)).takeWhile (· != 0)

/-- The `n` bytes at byte offset `off` (what a pointer handed to the plugin
together with a size designates). -/
def bytesAt (data : List Nat) (off : Int) (n : Int) : List Nat :=
  ((data.drop off.toNat).map (· % 256)).take n.toNat

/-- Outcome of `LoadFXProgram`: the returned `bool`, the values of `*bptr`
(as an offset into the buffer) and of `len` on return, and the calls made. -/
structure ProgResult where
  ret : Bool
  pos : Int
  len : Int
  calls : List Call
  deriving DecidableEq, Repr

/-- The calls of the final `if (!dryrun)` block of `LoadFXProgram`. -/
def nameCalls (index : Int) (progName : List Nat) : List Call :=
  [Call.comboSetString index progName, Call.comboSetValue progName,
   Call.setString Opcode.effSetProgramName progName index]

/-- `VSTEffectDialog::LoadFXProgram(bptr, len, index, dryrun)` on the buffer
`data` with `*bptr = data + pos`.  The version check of the source sits
under `#if defined(IS_THIS_AND_FXP_ARTIFICAL_LIMITATION)`, a symbol defined
nowhere, so it is not part of the compiled function. -/
def LoadFXProgram (fx : AEffect) (data : List Nat) (pos len : Int) (index : Int)
    (dryrun : Bool) : ProgResult :=
  let fail : ProgResult := ⟨false, pos, len, []⟩
  -- Verify that we have at least enough for a program without parameters
  if len < 28 then fail
  -- Verify that we probably have an FX file
  else if rdI32 data pos 0 ≠ CCONST 'C' 'c' 'n' 'K' then fail
  -- Ensure this program looks to belong to the current plugin
  else if rdI32 data pos 4 ≠ fx.uniqueID then fail
  else
    -- Get the number of parameters
    let numParams := rdI32 data pos 6
    if numParams ≠ fx.numParams then fail
    -- At this point, we have to have enough to include the program name as well
    else if len < 56 then fail
    else
      let progName := cstrAt data (pos + 28)
      -- Might be a regular program
      if rdI32 data pos 2 = CCONST 'F' 'x' 'C' 'k' then
        let proglen := wrapInt32 (56 + numParams * 4)
        if len < proglen then fail
        -- Validate all of the parameter values
        else if (List.range numParams.toNat).any
            (fun (i : Nat) =>
              f32Lt0 (rdU32 data pos (14 + (i : Int))) || f32Gt1 (rdU32 data pos (14 + (i : Int))))
        then fail
        else
          ⟨true, pos + proglen, len - proglen,
            (if dryrun then []
             else (List.range numParams.toNat).map
               (fun (i : Nat) => Call.setParameter (i : Int) (rdU32 data pos (14 + (i : Int)))))
            ++ (if dryrun then [] else nameCalls index progName)⟩
      -- Maybe we have a program chunk
      else if rdI32 data pos 2 = CCONST 'F' 'P' 'C' 'h' then
        -- Can't load programs chunks if the plugin doesn't support it
        if fx.flags &&& effFlagsProgramChunks = 0 then fail
        -- Verify that we have enough to grab the chunk size
        else if len < 60 then fail
        else
          let size := rdI32 data pos 14
          let proglen := wrapInt32 (60 + size)
          -- Verify that we have enough for the entire program
          if len < proglen then fail
          else
            ⟨true, pos + proglen, len - proglen,
              (if dryrun then []
               else [Call.dispatcher Opcode.effSetChunk 1 size (bytesAt data (pos + 60) size)])
              ++ (if dryrun then [] else nameCalls index progName)⟩
      else fail

/-- `VSTEffectDialog::LoadFXP` on a file with contents `data` (opened and
read without error); `sel` is `mProgram->GetCurrentSelection()`. -/
def LoadFXP (fx : AEffect) (data : List Nat) (sel : Int) : ProgResult :=
  LoadFXProgram fx data 0 data.length (if sel < 0 then 0 else sel) false

/-- The loop "Validate all of the programs" of `LoadFXB`, over the program
indices still to visit, from `tempPtr`, `tempLen`: the index of the first
program whose dry run fails (where the loop `break`s), if there is one. -/
def dryRunPrograms (fx : AEffect) (data : List Nat) : List Nat → Int → Int → Option Nat
  | [], _, _ => none
  | i :: more, tempPtr, tempLen =>
    let r := LoadFXProgram fx data tempPtr tempLen i true
    if r.ret then dryRunPrograms fx data more r.pos r.len else some i

/-- The loop "time to start changing things" of `LoadFXB`:
`ret = LoadFXProgram(&bptr, len, i, false)` for each program index in turn.
The state is `*bptr`, `len`, `ret` and the calls made so far, kept in a
`ProgResult`. -/
def applyPrograms (fx : AEffect) (data : List Nat) : List Nat → ProgResult → ProgResult
  | [], st => st
  | i :: more, st =>
    let r := LoadFXProgram fx data st.pos st.len i false
    applyPrograms fx data more ⟨r.ret, r.pos, r.len, st.calls ++ r.calls⟩

/-- The tail of `LoadFXB`: "Set the active program". -/
def setActiveProgram (ret : Bool) (version curProg : Int) (calls : List Call) :
    Bool × List Call :=
  if ret && version = 2 then
    (ret, calls ++ [Call.dispatcher Opcode.effSetProgram 0 curProg [],
                    Call.comboSetSelection curProg])
  else (ret, calls)

/-- `VSTEffectDialog::LoadFXB` on a file with contents `data` (opened and
read without error, so `len` is the file length): the returned `bool` and
the calls made.  In the "FxBk" branch the `break` of the validation loop
leaves that `for` loop only, so the second loop runs whatever the first one
found: the outcome of `dryRunPrograms` is not consulted. -/
def LoadFXB (fx : AEffect) (data : List Nat) : Bool × List Call :=
  let len : Int := data.length
  -- Verify that we have at least enough the header
  if len < 156 then (false, [])
  -- Verify that we probably have a FX file
  else if rdI32 data 0 0 ≠ CCONST 'C' 'c' 'n' 'K' then (false, [])
  else
    -- Get the version and verify
    let version := rdI32 data 0 3
    if version ≠ 1 ∧ version ≠ 2 then (false, [])
    -- Ensure this program looks to belong to the current plugin
    else if rdI32 data 0 4 ≠ fx.uniqueID then (false, [])
    else
      -- Get the number of programs
      let numProgs := rdI32 data 0 6
      if numProgs ≠ fx.numPrograms then (false, [])
      else
        -- Get the current program index
        let curProg : Int := if version = 2 then rdI32 data 0 7 else 0
        if version = 2 ∧ (curProg < 0 ∨ curProg ≥ numProgs) then (false, [])
        -- Is it a bank of programs?
        else if rdI32 data 0 2 = CCONST 'F' 'x' 'B' 'k' then
          let _validated := dryRunPrograms fx data (List.range numProgs.toNat) 156 (len - 156)
          let r := applyPrograms fx data (List.range numProgs.toNat) ⟨false, 156, len - 156, []⟩
          setActiveProgram r.ret version curProg r.calls
        -- Or maybe a bank chunk?
        else if rdI32 data 0 2 = CCONST 'F' 'B' 'C' 'h' then
          if fx.flags &&& effFlagsProgramChunks = 0 then (false, [])
          else if len < 160 then (false, [])
          else
            let size := rdI32 data 0 39
            let proglen := wrapInt32 (160 + size)
            if len < proglen then (false, [])
            else
              setActiveProgram true version curProg
                [Call.dispatcher Opcode.effSetChunk 0 size (bytesAt data 160 size)]
        -- Unrecognizable type
        else (false, [])

/-! ### Saving -/

/-- What the preset-saving code obtains from the plugin: its `AEffect`,
`callGetParameter(i)` (bit pattern of the `float`), the bytes left in the
28-byte array `progName` by `effGetProgramNameIndexed`, the program index
returned by `effGetProgram`, and the chunk designated by `effGetChunk`
(argument 0: bank, 1: program), whose length is the returned size. -/
structure Plugin where
  aeffect : AEffect
  getParameter : Int → Nat
  programName : Int → List Nat
  currentProgram : Int
  getChunk : Int → List Nat

/-- The wxWidgets macro `wxINT32_SWAP_ON_LE(x)` on a 32-bit value: byte
reversal on a little-endian host, the identity on a big-endian one. -/
def wxINT32_SWAP_ON_LE (hostLE : Bool) (x : Nat) : Nat :=
  if hostLE then
    (x % 256) * 2 ^ 24 + (x / 2 ^ 8 % 256) * 2 ^ 16 + (x / 2 ^ 16 % 256) * 2 ^ 8
      + x / 2 ^ 24 % 256
  else x % 2 ^ 32

/-- The wxWidgets macro `wxUINT16_SWAP_ON_LE(x)`: on a little-endian host
the argument is cast to `wxUint16` and its two bytes are exchanged, the
result being a 16-bit value; on a big-endian host it is the identity. -/
def wxUINT16_SWAP_ON_LE (hostLE : Bool) (x : Nat) : Nat :=
  if hostLE then
    ((((x % 2 ^ 16) &&& 0x00ff) <<< 8) ||| (((x % 2 ^ 16) &&& 0xff00) >>> 8)) % 2 ^ 16
  else x

/-- The four bytes of a 32-bit object as they lie in host memory (what
`AppendData(&x, 4)` appends). -/
def hostBytes32 (hostLE : Bool) (x : Nat) : List Nat :=
  if hostLE then [x % 256, x / 2 ^ 8 % 256, x / 2 ^ 16 % 256, x / 2 ^ 24 % 256]
  else [x / 2 ^ 24 % 256, x / 2 ^ 16 % 256, x / 2 ^ 8 % 256, x % 256]

/-- Storing `wxINT32_SWAP_ON_LE(v)` for an `int` `v`. -/
def putI32 (hostLE : Bool) (v : Int) : List Nat :=
  hostBytes32 hostLE (wxINT32_SWAP_ON_LE hostLE (v % 2 ^ 32).toNat)

/-- The array `progName` of `SaveFXProgram` after `progName[27] = 0`,
`strlen` and `memset`: the name up to its terminator, at most 27 bytes,
followed by zeros up to 28 bytes. -/
def paddedName (raw : List Nat) : List Nat :=
  let name := ((raw.map (· % 256)).take 27).takeWhile (· != 0)
  name ++ List.replicate (28 - name.length) 0

/-- `VSTEffectDialog::SaveFXProgram(buf, index)`: the contents of `buf`
afterwards.  `hostLE` tells whether the host is little-endian. -/
def SaveFXProgram (hostLE : Bool) (pl : Plugin) (buf : List Nat) (index : Int) : List Nat :=
  let fx := pl.aeffect
  let progName := paddedName (pl.programName index)
  let chunks : Bool := fx.flags &&& effFlagsProgramChunks != 0
  let chunk := pl.getChunk 1
  let chunkSize : Int := chunk.length
  let subType := if chunks then CCONST 'F' 'P' 'C' 'h' else CCONST 'F' 'x' 'C' 'k'
  let dataSize : Int := if chunks then 48 + (4 + chunkSize) else 48 + fx.numParams * 4
  let tab : List Int :=
    [CCONST 'C' 'c' 'n' 'K', dataSize, subType, 1, fx.uniqueID, fx.version, fx.numParams]
  let body : List Nat :=
    if chunks then putI32 hostLE chunkSize ++ chunk.map (· % 256)
    else
      (List.range fx.numParams.toNat).flatMap
        (fun (i : Nat) => hostBytes32 hostLE (wxUINT16_SWAP_ON_LE hostLE (pl.getParameter (i : Int))))
  buf ++ tab.flatMap (putI32 hostLE) ++ progName ++ body

/-- `VSTEffectDialog::SaveFXP`: the bytes written to the file. -/
def SaveFXP (hostLE : Bool) (pl : Plugin) : List Nat :=
  SaveFXProgram hostLE pl [] pl.currentProgram

/-! ### Sample inputs -/

/-- Big-endian bytes of a list of 32-bit words. -/
def beWords (ws : List Int) : List Nat := ws.flatMap (putI32 true)

/-- A plugin without chunk support: unique ID 1234, one parameter, two
programs. -/
def fxPlain : AEffect :=
  { uniqueID := 1234, version := 1, numParams := 1, numPrograms := 2, flags := 0 }

/-- A plugin like `fxPlain` that declares chunk support. -/
def fxChunky : AEffect := { fxPlain with flags := effFlagsProgramChunks }

/-- An "FxCk" program record for `fxPlain` with format version `ver`, an
empty name and the single parameter bit pattern `bits` (60 bytes). -/
def progRecord (ver : Int) (bits : Nat) : List Nat :=
  beWords [CCONST 'C' 'c' 'n' 'K', 52, CCONST 'F' 'x' 'C' 'k', ver, 1234, 1, 1]
    ++ List.replicate 28 0 ++ beWords [bits]

/-- An "FPCh" program record for `fxChunky` whose size word is `size`,
followed by no chunk byte (60 bytes). -/
def chunkRecord (size : Int) : List Nat :=
  beWords [CCONST 'C' 'c' 'n' 'K', 0, CCONST 'F' 'P' 'C' 'h', 1, 1234, 1, 1]
    ++ List.replicate 28 0 ++ beWords [size]

/-- The 156-byte header of a bank file for `fxPlain`: subtype `sub`, format
version `ver`, unique ID `uid`, `nprogs` programs, current program 0. -/
def bankHeader (sub ver uid nprogs : Int) : List Nat :=
  beWords [CCONST 'C' 'c' 'n' 'K', 0, sub, ver, uid, 1, nprogs, 0] ++ List.replicate 124 0

/-- A bank of two programs for `fxPlain`: program 0 is a valid record setting
the parameter to 0.5 (`0x3F000000`), program 1 is 60 zero bytes (no magic). -/
def bankSecondBad : List Nat :=
  bankHeader (CCONST 'F' 'x' 'B' 'k') 1 1234 2 ++ progRecord 1 0x3F000000
    ++ List.replicate 60 0

/-- A plugin with AEffect `fxPlain` whose single parameter has the bit
pattern `bits`, with program name "P1". -/
def plainPlugin (bits : Nat) : Plugin :=
  { aeffect := fxPlain, getParameter := fun _ => bits, programName := fun _ => [80, 49, 0],
    currentProgram := 0, getChunk := fun _ => [] }

end VSTEffectDialog


/-! ## Binary floating-point conversions -/

/-- The integer nearest to `num / den`, ties going to the even one. -/
def roundHalfEven (num den : Nat) : Nat :=
  if 2 * (num % den) < den then num / den
  else if den < 2 * (num % den) then num / den + 1
  else if (num / den) % 2 = 0 then num / den
  else num / den + 1

/-- The loop behind `ilog2`, bounded by `fuel`. -/
def ilog2Loop : Nat → Nat → Nat
  | 0, _ => 0
  | fuel + 1, n => if n < 2 then 0 else ilog2Loop fuel (n / 2) + 1

/-- The integer part of the binary logarithm of `n` (0 for `n = 0`). -/
def ilog2 (n : Nat) : Nat := ilog2Loop n n

/-- Whether `2 ^ e ≤ num / den`, for an exponent of either sign. -/
def geTwoPow (num den : Nat) (e : Int) : Bool :=
  if 0 ≤ e then decide (den * 2 ^ e.toNat ≤ num) else decide (den ≤ num * 2 ^ (-e).toNat)

/-- Bit pattern, sign apart, of the binary floating-point number nearest to
`num / den` (round to nearest, ties to even) in the IEEE-754 format with `fb`
fraction bits, exponent bias `bias` and all-ones exponent field `emax`:
`encodeBinary 23 127 255` is binary32, `encodeBinary 52 1023 2047` binary64.
Values too large become infinity, values too small become subnormal. -/
def encodeBinary (fb bias emax : Nat) (num den : Nat) : Nat :=
  if num = 0 then 0
  else
    let l : Int := (ilog2 num : Int) - (ilog2 den : Int)
    -- `e` is the integer with `2 ^ e ≤ num / den < 2 ^ (e + 1)`
    let e : Int := if geTwoPow num den l then l else l - 1
    let be : Int := e + bias
    if be ≤ 0 then roundHalfEven (num * 2 ^ (bias - 1 + fb)) den
    else
      let m : Nat :=
        if e ≤ fb then roundHalfEven (num * 2 ^ ((fb : Int) - e).toNat) den
        else roundHalfEven num (den * 2 ^ (e - fb).toNat)
      min ((be.toNat - 1) * 2 ^ fb + m) (emax * 2 ^ fb)

/-- The conversion `(float) n` of an integer: its binary32 bit pattern. -/
def f32OfInt (n : Int) : Nat :=
  (if n < 0 then 2 ^ 31 else 0) + encodeBinary 23 127 255 n.natAbs 1

/-- The conversion of a `float` with bit pattern `b` to an integer type:
truncation toward zero.  (For a NaN or an infinity, where C leaves the
conversion undefined, the result here is 0.) -/
def f32Trunc (b : Nat) : Int :=
  if f32Exp b = 255 then 0
  else if f32Sign b = 1 then -((f32Mant b * 2 ^ f32Scale b / 2 ^ 149 : Nat) : Int)
  else ((f32Mant b * 2 ^ f32Scale b / 2 ^ 149 : Nat) : Int)

/-! ## The effect object: loading, power, processing set-up -/

namespace VSTEffect

open VSTEffectDialog (Opcode CCONST toInt32 wxINT32_SWAP_ON_LE effFlagsProgramChunks)

/-- Modelled from the spec: the expected magic tag of a plugin instance
(`kEffectMagic`), declared in the plugin ABI header, which is not among the
sources; the value is the one of the VST 2 ABI. -/
def kEffectMagic : Int := CCONST 'V' 's' 't' 'P'

/-- Modelled from the spec: the capability flag `hasEditor`
(`effFlagsHasEditor`) of the plugin ABI header. -/
def effFlagsHasEditor : Nat := 1 <<< 0

/-- Modelled from the spec: the capability flag `canReplace`
(`effFlagsCanReplacing`) of the plugin ABI header. -/
def effFlagsCanReplacing : Nat := 1 <<< 4

/-- Modelled from the spec: the capability flag `isSynth` (`effFlagsIsSynth`)
of the plugin ABI header. -/
def effFlagsIsSynth : Nat := 1 <<< 8

/-- A plugin instance as `pluginMain` returns it: the fields of its `AEffect`
that the host reads, and its answers to the queries `Load` makes (effect
name, product string, vendor string, vendor version).  The instance is
passive: it answers and records, and does not call back into the host. -/
structure PluginDesc where
  magic : Int
  flags : Nat
  numParams : Int
  numInputs : Int
  numOutputs : Int
  version : Int
  initialDelay : Int
  effectName : List Char
  productString : List Char
  vendorString : List Char
  vendorVersion : Int
  deriving DecidableEq, Repr

/-- A call received by a plugin instance through the function pointers of its
`AEffect`: `dispatcher(effect, op, index, value, ptr, opt)` (`opt` by the bit
pattern of the `float`; the pointer argument is not recorded) or
`setParameter(effect, index, value)`. -/
inductive PluginCall where
  | dispatcher (op : Opcode) (index : Int) (value : Int) (opt : Nat)
  | setParameter (index : Int) (value : Nat)
  deriving DecidableEq, Repr

/-- The members of one `VSTEffect` object, `mSlaves` apart.
* `mMaster`, `mModule`, `mTimer`, `mDlg`: whether the pointer is non-null;
* `mAEffect`: the plugin instance, if any;
* `block`: `mBlockSize` and `mUserBlockSize`;
* `mSampleRate`: bit pattern of the `float`;
* `timeInfoSampleRate`: `mTimeInfo.sampleRate`, a `double` that only ever
  holds values of type `float`, given by the binary32 pattern of its value
  (the other fields of `mTimeInfo` are not modelled);
* `calls`: the calls received so far by the plugin instances of this object;
* `released`: the number of library handles closed so far by this object. -/
structure State where
  mMaster : Bool
  mModule : Bool
  mAEffect : Option PluginDesc
  mTimer : Bool
  timerRunning : Bool
  mDlg : Bool
  mInteractive : Bool
  mAudioIns : Int
  mAudioOuts : Int
  mMidiIns : Int
  mMidiOuts : Int
  block : BlockState
  mBufferDelay : Int
  mProcessLevel : Int
  mHasPower : Bool
  mWantsIdle : Bool
  mWantsEditIdle : Bool
  mUseBufferDelay : Bool
  mReady : Bool
  mSampleRate : Nat
  timeInfoSampleRate : Nat
  mName : List Char
  mVendor : List Char
  mVersion : Int
  calls : List PluginCall
  released : Nat
  deriving DecidableEq, Repr

/-- `VSTEffect::callDispatcher(opcode, index, value, ptr, opt)`: the call is
passed to `mAEffect->dispatcher` (which the C++ dereferences: `mAEffect` has
to be non-null); what the plugin returns is supplied by the caller from the
`PluginDesc`. -/
def callDispatcher (s : State) (op : Opcode) (index value : Int) (opt : Nat) : State :=
  { s with calls := s.calls ++ [PluginCall.dispatcher op index value opt] }

/-- `VSTEffect::PowerOn`. -/
def PowerOn (s : State) : State :=
  if !s.mHasPower then
    -- Turn the power on
    let s1 := callDispatcher s Opcode.effMainsChanged 0 1 0
    -- Tell the effect we're going to start processing
    let s2 := callDispatcher s1 Opcode.effStartProcess 0 0 0
    { s2 with mHasPower := true }
  else s

/-- `VSTEffect::PowerOff`. -/
def PowerOff (s : State) : State :=
  if s.mHasPower then
    -- Tell the effect we're going to stop processing
    let s1 := callDispatcher s Opcode.effStopProcess 0 0 0
    -- Turn the power off
    let s2 := callDispatcher s1 Opcode.effMainsChanged 0 0 0
    { s2 with mHasPower := false }
  else s

/-- `VSTEffect::SetSampleRate(rate)`, `rate` being a `sampleCount`. -/
def SetSampleRate (s : State) (rate : Int) : State :=
  { s with mSampleRate := f32OfInt rate }

/-- `VSTEffect::GetLatency`: the returned value and the state afterwards. -/
def GetLatency (s : State) : Int × State :=
  if s.mUseBufferDelay then (s.mBufferDelay, { s with mBufferDelay := 0 })
  else (0, s)

/-- `VSTEffect::SetBufferDelay(samples)`. -/
def SetBufferDelay (s : State) (samples : Int) : State :=
  if samples ≥ 0 ∧ s.mUseBufferDelay = true then { s with mBufferDelay := samples } else s

/-- `mAEffect->initialDelay` (0 when there is no instance, where the C++
dereferences a null pointer). -/
def initialDelay (s : State) : Int :=
  match s.mAEffect with
  | some d => d.initialDelay
  | none => 0

/-- `VSTEffect::ProcessInitialize`: the returned `bool` and the state
afterwards. -/
def ProcessInitialize (s : State) : Bool × State :=
  -- Initialize time info
  let s1 := { s with timeInfoSampleRate := s.mSampleRate }
  -- Set processing parameters...power must be off for this
  let s2 := callDispatcher s1 Opcode.effSetSampleRate 0 0 s1.mSampleRate
  let s3 := callDispatcher s2 Opcode.effSetBlockSize 0 s2.block.mBlockSize 0
  -- Turn on the power
  let s4 := PowerOn s3
  -- Set the initial buffer delay
  let s5 := SetBufferDelay s4 (initialDelay s4)
  (true, { s5 with mReady := true })

/-- `VSTEffect::ProcessFinalize`. -/
def ProcessFinalize (s : State) : Bool × State :=
  (true, PowerOff { s with mReady := false })

/-- `VSTEffect::Unload`. -/
def Unload (s : State) : State :=
  let s1 := if s.mTimer then { s with mTimer := false, timerRunning := false } else s
  let s2 :=
    if s1.mAEffect.isSome then
      -- Turn the power off, finally close the plugin
      callDispatcher (PowerOff s1) Opcode.effClose 0 0 0
    else s1
  if s2.mModule then
    { s2 with released := s2.released + 1, mModule := false, mAEffect := none }
  else s2

/-- What the platform part of `Load` finds for `mPath`: no library could be
opened, the library has neither entry point, the entry point returned null
or threw, or the entry point returned an instance. -/
inductive EntryResult where
  | noLibrary
  | noEntryPoint
  | noInstance
  | plugin (d : PluginDesc)
  deriving DecidableEq, Repr

/-- `VSTEffect::GetString(opcode)` as `Load` uses it: the dispatcher call is
made and the text the plugin stored is returned. -/
def GetString (s : State) (op : Opcode) (answer : List Char) : List Char × State :=
  (answer, callDispatcher s op 0 0 0)

/-- The body of `if (mAEffect)` in `Load` for the instance `d`: the calls up
to the second `effSetBlockSize`, then the test of magic and flags and, when
it passes, the reading of name, vendor, version and channel counts.  The
result is `success` and the state.  `stem` is the file name of `mPath`
without directory and extension; `hostLE` tells whether the host is
little-endian.  On a little-endian host `wxINT32_SWAP_ON_LE(x)` is a macro
in which `x` occurs four times, so that in
`wxINT32_SWAP_ON_LE(callDispatcher(effGetVendorVersion, ...))` the call is
made four times (the instance, being passive, answers the same each time);
on a big-endian host the macro is the identity and the call is made once. -/
def LoadInstance (hostLE : Bool) (stem : List Char) (s : State) (d : PluginDesc) :
    Bool × State :=
  -- Give the plugin an initial sample rate and blocksize
  let s1 := callDispatcher s Opcode.effSetSampleRate 0 0 (f32OfInt 48000)
  let s2 := callDispatcher s1 Opcode.effSetBlockSize 0 512 0
  -- Ask the plugin to identify itself...might be needed for older plugins
  let s3 := callDispatcher s2 Opcode.effIdentify 0 0 0
  -- Open the plugin
  let s4 := callDispatcher s3 Opcode.effOpen 0 0 0
  -- Set it again in case plugin ignored it before the effOpen
  let s5 := callDispatcher s4 Opcode.effSetSampleRate 0 0 (f32OfInt 48000)
  let s6 := callDispatcher s5 Opcode.effSetBlockSize 0 512 0
  -- Ensure that it looks like a plugin and can deal with ProcessReplacing
  -- calls.  Also exclude synths for now.
  if d.magic = kEffectMagic ∧ d.flags &&& effFlagsIsSynth = 0 ∧
      d.flags &&& effFlagsCanReplacing ≠ 0 then
    let n1 := GetString s6 Opcode.effGetEffectName d.effectName
    let n2 :=
      if n1.1.length = 0 then GetString n1.2 Opcode.effGetProductString d.productString
      else n1
    let name := if n1.1.length = 0 ∧ n2.1.length = 0 then stem else n2.1
    let v := GetString n2.2 Opcode.effGetVendorString d.vendorString
    let s7 :=
      if hostLE then
        callDispatcher
          (callDispatcher
            (callDispatcher (callDispatcher v.2 Opcode.effGetVendorVersion 0 0 0)
              Opcode.effGetVendorVersion 0 0 0)
            Opcode.effGetVendorVersion 0 0 0)
          Opcode.effGetVendorVersion 0 0 0
      else callDispatcher v.2 Opcode.effGetVendorVersion 0 0 0
    let ver1 := toInt32 (wxINT32_SWAP_ON_LE hostLE (d.vendorVersion % 2 ^ 32).toNat)
    let ver := if ver1 = 0 then toInt32 (wxINT32_SWAP_ON_LE hostLE (d.version % 2 ^ 32).toNat)
      else ver1
    (true,
      { s7 with
        mName := name, mVendor := v.1, mVersion := ver,
        mInteractive :=
          if d.flags &&& effFlagsHasEditor ≠ 0 ∨ d.numParams ≠ 0 then true else s7.mInteractive,
        mAudioIns := d.numInputs, mAudioOuts := d.numOutputs, mMidiIns := 0, mMidiOuts := 0 })
  else (false, s6)

/-- `VSTEffect::Load` (the branch for platforms other than Mac and Windows
decides when the library handle is closed): the returned `bool` and the
state afterwards. -/
def Load (hostLE : Bool) (stem : List Char) (env : EntryResult) (s : State) : Bool × State :=
  let s0 := { s with mModule := false, mAEffect := none }
  match env with
  | EntryResult.noLibrary => (false, s0)
  | EntryResult.noEntryPoint => (false, { s0 with released := s0.released + 1 })
  | EntryResult.noInstance => (false, Unload { s0 with mModule := true })
  | EntryResult.plugin d =>
    let r := LoadInstance hostLE stem { s0 with mModule := true, mAEffect := some d } d
    if r.1 then (true, r.2) else (false, Unload r.2)

/-- The member initialisers and assignments of the constructor
`VSTEffect(path, master)`, before its final `if (mMaster) Load()`.
`mSampleRate` is not initialised by the constructor: `junk` stands for
the value it happens to hold. -/
def construct (isSlave : Bool) (junk : Nat) : State :=
  { mMaster := isSlave, mModule := false, mAEffect := none, mTimer := true,
    timerRunning := false, mDlg := false, mInteractive := false, mAudioIns := 0,
    mAudioOuts := 0, mMidiIns := 0, mMidiOuts := 0,
    block := { mBlockSize := 8192, mUserBlockSize := 8192 }, mBufferDelay := 0,
    mProcessLevel := 1, mHasPower := false, mWantsIdle := false, mWantsEditIdle := false,
    mUseBufferDelay := true, mReady := false, mSampleRate := junk,
    timeInfoSampleRate := f32OfInt 44100, mName := [], mVendor := [], mVersion := 0,
    calls := [], released := 0 }

/-- The constructor `VSTEffect(path, master)`: a slave loads immediately. -/
def newVSTEffect (hostLE : Bool) (stem : List Char) (env : EntryResult) (isSlave : Bool)
    (junk : Nat) : State :=
  if isSlave then (Load hostLE stem env (construct isSlave junk)).2
  else construct isSlave junk

/-- A master effect: its own members and `mSlaves`.  A slave is created by
`RealtimeAddProcessor` only and never gets slaves of its own, so that for a
slave `callSetParameter` is the single `setParameter` call. -/
structure Effect where
  self : State
  mSlaves : List State
  deriving DecidableEq, Repr

/-- `callSetParameter(index, value)` on an object without slaves. -/
def State.callSetParameter (s : State) (index : Int) (value : Nat) : State :=
  { s with calls := s.calls ++ [PluginCall.setParameter index value] }

/-- `VSTEffect::callSetParameter(index, value)`: the plugin of the object is
called, then `mSlaves[i]->callSetParameter(index, value)` for every slave. -/
def callSetParameter (e : Effect) (index : Int) (value : Nat) : Effect :=
  { self := e.self.callSetParameter index value,
    mSlaves := e.mSlaves.map (fun sl => sl.callSetParameter index value) }

/-- `VSTEffect::RealtimeAddProcessor(numChannels, sampleRate)`, `sampleRate`
by the bit pattern of the `float`: the returned `bool` and the effect
afterwards.  `env` is what loading `mPath` finds for the new slave.  The
final `ProcessInitialize()` is called on the object itself, not on the
slave. -/
def RealtimeAddProcessor (hostLE : Bool) (stem : List Char) (env : EntryResult) (junk : Nat)
    (e : Effect) (_numChannels : Int) (sampleRate : Nat) : Bool × Effect :=
  let slave := newVSTEffect hostLE stem env true junk
  let slave1 := SetSampleRate slave (f32Trunc sampleRate)
  let r := ProcessInitialize e.self
  (r.1, { self := r.2, mSlaves := e.mSlaves ++ [slave1] })

/-! ### The callback bridge -/

/-- Opcodes a plugin passes to `AudioMaster`: the ones its `switch` names,
and any other code. -/
inductive MasterOpcode where
  | audioMasterVersion
  | audioMasterCurrentId
  | audioMasterGetVendorString
  | audioMasterGetProductString
  | audioMasterGetVendorVersion
  | audioMasterNeedIdle
  | audioMasterUpdateDisplay
  | audioMasterGetTime
  | audioMasterIOChanged
  | audioMasterGetSampleRate
  | audioMasterIdle
  | audioMasterGetCurrentProcessLevel
  | audioMasterGetLanguage
  | audioMasterWillReplaceOrAccumulate
  | audioMasterSizeWindow
  | audioMasterCanDo
  | audioMasterBeginEdit
  | audioMasterEndEdit
  | audioMasterAutomate
  | audioMasterPinConnected
  | audioMasterWantMidi
  | audioMasterProcessEvents
  | other (code : Int)
  deriving DecidableEq, Repr

/-- The value `AudioMaster` returns: an integer, or the address of the
owner's `mTimeInfo`. -/
inductive MasterReturn where
  | value (n : Int)
  | timeInfo
  deriving DecidableEq, Repr

/-- Events queued on the dialog by `SizeWindow` and `UpdateDisplay`. -/
inductive UiEvent where
  | EVT_SIZEWINDOW (w h : Int)
  | EVT_UPDATEDISPLAY
  deriving DecidableEq, Repr

/-- The `AEffect *effect` argument of `AudioMaster` when it is not null: its
`user` back-pointer (the owning `VSTEffect`, if attached) and its
`initialDelay`. -/
structure EffectRef where
  user : Option Effect
  initialDelay : Int
  deriving DecidableEq, Repr

/-- Constants `AudioMaster` returns that are declared outside the sources:
`audacityVSTID`, the packed Audacity version and `kVstLangEnglish`. -/
structure HostIdent where
  audacityVSTID : Int
  vendorVersion : Int
  kVstLangEnglish : Int
  deriving DecidableEq, Repr

/-- Outcome of one `AudioMaster` call: the returned value, the owner
afterwards, the text stored through `ptr`, the events queued on the dialog
and whether `wxYieldIfNeeded` was called. -/
structure MasterResult where
  ret : MasterReturn
  vst : Option Effect
  written : List Char
  events : List UiEvent
  yielded : Bool
  deriving DecidableEq, Repr

/-- `VSTEffect::NeedIdle`. -/
def NeedIdle (s : State) : State := { s with mWantsIdle := true, timerRunning := true }

/-- `VSTEffect::UpdateDisplay`: the events queued. -/
def UpdateDisplay (s : State) : List UiEvent :=
  if s.mDlg then [UiEvent.EVT_UPDATEDISPLAY] else []

/-- `VSTEffect::SizeWindow(int w, int h)`: the events queued.  The
parameters are `int`s: an argument outside the `int` range, as the
`intptr_t value` that `AudioMaster` passes for `h` can be, is narrowed to
`int` (two's complement wrap) by the call. -/
def SizeWindow (s : State) (w h : Int) : List UiEvent :=
  if s.mDlg then
    [UiEvent.EVT_SIZEWINDOW (VSTEffectDialog.wrapInt32 w) (VSTEffectDialog.wrapInt32 h)]
  else []

/-- `VSTEffect::GetSampleRate`: `mTimeInfo.sampleRate` as a `float`. -/
def GetSampleRate (s : State) : Nat := s.timeInfoSampleRate

/-- `VSTEffect::GetProcessLevel`. -/
def GetProcessLevel (s : State) : Int := s.mProcessLevel

/-- `VSTEffect::Automate(index, value)`. -/
def Automate (e : Effect) (index : Int) (value : Nat) : Effect :=
  -- Just ignore it if we're a slave
  if e.self.mMaster then e
  else { e with mSlaves := e.mSlaves.map (fun sl => sl.callSetParameter index value) }

/-- `VSTEffect::AudioMaster(effect, opcode, index, value, ptr, opt)`.
`text` is the string `ptr` points at (read by `audioMasterCanDo`), `opt` the
bit pattern of the `float`, `realtime` whether
`EXPERIMENTAL_REALTIME_EFFECTS` is defined. -/
def AudioMaster (host : HostIdent) (realtime : Bool) (effect : Option EffectRef)
    (opcode : MasterOpcode) (index value : Int) (text : List Char) (opt : Nat) : MasterResult :=
  let vst : Option Effect :=
    match effect with
    | some r => r.user
    | none => none
  let done (n : Int) : MasterResult := ⟨MasterReturn.value n, vst, [], [], false⟩
  match opcode with
  | MasterOpcode.audioMasterVersion => done 2400
  | MasterOpcode.audioMasterCurrentId => done host.audacityVSTID
  | MasterOpcode.audioMasterGetVendorString =>
    ⟨MasterReturn.value 1, vst, "Audacity Team".toList, [], false⟩
  | MasterOpcode.audioMasterGetProductString =>
    ⟨MasterReturn.value 1, vst, "Audacity".toList, [], false⟩
  | MasterOpcode.audioMasterGetVendorVersion => done host.vendorVersion
  | MasterOpcode.audioMasterNeedIdle =>
    match vst with
    | some e => ⟨MasterReturn.value 1, some { e with self := NeedIdle e.self }, [], [], false⟩
    | none => done 0
  | MasterOpcode.audioMasterUpdateDisplay =>
    match vst with
    | some e => ⟨MasterReturn.value 1, vst, [], UpdateDisplay e.self, false⟩
    | none => done 0
  | MasterOpcode.audioMasterGetTime =>
    match vst with
    | some _ => ⟨MasterReturn.timeInfo, vst, [], [], false⟩
    | none => done 0
  | MasterOpcode.audioMasterIOChanged =>
    match vst, effect with
    | some e, some r =>
      ⟨MasterReturn.value 1, some { e with self := SetBufferDelay e.self r.initialDelay },
        [], [], false⟩
    | _, _ => done 0
  | MasterOpcode.audioMasterGetSampleRate =>
    match vst with
    | some e => done (f32Trunc (GetSampleRate e.self))
    | none => done 0
  | MasterOpcode.audioMasterIdle => ⟨MasterReturn.value 1, vst, [], [], true⟩
  | MasterOpcode.audioMasterGetCurrentProcessLevel =>
    match vst with
    | some e => done (GetProcessLevel e.self)
    | none => done 0
  | MasterOpcode.audioMasterGetLanguage => done host.kVstLangEnglish
  | MasterOpcode.audioMasterWillReplaceOrAccumulate => done 1
  | MasterOpcode.audioMasterSizeWindow =>
    match vst with
    | some e => ⟨MasterReturn.value 1, vst, [], SizeWindow e.self index value, false⟩
    | none => done 1
  | MasterOpcode.audioMasterCanDo =>
    if text = "acceptIOChanges".toList ∨ text = "sizeWindow".toList then done 1 else done 0
  | MasterOpcode.audioMasterAutomate =>
    match realtime, vst with
    | true, some e => ⟨MasterReturn.value 0, some (Automate e index opt), [], [], false⟩
    | _, _ => done 0
  | MasterOpcode.audioMasterBeginEdit => done 0
  | MasterOpcode.audioMasterEndEdit => done 0
  | MasterOpcode.audioMasterPinConnected => done 0
  | MasterOpcode.audioMasterWantMidi => done 0
  | MasterOpcode.audioMasterProcessEvents => done 0
  | MasterOpcode.other _ => done 0

/-- The slave that `RealtimeAddProcessor` creates and appends for the
instance `d`: constructed as a slave (which loads it), then given the sample
rate. -/
def newSlave (hostLE : Bool) (stem : List Char) (d : PluginDesc) (junk : Nat)
    (sampleRate : Nat) : State :=
  SetSampleRate (newVSTEffect hostLE stem (EntryResult.plugin d) true junk) (f32Trunc sampleRate)

/-- Successive calls of `RealtimeAddProcessor` on a master, one per list
entry: the instance the entry point returns for the new slave, the value
its uninitialised `mSampleRate` holds, and the two arguments of the call. -/
def addProcessors (hostLE : Bool) (stem : List Char) :
    List (PluginDesc × Nat × Int × Nat) → Effect → Effect
  | [], e => e
  | a :: more, e =>
    addProcessors hostLE stem more
      (RealtimeAddProcessor hostLE stem (EntryResult.plugin a.1) a.2.1 e a.2.2.1 a.2.2.2).2

/-- The three conditions `Load` puts on an instance. -/
def acceptable (d : PluginDesc) : Prop :=
  d.magic = kEffectMagic ∧ d.flags &&& effFlagsIsSynth = 0 ∧ d.flags &&& effFlagsCanReplacing ≠ 0

/-! ### Sample plugins -/

/-- A plugin instance that passes the checks of `Load`: right magic,
can-replace flag set, three parameters, two inputs and outputs. -/
def sampleDesc : PluginDesc :=
  { magic := kEffectMagic, flags := effFlagsCanReplacing, numParams := 3, numInputs := 2,
    numOutputs := 2, version := 1, initialDelay := 0, effectName := "Fx".toList,
    productString := [], vendorString := "V".toList, vendorVersion := 0 }

/-- An instance with a wrong magic tag. -/
def badMagicDesc : PluginDesc := { sampleDesc with magic := 0 }

/-- A master effect freshly loaded from `sampleDesc` on a little-endian
host, without slaves. -/
def sampleMaster : Effect :=
  { self := (Load true [] (EntryResult.plugin sampleDesc) (construct false 0)).2, mSlaves := [] }

/-- The effect after `RealtimeAddProcessor(2, 96000.0)` on `sampleMaster`,
the new slave's instance being `sampleDesc` too. -/
def sampleRealtime : Bool × Effect :=
  RealtimeAddProcessor true [] (EntryResult.plugin sampleDesc) 0 sampleMaster 2 (f32OfInt 96000)

/-- Host constants for the examples. -/
def sampleHost : HostIdent := { audacityVSTID := 0, vendorVersion := 0, kVstLangEnglish := 1 }

end VSTEffect

/-! ## Registration of a scanned plugin -/

namespace VSTEffectsModule

/-- The macro `OUTPUTKEY`. -/
def OUTPUTKEY : List Char := "<VSTLOADCHK>-".toList

/-- The macro `KEY_ID`. -/
def KEY_ID : List Char := "ID".toList

/-- The macro `KEY_NAME`. -/
def KEY_NAME : List Char := "Name".toList

/-- The macro `KEY_PATH`. -/
def KEY_PATH : List Char := "Path".toList

/-- The macro `KEY_VENDOR`. -/
def KEY_VENDOR : List Char := "Vendor".toList

/-- The macro `KEY_VERSION`. -/
def KEY_VERSION : List Char := "Version".toList

/-- The macro `KEY_DESCRIPTION`. -/
def KEY_DESCRIPTION : List Char := "Description".toList

/-- The macro `KEY_EFFECTTYPE`. -/
def KEY_EFFECTTYPE : List Char := "EffectType".toList

/-- The macro `KEY_INTERACTIVE`. -/
def KEY_INTERACTIVE : List Char := "Interactive".toList

/-- The pieces of `s` between occurrences of `d`, empty pieces included. -/
def splitAtChar (d : Char) : List Char → List (List Char)
  | [] => [[]]
  | c :: cs =>
    if c = d then [] :: splitAtChar d cs
    else
      match splitAtChar d cs with
      | t :: ts => (c :: t) :: ts
      | [] => [[c]]

/-- The tokens of `wxStringTokenizer(s, wxT("\n"))`: the delimiter being
white space, the tokenizer works in `wxTOKEN_STRTOK` mode and returns the
non-empty pieces between line feeds. -/
def lineTokens (s : List Char) : List (List Char) :=
  (splitAtChar (Char.ofNat 10) s).filter (fun t => !t.isEmpty)

/-- `wxString::StartsWith(pre)`. -/
def StartsWith (pre s : List Char) : Bool := pre.isPrefixOf s

/-- `wxString::Mid(n)`: the string from position `n` on. -/
def Mid (s : List Char) (n : Nat) : List Char := s.drop n

/-- `wxString::BeforeFirst(ch)`: what precedes the first `ch`, the whole
string when there is none. -/
def BeforeFirst (s : List Char) (ch : Char) : List Char := s.takeWhile (· != ch)

/-- `wxString::AfterFirst(ch)`: what follows the first `ch`, the empty string
when there is none. -/
def AfterFirst (s : List Char) (ch : Char) : List Char := (s.dropWhile (· != ch)).drop 1

/-- The members of `VSTSubProcess` filled by `RegisterPlugin`; `mType` is
kept as the text handed to `ToLong`. -/
structure VSTSubProcess where
  mID : List Char
  mPath : List Char
  mName : List Char
  mVendor : List Char
  mVersion : List Char
  mDescription : List Char
  mType : List Char
  mInteractive : Bool
  deriving DecidableEq, Repr

/-- A `VSTSubProcess` as constructed: empty strings. -/
def VSTSubProcess.new : VSTSubProcess := ⟨[], [], [], [], [], [], [], false⟩

/-- The key of a report line: `line.Mid(wxStrlen(OUTPUTKEY)).BeforeFirst('=')`. -/
def lineKey (line : List Char) : List Char := BeforeFirst (Mid line OUTPUTKEY.length) '='

/-- The value of a report line:
`line.AfterFirst('=').BeforeFirst('\r')`. -/
def lineVal (line : List Char) : List Char := BeforeFirst (AfterFirst line '=') (Char.ofNat 13)

/-- One iteration of the `while (tzr.HasMoreTokens())` loop of
`RegisterPlugin` on `line`; the state is `proc` and `keycount`. -/
def registerLine (st : VSTSubProcess × Int) (line : List Char) : VSTSubProcess × Int :=
  -- Our output may follow any output the plugin may have written.
  if !StartsWith OUTPUTKEY line then st
  else
    let key := lineKey line
    let val := lineVal line
    if key = KEY_ID then ({ st.1 with mID := val }, st.2 + 1)
    else if key = KEY_NAME then ({ st.1 with mName := val }, st.2 + 1)
    else if key = KEY_PATH then ({ st.1 with mPath := val }, st.2 + 1)
    else if key = KEY_VENDOR then ({ st.1 with mVendor := val }, st.2 + 1)
    else if key = KEY_VERSION then ({ st.1 with mVersion := val }, st.2 + 1)
    else if key = KEY_DESCRIPTION then ({ st.1 with mDescription := val }, st.2 + 1)
    else if key = KEY_EFFECTTYPE then ({ st.1 with mType := val }, st.2 + 1)
    else if key = KEY_INTERACTIVE then
      ({ st.1 with mInteractive := decide (val = "1".toList) }, st.2 + 1)
    else st

/-- `VSTEffectsModule::RegisterPlugin` on the output `output` of the helper
process (started without exception): the returned `bool` and the descriptor
passed to `pm.RegisterEffectPlugin`, if it is called. -/
def RegisterPlugin (output : List Char) : Bool × Option VSTSubProcess :=
  let st := (lineTokens output).foldl registerLine (VSTSubProcess.new, 0)
  let valid : Bool := decide (st.2 = 8)
  (valid, if valid then some st.1 else none)

/-- The keys `RegisterPlugin` recognises. -/
def recognizedKeys : List (List Char) :=
  [KEY_ID, KEY_NAME, KEY_PATH, KEY_VENDOR, KEY_VERSION, KEY_DESCRIPTION, KEY_EFFECTTYPE,
   KEY_INTERACTIVE]

/-- Whether a line of the output counts: it starts with `OUTPUTKEY` and its
key is a recognised one. -/
def countedLine (line : List Char) : Bool :=
  StartsWith OUTPUTKEY line && recognizedKeys.contains (lineKey line)

/-- Whether the recognised key `k` appears on some counted line of the
output. -/
def keyPresent (output : List Char) (k : List Char) : Bool :=
  (lineTokens output).any (fun line => StartsWith OUTPUTKEY line && lineKey line == k)

/-- The report the helper prints for a plugin (`VSTEffectsModule::Check`),
with the given values, one key per line. -/
def reportOf (kvs : List (List Char × List Char)) : List Char :=
  kvs.flatMap (fun kv => OUTPUTKEY ++ kv.1 ++ "=".toList ++ kv.2 ++ [Char.ofNat 10])

/-- A report with every key once, as the helper prints it. -/
def fullReport : List Char :=
  reportOf [(KEY_ID, "VST_V_Fx_1".toList), (KEY_PATH, "/p/fx.so".toList), (KEY_NAME, "Fx".toList),
    (KEY_VENDOR, "V".toList), (KEY_VERSION, "1".toList), (KEY_DESCRIPTION, "d".toList),
    (KEY_EFFECTTYPE, "2".toList), (KEY_INTERACTIVE, "1".toList)]

/-- A report of eight lines in which `ID` comes twice and `Path` is missing. -/
def reportWithoutPath : List Char :=
  reportOf [(KEY_ID, "VST_V_Fx_1".toList), (KEY_ID, "again".toList), (KEY_NAME, "Fx".toList),
    (KEY_VENDOR, "V".toList), (KEY_VERSION, "1".toList), (KEY_DESCRIPTION, "d".toList),
    (KEY_EFFECTTYPE, "2".toList), (KEY_INTERACTIVE, "1".toList)]

/-- The full report followed by a second `ID` line. -/
def reportWithRepeat : List Char := fullReport ++ reportOf [(KEY_ID, "again".toList)]

end VSTEffectsModule

/-! ## Saving and restoring parameters in the host configuration -/

/-- Biased exponent field of a binary64 bit pattern. -/
def f64Exp (b : Nat) : Nat := b / 2 ^ 52 % 2048

/-- Fraction field of a binary64 bit pattern. -/
def f64Frac (b : Nat) : Nat := b % 2 ^ 52

/-- Sign bit of a binary64 bit pattern. -/
def f64Sign (b : Nat) : Nat := b / 2 ^ 63 % 2

/-- Significand of a finite binary64: its magnitude is
`f64Mant b * 2 ^ f64Scale b / 2 ^ 1074`. -/
def f64Mant (b : Nat) : Nat := if f64Exp b = 0 then f64Frac b else 2 ^ 52 + f64Frac b

/-- Binary scale of a finite binary64 (see `f64Mant`). -/
def f64Scale (b : Nat) : Nat := if f64Exp b = 0 then 0 else f64Exp b - 1

/-- Numerator of the magnitude of a finite binary64, which is
`f64Num b / f64Den b` (the fraction `f64Mant b * 2 ^ f64Scale b / 2 ^ 1074`
with the common power of two removed). -/
def f64Num (b : Nat) : Nat :=
  if 1074 ≤ f64Scale b then f64Mant b * 2 ^ (f64Scale b - 1074) else f64Mant b

/-- Denominator of the magnitude of a finite binary64 (see `f64Num`). -/
def f64Den (b : Nat) : Nat :=
  if 1074 ≤ f64Scale b then 1 else 2 ^ (1074 - f64Scale b)

/-- The C test `val >= -1.0 && val <= 1.0` on a `double` with bit pattern
`b`: the value is not a NaN and its magnitude is at most 1.  (Magnitudes of
IEEE numbers are ordered as their bit patterns without the sign bit;
`0x3FF0000000000000` is 1.0 and patterns above `0x7FF0000000000000` are
NaNs.) -/
def f64InUnitRange (b : Nat) : Bool := decide (b % 2 ^ 63 ≤ 0x3FF0000000000000)

/-- The conversion `(float) val` of a `double` with bit pattern `b`, rounding
to nearest: the binary32 bit pattern.  A NaN becomes the quiet NaN of the
same sign. -/
def f64ToF32 (b : Nat) : Nat :=
  f64Sign b * 2 ^ 31 +
    (if f64Exp b = 2047 then (if f64Frac b = 0 then 0x7F800000 else 0x7FC00000)
     else encodeBinary 23 127 255 (f64Num b) (f64Den b))

namespace VSTEffect

open VSTEffectDialog (Call Opcode Plugin effFlagsProgramChunks)

/-- The text conversions of numbers that `SaveParameters` and
`LoadParameters` take from wxWidgets and the C library:
* `format x`: the text `wxString::Format(wxT("%f"), x)` gives for the `float`
  with bit pattern `x`;
* `toDouble t`: the bit pattern of the `double val`, initialised to 0.0,
  after `t.ToDouble(&val)`. -/
structure NumText where
  format : Nat → List Char
  toDouble : List Char → Nat

/-- Modelled from the spec: the private configuration store of the host
(`mHost->GetPrivateConfig` / `SetPrivateConfig`), which is not among the
sources: text values under a group and a key. -/
abbrev Store := List ((List Char × List Char) × List Char)

/-- Modelled from the spec: `GetPrivateConfig(group, key, value, default)`,
which succeeds exactly when the key is present in the group: the value
found, if any. -/
def Store.get (st : Store) (group key : List Char) : Option (List Char) :=
  (st.find? (fun e => e.1 = (group, key))).map (fun e => e.2)

/-- Modelled from the spec: `SetPrivateConfig(group, key, value)`, which
replaces the value under the key. -/
def Store.set (st : Store) (group key value : List Char) : Store :=
  ((group, key), value) :: st.filter (fun e => e.1 ≠ (group, key))

/-- The loop `HasMoreTokens` / `GetNextToken` of
`wxStringTokenizer(value, wxT(','))` on the text from the current position
on.  The delimiter not being white space, the tokenizer works in
`wxTOKEN_RET_EMPTY` mode: there is a further token when a character other
than the delimiter remains, or at position 0 of a non-empty string; the token
runs up to the next delimiter, which is skipped.  `atStart` tells whether the
position is 0. -/
def tokensFrom : Nat → Bool → List Char → List (List Char)
  | 0, _, _ => []
  | fuel + 1, atStart, rest =>
    if rest.any (· != ',') || (atStart && !rest.isEmpty) then
      rest.takeWhile (· != ',') :: tokensFrom fuel false ((rest.dropWhile (· != ',')).drop 1)
    else []

/-- The tokens `wxStringTokenizer(value, wxT(','))` yields. -/
def valueTokens (value : List Char) : List (List Char) :=
  tokensFrom (value.length + 1) true value

/-- The text `parms` that the loop of `SaveParameters` builds: for each
parameter a comma and the formatted value. -/
def parmsText (lib : NumText) (pl : Plugin) : List Char :=
  (List.range pl.aeffect.numParams.toNat).flatMap
    (fun (i : Nat) => ',' :: lib.format (pl.getParameter (i : Int)))

/-- `VSTEffect::SaveParameters(group)`: the host configuration afterwards.
`clen` is the value returned by the `effGetChunk` call, the chunk being
`pl.getChunk 1`. -/
def SaveParameters (lib : NumText) (pl : Plugin) (clen : Int) (store : Store)
    (group : List Char) : Store :=
  if pl.aeffect.flags &&& effFlagsProgramChunks ≠ 0 ∧ clen > 0 then
    store.set group "Chunk".toList
      (b64encode (((pl.getChunk 1).map (· % 256)).take clen.toNat))
  else
    store.set group "Value".toList ((parmsText lib pl).drop 1)

/-- The body of the `for` loop of `LoadParameters` over the tokens still to
come, `i` being the loop counter: the calls made. -/
def loadTokens (lib : NumText) : Nat → List (List Char) → List Call
  | _, [] => []
  | i, tok :: more =>
    (if f64InUnitRange (lib.toDouble tok) then
        [Call.setParameter (i : Int) (f64ToF32 (lib.toDouble tok))]
      else [])
      ++ loadTokens lib (i + 1) more

/-- `VSTEffect::LoadParameters(group)`: the calls `callDispatcher` and
`callSetParameter` it makes. -/
def LoadParameters (lib : NumText) (store : Store) (group : List Char) : List Call :=
  match store.get group "Chunk".toList with
  | some value =>
    if (b64decode value).1 ≠ 0 then
      [Call.dispatcher Opcode.effSetChunk 1 (b64decode value).1 (b64decode value).2]
    else []
  | none =>
    match store.get group "Value".toList with
    | some value => loadTokens lib 0 (valueTokens value)
    | none => []

/-! ### The conversions in the "C" locale -/

/-- The six decimal digits of `m` below `10 ^ 6`, most significant first. -/
def sixDigits (m : Nat) : List Char :=
  [Nat.digitChar (m / 100000 % 10), Nat.digitChar (m / 10000 % 10),
   Nat.digitChar (m / 1000 % 10), Nat.digitChar (m / 100 % 10),
   Nat.digitChar (m / 10 % 10), Nat.digitChar (m % 10)]

/-- The value in millionths that `%f` prints for a finite `float` with bit
pattern `b`: its magnitude times `10 ^ 6`, rounded to nearest. -/
def millionths (b : Nat) : Nat :=
  roundHalfEven (f32Mant b * 2 ^ f32Scale b * 10 ^ 6) (2 ^ 149)

/-- The text `printf("%f", x)` gives in the "C" locale for the `float` with
bit pattern `b`: sign, integer part, point and six decimals of the value
rounded to nearest. -/
def formatF (b : Nat) : List Char :=
  (if f32Sign b = 1 then ['-'] else []) ++
    (if f32IsNaN b then "nan".toList
     else if f32IsInf b then "inf".toList
     else Nat.toDigits 10 (millionths b / 10 ^ 6) ++ '.' :: sixDigits (millionths b % 10 ^ 6))

/-- The number a string of decimal digits denotes. -/
def digitsValue (ds : List Char) : Nat := ds.foldl (fun a c => 10 * a + (c.toNat - 48)) 0

/-- The decimal exponent part `e±ddd` at the head of `s`, if there is one
with at least one digit: its value, 0 otherwise. -/
def exponentPart (s : List Char) : Int :=
  match s with
  | c :: r =>
    if c = 'e' ∨ c = 'E' then
      match r with
      | '-' :: r1 => if (r1.takeWhile Char.isDigit).isEmpty then 0
          else -(digitsValue (r1.takeWhile Char.isDigit) : Int)
      | '+' :: r1 => (digitsValue (r1.takeWhile Char.isDigit) : Int)
      | _ => (digitsValue (r.takeWhile Char.isDigit) : Int)
    else 0
  | [] => 0

/-- The binary64 bit pattern of `(-1)^neg * m * 10 ^ e`, rounded to nearest. -/
def f64OfDecimal (neg : Bool) (m : Nat) (e : Int) : Nat :=
  (if neg then 2 ^ 63 else 0) +
    (if 0 ≤ e then encodeBinary 52 1023 2047 (m * 10 ^ e.toNat) 1
     else encodeBinary 52 1023 2047 m (10 ^ (-e).toNat))

/-- The decimal numeral at the head of `s`, as `strtod` converts it: digits,
an optional point and digits, an optional exponent; 0.0 when there is no
digit at all. -/
def strtodUnsigned (neg : Bool) (s : List Char) : Nat :=
  let ip := s.takeWhile Char.isDigit
  let r1 := s.dropWhile Char.isDigit
  let fp := match r1 with
    | '.' :: r => r.takeWhile Char.isDigit
    | _ => []
  let r2 := match r1 with
    | '.' :: r => r.dropWhile Char.isDigit
    | _ => r1
  if ip.isEmpty ∧ fp.isEmpty then 0
  else f64OfDecimal neg (digitsValue (ip ++ fp)) (exponentPart r2 - (fp.length : Int))

/-- The C function `isspace` in the "C" locale: the space and the controls
tab, line feed, vertical tab, form feed and carriage return. -/
def isspaceC (c : Char) : Bool := c = ' ' || (9 ≤ c.toNat && c.toNat ≤ 13)

/-- Whether `s` starts with the word whose letters are given in lower and
upper case, whatever the case of the letters in `s`. -/
def startsWithWord : List (Char × Char) → List Char → Bool
  | [], _ => true
  | _ :: _, [] => false
  | w :: ws, c :: cs => (c = w.1 || c = w.2) && startsWithWord ws cs

/-- The C function `isxdigit`. -/
def isxdigitC (c : Char) : Bool :=
  c.isDigit || (97 ≤ c.toNat && c.toNat ≤ 102) || (65 ≤ c.toNat && c.toNat ≤ 70)

/-- The value of a hexadecimal digit. -/
def hexDigitValue (c : Char) : Nat :=
  if c.isDigit then c.toNat - 48
  else if 97 ≤ c.toNat then c.toNat - 87
  else c.toNat - 55

/-- The number a string of hexadecimal digits denotes. -/
def hexValue (ds : List Char) : Nat := ds.foldl (fun a c => 16 * a + hexDigitValue c) 0

/-- The binary exponent part `p±ddd` at the head of `s`, if there is one with
at least one digit: its value, 0 otherwise. -/
def binaryExponentPart (s : List Char) : Int :=
  match s with
  | c :: r =>
    if c = 'p' ∨ c = 'P' then
      match r with
      | '-' :: r1 => if (r1.takeWhile Char.isDigit).isEmpty then 0
          else -(digitsValue (r1.takeWhile Char.isDigit) : Int)
      | '+' :: r1 => (digitsValue (r1.takeWhile Char.isDigit) : Int)
      | _ => (digitsValue (r.takeWhile Char.isDigit) : Int)
    else 0
  | [] => 0

/-- The binary64 bit pattern of `(-1)^neg * m * 2 ^ e`, rounded to nearest. -/
def f64OfBinary (neg : Bool) (m : Nat) (e : Int) : Nat :=
  (if neg then 2 ^ 63 else 0) +
    (if 0 ≤ e then encodeBinary 52 1023 2047 (m * 2 ^ e.toNat) 1
     else encodeBinary 52 1023 2047 m (2 ^ (-e).toNat))

/-- The hexadecimal numeral at the head of `s`, as `strtod` converts it:
`0x` or `0X`, hexadecimal digits with an optional point (at least one digit),
an optional binary exponent.  `none` when `s` does not start with such a
numeral (a `0x` without a digit after it is the decimal numeral `0`). -/
def strtodHex (neg : Bool) : List Char → Option Nat
  | '0' :: x :: rest =>
    if x = 'x' ∨ x = 'X' then
      let ip := rest.takeWhile isxdigitC
      let r1 := rest.dropWhile isxdigitC
      let fp := match r1 with
        | '.' :: r => r.takeWhile isxdigitC
        | _ => []
      let r2 := match r1 with
        | '.' :: r => r.dropWhile isxdigitC
        | _ => r1
      if ip.isEmpty ∧ fp.isEmpty then none
      else some (f64OfBinary neg (hexValue (ip ++ fp))
        (binaryExponentPart r2 - 4 * (fp.length : Int)))
    else none
  | _ => none

/-- What `strtod` converts after white space and sign: `inf` or `infinity`
and `nan` (with or without a parenthesised sequence), in any case of the
letters, give infinity and a quiet NaN; then a hexadecimal numeral, if there
is one; otherwise the decimal numeral. -/
def strtodMagnitude (neg : Bool) (s : List Char) : Nat :=
  if startsWithWord [('i', 'I'), ('n', 'N'), ('f', 'F')] s then
    (if neg then 2 ^ 63 else 0) + 0x7FF0000000000000
  else if startsWithWord [('n', 'N'), ('a', 'A'), ('n', 'N')] s then
    (if neg then 2 ^ 63 else 0) + 0x7FF8000000000000
  else
    match strtodHex neg s with
    | some v => v
    | none => strtodUnsigned neg s

/-- The value `strtod` converts from the longest numeral at the head of `s`
in the "C" locale, as a binary64 bit pattern: optional white space and sign,
then an infinity, a NaN, a hexadecimal or a decimal numeral; 0.0 when `s`
starts with none of them. -/
def strtodC (s : List Char) : Nat :=
  match s.dropWhile isspaceC with
  | '-' :: r => strtodMagnitude true r
  | '+' :: r => strtodMagnitude false r
  | r => strtodMagnitude false r

/-- Whether the `float` with bit pattern `b` is a number in [0, 1]: not a
NaN, not below 0.0 and not above 1.0. -/
def f32InUnit (b : Nat) : Bool := !f32IsNaN b && !f32Lt0 b && !f32Gt1 b

/-- The `float` that comes back for a saved parameter in [0, 1] with bit
pattern `b`: the value is rounded to six decimals (`millionths b`), that
decimal number is converted to the nearest `double`, and the `double` to
the nearest `float`. -/
def sixDecimalRoundTrip (b : Nat) : Nat :=
  f64ToF32 (f64OfDecimal (decide (f32Sign b = 1)) (millionths b) (-6))

/-- The conversions in the "C" locale with wxWidgets 2.8, whose
`ToDouble` stores the result of `strtod` in `val` whether or not the whole
text was a numeral. -/
def cLocale : NumText := { format := formatF, toDouble := strtodC }

/-- The text `t` with every point replaced by a comma and every comma by a
point. -/
def swapRadix (t : List Char) : List Char :=
  t.map (fun c => if c = '.' then ',' else if c = ',' then '.' else c)

/-- The conversions in a locale that differs from the "C" locale in the
decimal separator only, which is the comma (as in `de_DE`): `%f` prints a
comma where the "C" locale prints the point, and `strtod` takes the comma,
and not the point, for the separator. -/
def commaLocale : NumText :=
  { format := fun b => swapRadix (formatF b), toDouble := fun t => strtodC (swapRadix t) }

/-- A plugin with three parameters of the given bit patterns, chunk support
according to `flags`, and the chunk `chunk`. -/
def paramPlugin (flags : Nat) (v0 v1 v2 : Nat) (chunk : List Nat) : Plugin :=
  { aeffect := { uniqueID := 1234, version := 1, numParams := 3, numPrograms := 1,
                 flags := flags },
    getParameter := fun i => if i = 0 then v0 else if i = 1 then v1 else v2,
    programName := fun _ => [], currentProgram := 0, getChunk := fun _ => chunk }

end VSTEffect

/-! ## Version and description texts -/

namespace VSTEffect

open VSTEffectDialog (Opcode)

/-- The text `wxString::Format(wxT("%d"), n)` gives for an `int`: a minus
sign for a negative number, then the decimal digits. -/
def formatD (n : Int) : List Char :=
  if n < 0 then '-' :: Nat.toDigits 10 n.natAbs else Nat.toDigits 10 n.toNat

/-- The `for` loop of `GetVersion` over the shift counts `s` still to come;
`skipping` and `version` are the two locals.  `(mVersion >> s) & 0xff` is the
byte of `mVersion` at bit `s`: the quotient by `2 ^ s` (rounded down, the
shift of a signed value being arithmetic), reduced modulo 256. -/
def versionLoop (mVersion : Int) : List Nat → Bool → List Char → List Char
  | [], _, version => version
  | s :: more, skipping, version =>
    let dig : Int := mVersion / 2 ^ s % 256
    if dig ≠ 0 ∨ skipping = false then
      versionLoop mVersion more false
        (version ++ (if skipping = false then ".".toList else "".toList) ++ formatD dig)
    else versionLoop mVersion more skipping version

/-- `VSTEffect::GetVersion`. -/
def GetVersion (s : State) : List Char := versionLoop s.mVersion [0, 8, 16, 24] true []

/-- The four bytes of the stored version, least significant first. -/
def versionBytes (v : Int) : List Int := [v % 256, v / 2 ^ 8 % 256, v / 2 ^ 16 % 256, v / 2 ^ 24 % 256]

/-- Dotted decimal rendering of a list of bytes after its leading zeros:
every byte from the first non-zero one on, in decimal, separated by `.`. -/
def dottedAfterZeros (bytes : List Int) : List Char :=
  ".".toList.intercalate ((bytes.dropWhile (fun b => decide (b = 0))).map formatD)

/-- `VSTEffect::GetDescription`: the returned text.  The statement of the
source is `mDescription = A + B, C + D;`: the comma is the comma operator,
so `mDescription` is assigned `A + B` (`"Audio In: "` and the input count)
and the value of `C + D` (`", Audio Out: "` and the output count) is
discarded.  The translation `_()` is the identity (untranslated locale). -/
def GetDescription (s : State) : List Char := "Audio In: ".toList ++ formatD s.mAudioIns

/-- What the statement of `GetDescription` would assign with `+` in place of
the comma: both channel counts. -/
def bothCounts (i o : Int) : List Char :=
  "Audio In: ".toList ++ formatD i ++ ", Audio Out: ".toList ++ formatD o

/-- The six calls `Load` makes to a new instance before it looks at the
instance: sample rate 48000.0 and block size 512, identify, open, and rate
and block size once more. -/
def handshake : List PluginCall :=
  [PluginCall.dispatcher Opcode.effSetSampleRate 0 0 (f32OfInt 48000),
   PluginCall.dispatcher Opcode.effSetBlockSize 0 512 0,
   PluginCall.dispatcher Opcode.effIdentify 0 0 0,
   PluginCall.dispatcher Opcode.effOpen 0 0 0,
   PluginCall.dispatcher Opcode.effSetSampleRate 0 0 (f32OfInt 48000),
   PluginCall.dispatcher Opcode.effSetBlockSize 0 512 0]

end VSTEffect

/-! ## Histories of an effect object -/

namespace VSTEffect

/-- The operations on a `VSTEffect` object that the model covers: its
methods, the storing of the `UseBufferDelay` setting (`Startup` and the
settings dialog), and the callbacks its plugin, or the plugin of slave `i`,
makes through `AudioMaster` (`initialDelay` being the field of the calling
`AEffect` at that moment). -/
inductive Op where
  | load (hostLE : Bool) (stem : List Char) (env : EntryResult)
  | unload
  | useBufferDelay (b : Bool)
  | setSampleRate (rate : Int)
  | getBlockSize (maxBlockSize : Int)
  | getLatency
  | processInitialize
  | processFinalize
  | powerOn
  | powerOff
  | setBufferDelay (samples : Int)
  | setParameter (index : Int) (value : Nat)
  | realtimeAddProcessor (hostLE : Bool) (stem : List Char) (env : EntryResult) (junk : Nat)
      (numChannels : Int) (sampleRate : Nat)
  | audioMaster (host : HostIdent) (realtime : Bool) (initialDelay : Int)
      (opcode : MasterOpcode) (index value : Int) (text : List Char) (opt : Nat)
  | slaveAudioMaster (i : Nat) (host : HostIdent) (realtime : Bool) (initialDelay : Int)
      (opcode : MasterOpcode) (index value : Int) (text : List Char) (opt : Nat)
  deriving DecidableEq, Repr

/-- The owner after a callback: `AudioMaster` called with an `AEffect` whose
`user` is `e`. -/
def afterCallback (e : Effect) (host : HostIdent) (realtime : Bool) (initialDelay : Int)
    (opcode : MasterOpcode) (index value : Int) (text : List Char) (opt : Nat) : Effect :=
  match (AudioMaster host realtime (some { user := some e, initialDelay := initialDelay })
      opcode index value text opt).vst with
  | some e1 => e1
  | none => e

/-- One operation on a master effect. -/
def step (e : Effect) : Op → Effect
  | Op.load hostLE stem env => { e with self := (Load hostLE stem env e.self).2 }
  | Op.unload => { e with self := Unload e.self }
  | Op.useBufferDelay b => { e with self := { e.self with mUseBufferDelay := b } }
  | Op.setSampleRate rate => { e with self := SetSampleRate e.self rate }
  | Op.getBlockSize m =>
    { e with self := { e.self with block := (GetBlockSize e.self.block m).2 } }
  | Op.getLatency => { e with self := (GetLatency e.self).2 }
  | Op.processInitialize => { e with self := (ProcessInitialize e.self).2 }
  | Op.processFinalize => { e with self := (ProcessFinalize e.self).2 }
  | Op.powerOn => { e with self := PowerOn e.self }
  | Op.powerOff => { e with self := PowerOff e.self }
  | Op.setBufferDelay samples => { e with self := SetBufferDelay e.self samples }
  | Op.setParameter index value => callSetParameter e index value
  | Op.realtimeAddProcessor hostLE stem env junk numChannels sampleRate =>
    (RealtimeAddProcessor hostLE stem env junk e numChannels sampleRate).2
  | Op.audioMaster host realtime d opcode index value text opt =>
    afterCallback e host realtime d opcode index value text opt
  | Op.slaveAudioMaster i host realtime d opcode index value text opt =>
    { e with
      mSlaves := List.modify
        (fun sl => (afterCallback { self := sl, mSlaves := [] } host realtime d opcode index
          value text opt).self) i e.mSlaves }

/-- A sequence of operations, from the left. -/
def run (e : Effect) (ops : List Op) : Effect := ops.foldl step e

/-- A master effect as the constructor leaves it. -/
def newMaster (junk : Nat) : Effect := { self := construct false junk, mSlaves := [] }

/-- The buffer delays of an effect and of its slaves are not negative. -/
def delaysNonneg (e : Effect) : Prop :=
  0 ≤ e.self.mBufferDelay ∧ ∀ sl ∈ e.mSlaves, 0 ≤ sl.mBufferDelay

end VSTEffect

/-! ## Restoring parameters: ranges -/

/-- Whether the `float` with bit pattern `b` is a number in [-1, 1]: the
pattern without its sign bit is at most that of 1.0 (`0x3F800000`; the
magnitudes of IEEE numbers are ordered as these patterns, and infinities and
NaNs have larger ones). -/
def f32InSignedUnit (b : Nat) : Bool := decide (b % 2 ^ 31 ≤ 0x3F800000)

namespace VSTEffect

/-- A host configuration whose only entry is the "Value" list `value` of
the group "Current". -/
def valueStore (value : List Char) : Store :=
  Store.set [] "Current".toList "Value".toList value

end VSTEffect

/-! ## Saving a bank -/

namespace VSTEffectDialog

/-- `VSTEffectDialog::SaveFXB`: the bytes written to the file (opened and
written without error).  `curProg` is `mProgram->GetCurrentSelection()`; the
bank chunk is `pl.getChunk 0`, its length being the value the `effGetChunk`
call returns.  `hostLE` tells whether the host is little-endian. -/
def SaveFXB (hostLE : Bool) (pl : Plugin) (curProg : Int) : List Nat :=
  let fx := pl.aeffect
  let chunks : Bool := fx.flags &&& effFlagsProgramChunks != 0
  let chunk := pl.getChunk 0
  let chunkSize : Int := chunk.length
  let buf : List Nat :=
    if chunks then []
    else (List.range fx.numPrograms.toNat).foldl
      (fun (b : List Nat) (i : Nat) => SaveFXProgram hostLE pl b (i : Int)) []
  let subType := if chunks then CCONST 'F' 'B' 'C' 'h' else CCONST 'F' 'x' 'B' 'k'
  let dataSize : Int := if chunks then 148 + (4 + chunkSize) else 148 + (buf.length : Int)
  let tab : List Int :=
    [CCONST 'C' 'c' 'n' 'K', dataSize, subType, if curProg ≥ 0 then 2 else 1, fx.uniqueID,
     fx.version, fx.numPrograms, if curProg ≥ 0 then curProg else 0]
  tab.flatMap (putI32 hostLE) ++ List.replicate 124 0 ++
    (if chunks then putI32 hostLE chunkSize ++ chunk.map (· % 256) else buf)

/-- A plugin with chunk support, unique ID 1234, one parameter and two
programs, whose bank chunk is `chunk`. -/
def chunkyPlugin (chunk : List Nat) : Plugin :=
  { aeffect := fxChunky, getParameter := fun _ => 0, programName := fun _ => [],
    currentProgram := 0, getChunk := fun _ => chunk }

end VSTEffectDialog

/-! ## Theorems -/

namespace VSTEffect

theorem and_shiftRight_distrib (a b k : Nat) : (a &&& b) >>> k = (a >>> k) &&& (b >>> k) := by
  apply Nat.eq_of_testBit_eq
  intro i
  simp [Nat.testBit_shiftRight, Nat.testBit_and]

theorem mask8 (x : Nat) : x &&& 0x000000FF = x % 256 :=
  Nat.and_pow_two_sub_one_eq_mod x 8

theorem mask6 (x : Nat) : x &&& 0x0000003F = x % 64 :=
  Nat.and_pow_two_sub_one_eq_mod x 6

theorem mask18 (x : Nat) : (x &&& 0x00FC0000) >>> 18 = x / 2 ^ 18 % 64 := by
  rw [and_shiftRight_distrib, Nat.shiftRight_eq_div_pow]
  exact Nat.and_pow_two_sub_one_eq_mod _ 6

theorem mask12 (x : Nat) : (x &&& 0x0003F000) >>> 12 = x / 2 ^ 12 % 64 := by
  rw [and_shiftRight_distrib, Nat.shiftRight_eq_div_pow]
  exact Nat.and_pow_two_sub_one_eq_mod _ 6

theorem mask06 (x : Nat) : (x &&& 0x00000FC0) >>> 6 = x / 2 ^ 6 % 64 := by
  rw [and_shiftRight_distrib, Nat.shiftRight_eq_div_pow]
  exact Nat.and_pow_two_sub_one_eq_mod _ 6

theorem shl6_or (t s : Nat) (hs : s < 64) :
    ((t <<< 6) % 2 ^ 64) ||| s = (t % 2 ^ 58) * 64 + s := by
  have h1 : (t <<< 6) % 2 ^ 64 = 2 ^ 6 * (t % 2 ^ 58) := by
    rw [Nat.shiftLeft_eq]; omega
  rw [h1, ← Nat.mul_add_lt_is_or (by simpa using hs)]
  omega

theorem cset_class : ∀ s, s < 64 →
    (0x41 ≤ (csetAt s).toNat % 256 ∧ (csetAt s).toNat % 256 ≤ 0x5A ∧
        (csetAt s).toNat % 256 - 0x41 = s) ∨
    (¬ (0x41 ≤ (csetAt s).toNat % 256 ∧ (csetAt s).toNat % 256 ≤ 0x5A) ∧
        0x61 ≤ (csetAt s).toNat % 256 ∧ (csetAt s).toNat % 256 ≤ 0x7A ∧
        (csetAt s).toNat % 256 - 0x47 = s) ∨
    (¬ (0x41 ≤ (csetAt s).toNat % 256 ∧ (csetAt s).toNat % 256 ≤ 0x5A) ∧
        ¬ (0x61 ≤ (csetAt s).toNat % 256 ∧ (csetAt s).toNat % 256 ≤ 0x7A) ∧
        0x30 ≤ (csetAt s).toNat % 256 ∧ (csetAt s).toNat % 256 ≤ 0x39 ∧
        (csetAt s).toNat % 256 + 0x04 = s) ∨
    ((csetAt s).toNat % 256 = 0x2B ∧ s = 0x3E) ∨
    ((csetAt s).toNat % 256 = 0x2F ∧ s = 0x3F) := by
  decide

theorem b64decodeChar_cset (s t n : Nat) (hs : s < 64) :
    b64decodeChar ((csetAt s).toNat % 256) ((t <<< 6) % 2 ^ 64) n
      = .ok ((t % 2 ^ 58) * 64 + s) := by
  rw [← shl6_or t s hs]
  generalize (t <<< 6) % 2 ^ 64 = u
  generalize hc : (csetAt s).toNat % 256 = c
  have h := cset_class s hs
  rw [hc] at h
  unfold b64decodeChar
  rcases h with ⟨h1, h2, h3⟩ | ⟨h0, h1, h2, h3⟩ | ⟨h0, h0', h1, h2, h3⟩ | ⟨h1, h2⟩ | ⟨h1, h2⟩
  · rw [if_pos ⟨h1, h2⟩, h3]
  · rw [if_neg h0, if_pos ⟨h1, h2⟩, h3]
  · rw [if_neg h0, if_neg h0', if_pos ⟨h1, h2⟩, h3]
  · subst h1 h2; rfl
  · subst h1 h2; rfl

theorem b64decodeChar_pad1 (t : Nat) :
    b64decodeChar (padc.toNat % 256) t 1
      = .error [(t >>> 16) &&& 0x000000FF, (t >>> 8) &&& 0x000000FF] := rfl

theorem b64decodeChar_pad2 (t : Nat) :
    b64decodeChar (padc.toNat % 256) t 2 = .error [(t >>> 10) &&& 0x000000FF] := rfl


theorem b64decodeLoop_step (ch : Char) (rest : List Char) (qp temp : Nat) (out : List Nat)
    (s : Nat) (hs : s < 64) (hch : ch = csetAt s) (hqp : qp ≠ 3) :
    b64decodeLoop (ch :: rest) qp temp out
      = b64decodeLoop rest (qp + 1) ((temp % 2 ^ 58) * 64 + s) out := by
  subst hch
  rw [b64decodeLoop, b64decodeChar_cset s temp _ hs]
  simp only [if_neg hqp]

theorem b64decodeLoop_last (ch : Char) (rest : List Char) (temp : Nat) (out : List Nat)
    (s : Nat) (hs : s < 64) (hch : ch = csetAt s) :
    b64decodeLoop (ch :: rest) 3 temp out
      = b64decodeLoop rest 0 ((temp % 2 ^ 58) * 64 + s)
          (out ++ [(((temp % 2 ^ 58) * 64 + s) / 2 ^ 16) % 256,
                   (((temp % 2 ^ 58) * 64 + s) / 2 ^ 8) % 256,
                   ((temp % 2 ^ 58) * 64 + s) % 256]) := by
  subst hch
  rw [b64decodeLoop, b64decodeChar_cset s temp _ hs]
  simp only [if_true, mask8, Nat.shiftRight_eq_div_pow]

theorem b64decodeLoop_quantum (b0 b1 b2 : Nat) (h0 : b0 < 256) (h1 : b1 < 256) (h2 : b2 < 256)
    (tail : List Char) (temp : Nat) (out : List Nat) :
    ∃ temp1, b64decodeLoop (b64encode (b0 :: b1 :: b2 :: []) ++ tail) 0 temp out
      = b64decodeLoop tail 0 temp1 (out ++ [b0, b1, b2]) := by
  simp only [b64encode, List.cons_append, List.nil_append, Nat.shiftLeft_eq, mask18, mask12,
    mask06, mask6]
  rw [b64decodeLoop_step _ _ _ _ _ _ (by omega) rfl (by decide),
    b64decodeLoop_step _ _ _ _ _ _ (by omega) rfl (by decide),
    b64decodeLoop_step _ _ _ _ _ _ (by omega) rfl (by decide),
    b64decodeLoop_last _ _ _ _ _ (by omega) rfl]
  refine ⟨_, congrArg (b64decodeLoop tail 0 _) ?_⟩
  congr 1
  simp only [List.cons.injEq, and_true]
  refine ⟨?_, ?_, ?_⟩ <;> omega

theorem b64decodeLoop_tail2 (b0 b1 : Nat) (h0 : b0 < 256) (h1 : b1 < 256)
    (temp : Nat) (out : List Nat) :
    b64decodeLoop (b64encode [b0, b1]) 0 temp out = out ++ [b0, b1] := by
  simp only [b64encode, Nat.shiftLeft_eq, mask18, mask12, mask06]
  rw [b64decodeLoop_step _ _ _ _ _ _ (by omega) rfl (by decide),
    b64decodeLoop_step _ _ _ _ _ _ (by omega) rfl (by decide),
    b64decodeLoop_step _ _ _ _ _ _ (by omega) rfl (by decide)]
  rw [b64decodeLoop]
  simp only [List.length_nil, Nat.zero_add, b64decodeChar_pad1, mask8,
    Nat.shiftRight_eq_div_pow, Nat.shiftLeft_eq]
  congr 1
  simp only [List.cons.injEq, and_true]
  refine ⟨?_, ?_⟩ <;> omega

theorem b64decodeLoop_tail1 (b0 : Nat) (h0 : b0 < 256) (temp : Nat) (out : List Nat) :
    b64decodeLoop (b64encode [b0]) 0 temp out = out ++ [b0] := by
  simp only [b64encode, Nat.shiftLeft_eq, mask18, mask12]
  rw [b64decodeLoop_step _ _ _ _ _ _ (by omega) rfl (by decide),
    b64decodeLoop_step _ _ _ _ _ _ (by omega) rfl (by decide)]
  rw [b64decodeLoop]
  simp only [List.length_cons, List.length_nil, Nat.zero_add, Nat.reduceAdd, b64decodeChar_pad2, mask8,
    Nat.shiftRight_eq_div_pow, Nat.shiftLeft_eq]
  congr 2
  omega

theorem b64encode_cons3 (b0 b1 b2 : Nat) (rest : List Nat) :
    b64encode (b0 :: b1 :: b2 :: rest) = b64encode [b0, b1, b2] ++ b64encode rest := by
  rw [b64encode, b64encode, b64encode]
  rfl

theorem b64encode_length_mod (x : List Nat) : (b64encode x).length % 4 = 0 := by
  induction x using b64encode.induct with
  | case1 b0 b1 b2 rest ih => simp only [b64encode, List.length_cons]; omega
  | case2 b0 b1 => simp [b64encode]
  | case3 b0 => simp [b64encode]
  | case4 => rfl

theorem b64decodeLoop_encode (x : List Nat) (hx : ∀ b ∈ x, b < 256) :
    ∀ (temp : Nat) (out : List Nat), b64decodeLoop (b64encode x) 0 temp out = out ++ x := by
  induction x using b64encode.induct with
  | case1 b0 b1 b2 rest ih =>
    intro temp out
    have h0 : b0 < 256 := hx b0 (by simp)
    have h1 : b1 < 256 := hx b1 (by simp)
    have h2 : b2 < 256 := hx b2 (by simp)
    have hr : ∀ b ∈ rest, b < 256 := fun b hb => hx b (by simp [hb])
    obtain ⟨t1, ht1⟩ := b64decodeLoop_quantum b0 b1 b2 h0 h1 h2 (b64encode rest) temp out
    rw [b64encode_cons3, ht1, ih hr]
    simp
  | case2 b0 b1 =>
    intro temp out
    exact b64decodeLoop_tail2 b0 b1 (hx b0 (by simp)) (hx b1 (by simp)) temp out
  | case3 b0 =>
    intro temp out
    exact b64decodeLoop_tail1 b0 (hx b0 (by simp)) temp out
  | case4 =>
    intro temp out
    simp [b64encode, b64decodeLoop]

/-- C1: decoding the base64 encoding of any byte buffer returns its length and
writes back exactly its bytes. -/
theorem b64decode_b64encode (x : List Nat) (hx : ∀ b ∈ x, b < 256) :
    b64decode (b64encode x) = (x.length, x) := by
  unfold b64decode
  rw [if_neg (by simp [b64encode_length_mod])]
  simp [b64decodeLoop_encode x hx]

theorem b64decode_b64encode_witness :
    (∀ b ∈ [0, 255, 254, 3, 2], b < 256) ∧
      b64decode (b64encode [0, 255, 254, 3, 2]) = (5, [0, 255, 254, 3, 2]) :=
  ⟨by decide, b64decode_b64encode [0, 255, 254, 3, 2] (by decide)⟩

end VSTEffect

namespace VSTEffectDialog

/-- C4: a buffer that is shorter than 28 bytes, or whose first big-endian
word is not "CcnK", makes `LoadFXProgram` return false with no call made and
with `*bptr` and `len` unchanged, whatever `dryrun` is. -/
theorem LoadFXProgram_bad_magic (fx : AEffect) (data : List Nat) (pos len index : Int)
    (dryrun : Bool) (h : len < 28 ∨ rdI32 data pos 0 ≠ CCONST 'C' 'c' 'n' 'K') :
    LoadFXProgram fx data pos len index dryrun = ⟨false, pos, len, []⟩ := by
  unfold LoadFXProgram
  rcases h with h | h
  · simp only [if_pos h]
  · by_cases hl : len < 28
    · simp only [if_pos hl]
    · simp only [if_neg hl, if_pos h]

theorem LoadFXProgram_bad_magic_witness :
    ((60 : Int) < 28 ∨ rdI32 (List.replicate 60 0) 0 0 ≠ CCONST 'C' 'c' 'n' 'K') ∧
      LoadFXProgram fxPlain (List.replicate 60 0) 0 60 0 false = ⟨false, 0, 60, []⟩ :=
  ⟨by decide, LoadFXProgram_bad_magic fxPlain (List.replicate 60 0) 0 60 0 false (by decide)⟩

/-- C5: when the program count declared in word 6 of the bank header differs
from the plugin's `numPrograms`, `LoadFXB` returns false and makes no call. -/
theorem LoadFXB_numPrograms_mismatch (fx : AEffect) (data : List Nat)
    (h : rdI32 data 0 6 ≠ fx.numPrograms) : LoadFXB fx data = (false, []) := by
  unfold LoadFXB
  by_cases hl : ((data.length : Nat) : Int) < 156
  · simp only [if_pos hl]
  · by_cases hm : rdI32 data 0 0 ≠ CCONST 'C' 'c' 'n' 'K'
    · simp only [if_neg hl, if_pos hm]
    · by_cases hv : rdI32 data 0 3 ≠ 1 ∧ rdI32 data 0 3 ≠ 2
      · simp only [if_neg hl, if_neg hm, if_pos hv]
      · by_cases hu : rdI32 data 0 4 ≠ fx.uniqueID
        · simp only [if_neg hl, if_neg hm, if_neg hv, if_pos hu]
        · simp only [if_neg hl, if_neg hm, if_neg hv, if_neg hu, if_pos h]

theorem LoadFXB_numPrograms_mismatch_witness :
    rdI32 (bankHeader (CCONST 'F' 'x' 'B' 'k') 1 1234 3 ++ progRecord 1 0) 0 6
        ≠ fxPlain.numPrograms ∧
      LoadFXB fxPlain (bankHeader (CCONST 'F' 'x' 'B' 'k') 1 1234 3 ++ progRecord 1 0)
        = (false, []) :=
  ⟨by decide, LoadFXB_numPrograms_mismatch fxPlain _ (by decide)⟩

/-- C6: a program record whose unique-ID word differs from the plugin's
`uniqueID`, or whose declared parameter count differs from the plugin's
`numParams`, makes `LoadFXProgram` return false with no call made; a bank
header whose unique-ID word differs from the plugin's makes `LoadFXB` return
false with no call made. -/
theorem load_identity_mismatch (fx : AEffect) (data : List Nat) (pos len index : Int)
    (dryrun : Bool) :
    ((rdI32 data pos 4 ≠ fx.uniqueID ∨ rdI32 data pos 6 ≠ fx.numParams) →
        LoadFXProgram fx data pos len index dryrun = ⟨false, pos, len, []⟩) ∧
      (rdI32 data 0 4 ≠ fx.uniqueID → LoadFXB fx data = (false, [])) := by
  constructor
  · intro h
    unfold LoadFXProgram
    by_cases hl : len < 28
    · simp only [if_pos hl]
    · by_cases hm : rdI32 data pos 0 ≠ CCONST 'C' 'c' 'n' 'K'
      · simp only [if_neg hl, if_pos hm]
      · by_cases hu : rdI32 data pos 4 ≠ fx.uniqueID
        · simp only [if_neg hl, if_neg hm, if_pos hu]
        · have hn : rdI32 data pos 6 ≠ fx.numParams := h.resolve_left hu
          simp only [if_neg hl, if_neg hm, if_neg hu, if_pos hn]
  · intro h
    unfold LoadFXB
    by_cases hl : ((data.length : Nat) : Int) < 156
    · simp only [if_pos hl]
    · by_cases hm : rdI32 data 0 0 ≠ CCONST 'C' 'c' 'n' 'K'
      · simp only [if_neg hl, if_pos hm]
      · by_cases hv : rdI32 data 0 3 ≠ 1 ∧ rdI32 data 0 3 ≠ 2
        · simp only [if_neg hl, if_neg hm, if_pos hv]
        · simp only [if_neg hl, if_neg hm, if_neg hv, if_pos h]

theorem load_identity_mismatch_witness :
    ((rdI32 (progRecord 1 0) 0 4 ≠ fxPlain.uniqueID
          ∨ rdI32 (progRecord 1 0) 0 6 ≠ ({ fxPlain with numParams := 3 } : AEffect).numParams) ∧
        LoadFXProgram { fxPlain with numParams := 3 } (progRecord 1 0) 0 60 0 false
          = ⟨false, 0, 60, []⟩) ∧
      (rdI32 (progRecord 1 0) 0 4 ≠ ({ fxPlain with uniqueID := 77 } : AEffect).uniqueID ∧
        LoadFXB { fxPlain with uniqueID := 77 } (progRecord 1 0) = (false, [])) :=
  ⟨⟨by decide,
      (load_identity_mismatch { fxPlain with numParams := 3 } (progRecord 1 0) 0 60 0 false).1
        (by decide)⟩,
    ⟨by decide,
      (load_identity_mismatch { fxPlain with uniqueID := 77 } (progRecord 1 0) 0 60 0 false).2
        (by decide)⟩⟩

/-- C8: an "FxCk" record one of whose declared parameter values is below 0.0
or above 1.0 makes `LoadFXProgram` return false without any call, so without
any `setParameter`, whatever `dryrun` is. -/
theorem LoadFXProgram_value_out_of_range (fx : AEffect) (data : List Nat)
    (pos len index : Int) (dryrun : Bool)
    (hsub : rdI32 data pos 2 = CCONST 'F' 'x' 'C' 'k')
    (i : Nat) (hi : (i : Int) < rdI32 data pos 6)
    (hbad : f32Lt0 (rdU32 data pos (14 + i)) = true ∨ f32Gt1 (rdU32 data pos (14 + i)) = true) :
    LoadFXProgram fx data pos len index dryrun = ⟨false, pos, len, []⟩ := by
  have hany : (List.range (rdI32 data pos 6).toNat).any
      (fun i => f32Lt0 (rdU32 data pos (14 + i)) || f32Gt1 (rdU32 data pos (14 + i))) = true := by
    rw [List.any_eq_true]
    refine ⟨i, ?_, ?_⟩
    · rw [List.mem_range]; omega
    · simpa [Bool.or_eq_true] using hbad
  unfold LoadFXProgram
  simp only [hsub, hany, if_true]
  split_ifs <;> rfl

theorem LoadFXProgram_value_out_of_range_witness :
    (rdI32 (progRecord 1 0x3F800001) 0 2 = CCONST 'F' 'x' 'C' 'k' ∧
        ((0 : Nat) : Int) < rdI32 (progRecord 1 0x3F800001) 0 6 ∧
        (f32Lt0 (rdU32 (progRecord 1 0x3F800001) 0 (14 + (0 : Nat))) = true ∨
          f32Gt1 (rdU32 (progRecord 1 0x3F800001) 0 (14 + (0 : Nat))) = true)) ∧
      LoadFXProgram fxPlain (progRecord 1 0x3F800001) 0 60 0 false = ⟨false, 0, 60, []⟩ :=
  ⟨⟨by decide, by decide, by decide⟩,
    LoadFXProgram_value_out_of_range fxPlain (progRecord 1 0x3F800001) 0 60 0 false
      (by decide) 0 (by decide) (by decide)⟩

/-- C2: on a bank of two programs whose dry run fails on program 1,
`LoadFXB` returns false but has already applied program 0: the parameter
and the program name of program 0 have been set. -/
theorem LoadFXB_applies_programs_before_failure :
    dryRunPrograms fxPlain bankSecondBad (List.range 2) 156 120 = some 1 ∧
      LoadFXB fxPlain bankSecondBad
        = (false, [Call.setParameter 0 0x3F000000, Call.comboSetString 0 [],
                   Call.comboSetValue [], Call.setString Opcode.effSetProgramName [] 0]) := by
  set_option maxRecDepth 100000 in decide

/-- C3: on a little-endian host the file `SaveFXP` writes for a plugin whose
single parameter is 0.3 (bit pattern `0x3E99999A`, inside [0, 1]) is rejected
by `LoadFXP` on the same plugin, and the file written for the value 0.5
(`0x3F000000`) is accepted but sets the parameter to 0.0. -/
theorem SaveFXP_LoadFXP_loses_parameters :
    f32Lt0 0x3E99999A = false ∧ f32Gt1 0x3E99999A = false ∧
      LoadFXP fxPlain (SaveFXP true (plainPlugin 0x3E99999A)) 0 = ⟨false, 0, 60, []⟩ ∧
      LoadFXP fxPlain (SaveFXP true (plainPlugin 0x3F000000)) 0
        = ⟨true, 60, 0, [Call.setParameter 0 0, Call.comboSetString 0 [80, 49],
            Call.comboSetValue [80, 49],
            Call.setString Opcode.effSetProgramName [80, 49] 0]⟩ := by
  decide

/-- C9: an "FPCh" record whose size word is -100 is accepted by
`LoadFXProgram` on a plugin with chunk support: it returns true, hands the
size -100 to `effSetChunk`, moves `*bptr` back by 40 bytes and raises `len`
from 60 to 100. -/
theorem LoadFXProgram_accepts_negative_chunk_size :
    rdI32 (chunkRecord (-100)) 0 14 = -100 ∧
      LoadFXProgram fxChunky (chunkRecord (-100)) 0 60 0 false
        = ⟨true, -40, 100, [Call.dispatcher Opcode.effSetChunk 1 (-100) [],
            Call.comboSetString 0 [], Call.comboSetValue [],
            Call.setString Opcode.effSetProgramName [] 0]⟩ := by
  decide

/-- C7, as stated, fails: a program record whose version word is 7 is
accepted by `LoadFXProgram` (and so by `LoadFXP`), which sets the parameter. -/
theorem LoadFXProgram_accepts_version_7 :
    rdI32 (progRecord 7 0x3F000000) 0 3 = 7 ∧
      LoadFXProgram fxPlain (progRecord 7 0x3F000000) 0 60 0 false
        = ⟨true, 60, 0, [Call.setParameter 0 0x3F000000, Call.comboSetString 0 [],
            Call.comboSetValue [], Call.setString Opcode.effSetProgramName [] 0]⟩ ∧
      (LoadFXP fxPlain (progRecord 7 0x3F000000) 0).ret = true := by
  decide

theorem byteAt_splice (pre w w1 post : List Nat) (hw : w.length = w1.length) (i : Int)
    (hi : i < pre.length ∨ (pre.length : Int) + w.length ≤ i) :
    byteAt (pre ++ w ++ post) i = byteAt (pre ++ w1 ++ post) i := by
  unfold byteAt
  by_cases h0 : 0 ≤ i
  · obtain ⟨n, rfl⟩ := Int.eq_ofNat_of_zero_le h0
    simp only [if_pos h0, Int.toNat_ofNat, List.append_assoc]
    rcases hi with hi | hi
    · have hn : n < pre.length := by omega
      rw [List.getD_append _ _ _ _ hn, List.getD_append _ _ _ _ hn]
    · have hn : pre.length ≤ n := by omega
      rw [List.getD_append_right _ _ _ _ hn, List.getD_append_right _ _ _ _ hn,
        List.getD_append_right _ _ _ _ (by omega : w.length ≤ n - pre.length),
        List.getD_append_right _ _ _ _ (by omega : w1.length ≤ n - pre.length), hw]
  · simp only [if_neg h0]

theorem rdU32_splice (pre w w1 post : List Nat) (hw : w.length = w1.length) (pos k : Int)
    (hk : pos + 4 * k + 3 < pre.length ∨ (pre.length : Int) + w.length ≤ pos + 4 * k) :
    rdU32 (pre ++ w ++ post) pos k = rdU32 (pre ++ w1 ++ post) pos k := by
  unfold rdU32
  rw [byteAt_splice pre w w1 post hw (pos + 4 * k) (by omega),
    byteAt_splice pre w w1 post hw (pos + 4 * k + 1) (by omega),
    byteAt_splice pre w w1 post hw (pos + 4 * k + 2) (by omega),
    byteAt_splice pre w w1 post hw (pos + 4 * k + 3) (by omega)]

theorem drop_splice (pre w w1 post : List Nat) (hw : w.length = w1.length) (n : Nat)
    (hn : pre.length + w.length ≤ n) :
    (pre ++ w ++ post).drop n = (pre ++ w1 ++ post).drop n := by
  have h1 : n = (pre ++ w).length + (n - (pre.length + w.length)) := by
    rw [List.length_append]; omega
  have h2 : n = (pre ++ w1).length + (n - (pre.length + w.length)) := by
    rw [List.length_append]; omega
  conv_lhs => rw [h1, List.drop_append]
  conv_rhs => rw [h2, List.drop_append]

/-- `LoadFXProgram` does not read word 3 (the format version) of the record:
replacing the four bytes at offset `pos + 12` leaves its outcome unchanged. -/
theorem LoadFXProgram_ignores_version (fx : AEffect) (pre w w1 post : List Nat) (pos : Nat)
    (len index : Int) (dryrun : Bool)
    (hpre : pre.length = pos + 12) (hw : w.length = 4) (hw1 : w1.length = 4) :
    LoadFXProgram fx (pre ++ w ++ post) pos len index dryrun
      = LoadFXProgram fx (pre ++ w1 ++ post) pos len index dryrun := by
  have hww : w.length = w1.length := by rw [hw, hw1]
  have h0 := rdU32_splice pre w w1 post hww pos 0 (by omega)
  have h2 := rdU32_splice pre w w1 post hww pos 2 (by omega)
  have h4 := rdU32_splice pre w w1 post hww pos 4 (by omega)
  have h6 := rdU32_splice pre w w1 post hww pos 6 (by omega)
  have h14 := rdU32_splice pre w w1 post hww pos 14 (by omega)
  have hi : ∀ i : Nat, rdU32 (pre ++ w ++ post) pos (14 + i)
      = rdU32 (pre ++ w1 ++ post) pos (14 + i) :=
    fun i => rdU32_splice pre w w1 post hww pos (14 + i) (by omega)
  have hc : cstrAt (pre ++ w ++ post) (pos + 28) = cstrAt (pre ++ w1 ++ post) (pos + 28) := by
    unfold cstrAt
    rw [drop_splice pre w w1 post hww _ (by omega)]
  have hb : ∀ n : Int, bytesAt (pre ++ w ++ post) (pos + 60) n
      = bytesAt (pre ++ w1 ++ post) (pos + 60) n := by
    intro n
    unfold bytesAt
    rw [drop_splice pre w w1 post hww _ (by omega)]
  unfold LoadFXProgram
  simp only [rdI32, h0, h2, h4, h6, h14, hi, hc, hb]

/-- C7, amended: a bank whose version word is neither 1 nor 2 makes `LoadFXB`
return false with no call made; `LoadFXProgram` does not examine the version
word of a program record, its outcome being the same whatever the four bytes
of that word are. -/
theorem version_checked_by_LoadFXB_only (fx : AEffect) (data pre w w1 post : List Nat)
    (pos : Nat) (len index : Int) (dryrun : Bool) :
    ((rdI32 data 0 3 ≠ 1 ∧ rdI32 data 0 3 ≠ 2) → LoadFXB fx data = (false, [])) ∧
      (pre.length = pos + 12 → w.length = 4 → w1.length = 4 →
        LoadFXProgram fx (pre ++ w ++ post) pos len index dryrun
          = LoadFXProgram fx (pre ++ w1 ++ post) pos len index dryrun) := by
  constructor
  · intro hv
    unfold LoadFXB
    by_cases hl : ((data.length : Nat) : Int) < 156
    · simp only [if_pos hl]
    · by_cases hm : rdI32 data 0 0 ≠ CCONST 'C' 'c' 'n' 'K'
      · simp only [if_neg hl, if_pos hm]
      · simp only [if_neg hl, if_neg hm, if_pos hv]
  · exact LoadFXProgram_ignores_version fx pre w w1 post pos len index dryrun

theorem version_checked_by_LoadFXB_only_witness :
    ((rdI32 (bankHeader (CCONST 'F' 'x' 'B' 'k') 3 1234 2) 0 3 ≠ 1
          ∧ rdI32 (bankHeader (CCONST 'F' 'x' 'B' 'k') 3 1234 2) 0 3 ≠ 2) ∧
        LoadFXB fxPlain (bankHeader (CCONST 'F' 'x' 'B' 'k') 3 1234 2) = (false, [])) ∧
      ((beWords [CCONST 'C' 'c' 'n' 'K', 52, CCONST 'F' 'x' 'C' 'k']).length = 0 + 12 ∧
        (beWords [1]).length = 4 ∧ (beWords [7]).length = 4 ∧
        LoadFXProgram fxPlain
            (beWords [CCONST 'C' 'c' 'n' 'K', 52, CCONST 'F' 'x' 'C' 'k'] ++ beWords [1]
              ++ (beWords [1234, 1, 1] ++ List.replicate 28 0 ++ beWords [0x3F000000]))
            (0 : Nat) 60 0 false
          = LoadFXProgram fxPlain
            (beWords [CCONST 'C' 'c' 'n' 'K', 52, CCONST 'F' 'x' 'C' 'k'] ++ beWords [7]
              ++ (beWords [1234, 1, 1] ++ List.replicate 28 0 ++ beWords [0x3F000000]))
            (0 : Nat) 60 0 false) :=
  ⟨⟨by decide,
      (version_checked_by_LoadFXB_only fxPlain (bankHeader (CCONST 'F' 'x' 'B' 'k') 3 1234 2)
        [] [] [] [] 0 0 0 false).1 (by decide)⟩,
    ⟨by decide, by decide, by decide,
      (version_checked_by_LoadFXB_only fxPlain []
        (beWords [CCONST 'C' 'c' 'n' 'K', 52, CCONST 'F' 'x' 'C' 'k']) (beWords [1])
        (beWords [7]) (beWords [1234, 1, 1] ++ List.replicate 28 0 ++ beWords [0x3F000000])
        0 60 0 false).2 (by decide) (by decide) (by decide)⟩⟩

end VSTEffectDialog

namespace VSTEffect

/-- C10: `GetBlockSize(m)` returns the smaller of the user-configured block
size and `m`; the result never exceeds `m`, equals the configured size
exactly when that size is at most `m`, and is the value left in
`mBlockSize`. -/
theorem GetBlockSize_min (s : BlockState) (m : Int) :
    (GetBlockSize s m).1 = min s.mUserBlockSize m ∧
      (GetBlockSize s m).1 ≤ m ∧
      ((GetBlockSize s m).1 = s.mUserBlockSize ↔ s.mUserBlockSize ≤ m) ∧
      (GetBlockSize s m).2.mBlockSize = (GetBlockSize s m).1 ∧
      (GetBlockSize s m).2.mUserBlockSize = s.mUserBlockSize := by
  have h1 : GetBlockSize s m
      = (min s.mUserBlockSize m, { s with mBlockSize := min s.mUserBlockSize m }) := by
    unfold GetBlockSize
    by_cases h : s.mUserBlockSize > m
    · rw [if_pos h, min_eq_right (le_of_lt h)]
    · rw [if_neg h, min_eq_left (not_lt.mp h)]
  rw [h1]
  exact ⟨rfl, min_le_right _ _, min_eq_left_iff, rfl, rfl⟩

end VSTEffect

namespace VSTEffect

open VSTEffectDialog (Opcode)

/-- C11: from power off, two `PowerOn` calls dispatch exactly
`effMainsChanged(1)` then `effStartProcess`, once; `PowerOn` when on and
`PowerOff` when off change nothing; `PowerOff` from on dispatches
`effStopProcess` then `effMainsChanged(0)`, once, and a second `PowerOff`
adds nothing. -/
theorem power_idempotent (s : State) :
    (s.mHasPower = false →
        (PowerOn (PowerOn s)).calls
            = s.calls ++ [PluginCall.dispatcher Opcode.effMainsChanged 0 1 0,
                          PluginCall.dispatcher Opcode.effStartProcess 0 0 0]
          ∧ (PowerOn (PowerOn s)).mHasPower = true ∧ PowerOn (PowerOn s) = PowerOn s
          ∧ PowerOff s = s) ∧
      (s.mHasPower = true →
        PowerOn s = s
          ∧ (PowerOff (PowerOff s)).calls
            = s.calls ++ [PluginCall.dispatcher Opcode.effStopProcess 0 0 0,
                          PluginCall.dispatcher Opcode.effMainsChanged 0 0 0]
          ∧ (PowerOff (PowerOff s)).mHasPower = false ∧ PowerOff (PowerOff s) = PowerOff s) := by
  constructor
  · intro h
    simp [PowerOn, PowerOff, callDispatcher, h]
  · intro h
    simp [PowerOn, PowerOff, callDispatcher, h]

theorem power_idempotent_witness :
    ((construct false 0).mHasPower = false ∧
        (PowerOn (PowerOn (construct false 0))).calls
            = (construct false 0).calls ++ [PluginCall.dispatcher Opcode.effMainsChanged 0 1 0,
                          PluginCall.dispatcher Opcode.effStartProcess 0 0 0]
          ∧ (PowerOn (PowerOn (construct false 0))).mHasPower = true
          ∧ PowerOn (PowerOn (construct false 0)) = PowerOn (construct false 0)
          ∧ PowerOff (construct false 0) = construct false 0) ∧
      ((PowerOn (construct false 0)).mHasPower = true ∧
        PowerOn (PowerOn (construct false 0)) = PowerOn (construct false 0)
          ∧ (PowerOff (PowerOff (PowerOn (construct false 0)))).calls
            = (PowerOn (construct false 0)).calls
                ++ [PluginCall.dispatcher Opcode.effStopProcess 0 0 0,
                    PluginCall.dispatcher Opcode.effMainsChanged 0 0 0]
          ∧ (PowerOff (PowerOff (PowerOn (construct false 0)))).mHasPower = false
          ∧ PowerOff (PowerOff (PowerOn (construct false 0)))
              = PowerOff (PowerOn (construct false 0))) :=
  ⟨⟨by decide, (power_idempotent (construct false 0)).1 (by decide)⟩,
    ⟨by decide, (power_idempotent (PowerOn (construct false 0))).2 (by decide)⟩⟩

/-- C12: with delay compensation enabled `GetLatency` returns the pending
buffer delay and resets it, so that the next `GetLatency` returns 0; with
delay compensation disabled it returns 0 and leaves the state as it is. -/
theorem GetLatency_one_shot (s : State) :
    (s.mUseBufferDelay = true →
        (GetLatency s).1 = s.mBufferDelay ∧ (GetLatency s).2.mBufferDelay = 0
          ∧ (GetLatency (GetLatency s).2).1 = 0) ∧
      (s.mUseBufferDelay = false → GetLatency s = (0, s)) := by
  constructor
  · intro h
    simp [GetLatency, h]
  · intro h
    simp [GetLatency, h]

theorem GetLatency_one_shot_witness :
    ((SetBufferDelay (construct false 0) 512).mUseBufferDelay = true ∧
        (GetLatency (SetBufferDelay (construct false 0) 512)).1 = 512
          ∧ (GetLatency (SetBufferDelay (construct false 0) 512)).2.mBufferDelay = 0
          ∧ (GetLatency (GetLatency (SetBufferDelay (construct false 0) 512)).2).1 = 0) ∧
      (({ construct false 0 with mUseBufferDelay := false, mBufferDelay := 7 } : State).mUseBufferDelay
          = false ∧
        GetLatency { construct false 0 with mUseBufferDelay := false, mBufferDelay := 7 }
          = (0, { construct false 0 with mUseBufferDelay := false, mBufferDelay := 7 })) :=
  ⟨⟨by decide, (GetLatency_one_shot (SetBufferDelay (construct false 0) 512)).1 (by decide)⟩,
    ⟨by decide,
      (GetLatency_one_shot { construct false 0 with mUseBufferDelay := false, mBufferDelay := 7 }).2
        (by decide)⟩⟩

theorem PowerOff_fields (s : State) :
    (PowerOff s).mModule = s.mModule ∧ (PowerOff s).mAEffect = s.mAEffect
      ∧ (PowerOff s).released = s.released ∧ (PowerOff s).mTimer = s.mTimer
      ∧ (PowerOff s).mHasPower = false := by
  unfold PowerOff
  by_cases h : s.mHasPower = true
  · simp [h, callDispatcher]
  · simp [h]

theorem Unload_of_module (s : State) (h : s.mModule = true) :
    (Unload s).mModule = false ∧ (Unload s).mAEffect = none
      ∧ (Unload s).released = s.released + 1 := by
  unfold Unload
  by_cases ht : s.mTimer = true <;> by_cases ha : s.mAEffect.isSome = true <;>
    simp [ht, ha, h, callDispatcher, PowerOff_fields]

theorem Unload_unloaded (s : State) (hm : s.mModule = false) (ha : s.mAEffect = none) :
    Unload s = { s with mTimer := false, timerRunning := if s.mTimer then false else s.timerRunning }
      := by
  unfold Unload
  by_cases ht : s.mTimer = true
  · simp [ht, ha, hm]
  · have ht1 : s.mTimer = false := by simpa using ht
    cases s
    simp_all

theorem LoadInstance_success_iff (hostLE : Bool) (stem : List Char) (s : State) (d : PluginDesc) :
    (LoadInstance hostLE stem s d).1 = true
      ↔ (d.magic = kEffectMagic ∧ d.flags &&& effFlagsIsSynth = 0
          ∧ d.flags &&& effFlagsCanReplacing ≠ 0) := by
  unfold LoadInstance
  by_cases h : d.magic = kEffectMagic ∧ d.flags &&& effFlagsIsSynth = 0
      ∧ d.flags &&& effFlagsCanReplacing ≠ 0
  · simp only [if_pos h]
    exact ⟨fun _ => h, fun _ => trivial⟩
  · simp only [if_neg h]
    exact ⟨fun hc => by simp at hc, fun hc => absurd hc h⟩

theorem LoadInstance_fields (hostLE : Bool) (stem : List Char) (s : State) (d : PluginDesc) :
    (LoadInstance hostLE stem s d).2.mModule = s.mModule
      ∧ (LoadInstance hostLE stem s d).2.mAEffect = s.mAEffect
      ∧ (LoadInstance hostLE stem s d).2.mHasPower = s.mHasPower
      ∧ (LoadInstance hostLE stem s d).2.mReady = s.mReady
      ∧ (LoadInstance hostLE stem s d).2.released = s.released := by
  unfold LoadInstance
  by_cases h : d.magic = kEffectMagic ∧ d.flags &&& effFlagsIsSynth = 0
      ∧ d.flags &&& effFlagsCanReplacing ≠ 0
  · simp only [if_pos h]
    by_cases hn : d.effectName.length = 0 <;> cases hostLE <;>
      simp [GetString, callDispatcher, hn]
  · simp only [if_neg h]
    simp [callDispatcher]

/-- C17: when the entry point returns an instance, `Load` returns true
exactly when the instance's magic is `kEffectMagic`, its is-synth flag is
clear and its can-replace flag is set; and whenever `Load` returns false,
whatever the library gave, neither a plugin instance nor a module handle is
retained. -/
theorem Load_success_iff (hostLE : Bool) (stem : List Char) (s : State) (d : PluginDesc)
    (env : EntryResult) :
    ((Load hostLE stem (EntryResult.plugin d) s).1 = true
        ↔ (d.magic = kEffectMagic ∧ d.flags &&& effFlagsIsSynth = 0
            ∧ d.flags &&& effFlagsCanReplacing ≠ 0)) ∧
      ((Load hostLE stem env s).1 = false →
        (Load hostLE stem env s).2.mAEffect = none ∧ (Load hostLE stem env s).2.mModule = false)
      := by
  constructor
  · rw [← LoadInstance_success_iff hostLE stem
      { s with mModule := true, mAEffect := some d } d]
    unfold Load
    by_cases h : (LoadInstance hostLE stem { s with mModule := true, mAEffect := some d } d).1
        = true
    · simp [h]
    · simp [h]
  · intro hfail
    cases env with
    | noLibrary => simp [Load]
    | noEntryPoint => simp [Load]
    | noInstance =>
      have hu := Unload_of_module { s with mModule := true, mAEffect := none } rfl
      simp only [Load]
      exact ⟨hu.2.1, hu.1⟩
    | plugin d1 =>
      have hf := LoadInstance_fields hostLE stem
        { s with mModule := true, mAEffect := some d1 } d1
      have hu := Unload_of_module
        (LoadInstance hostLE stem { s with mModule := true, mAEffect := some d1 } d1).2
        (by rw [hf.1])
      unfold Load at hfail ⊢
      by_cases h : (LoadInstance hostLE stem { s with mModule := true, mAEffect := some d1 } d1).1
          = true
      · simp [h] at hfail
      · simp only [h]
        exact ⟨hu.2.1, hu.1⟩

theorem Load_success_iff_witness :
    ((Load true [] (EntryResult.plugin badMagicDesc) (construct false 0)).1 = true
        ↔ (badMagicDesc.magic = kEffectMagic ∧ badMagicDesc.flags &&& effFlagsIsSynth = 0
            ∧ badMagicDesc.flags &&& effFlagsCanReplacing ≠ 0)) ∧
      ((Load true [] (EntryResult.plugin badMagicDesc) (construct false 0)).1 = false ∧
        (Load true [] (EntryResult.plugin badMagicDesc) (construct false 0)).2.mAEffect = none ∧
        (Load true [] (EntryResult.plugin badMagicDesc) (construct false 0)).2.mModule = false) :=
  ⟨(Load_success_iff true [] (construct false 0) badMagicDesc
      (EntryResult.plugin badMagicDesc)).1,
    ⟨by decide,
      (Load_success_iff true [] (construct false 0) badMagicDesc
        (EntryResult.plugin badMagicDesc)).2 (by decide)⟩⟩

/-- C18, as stated, fails for a never-loaded effect: its first `Unload`
deletes the idle timer, so the state does change. -/
theorem Unload_never_loaded_changes_state :
    Unload (construct false 0) ≠ construct false 0
      ∧ (construct false 0).mTimer = true ∧ (Unload (construct false 0)).mTimer = false := by
  decide

theorem Unload_idem (s : State) (h : s.mAEffect.isSome = true → s.mModule = true) :
    Unload (Unload s) = Unload s := by
  unfold Unload
  by_cases ht : s.mTimer = true <;> by_cases hm : s.mModule = true <;>
    cases ha : s.mAEffect <;> by_cases hp : s.mHasPower = true <;>
    simp_all [PowerOff, callDispatcher]

/-- C18, amended: after a successful `Load` the first `Unload` powers the
plugin off (`effStopProcess`, `effMainsChanged(0)` when the power was on),
dispatches `effClose` once and releases the module; a second `Unload` changes
nothing at all.  An `Unload` on a never-loaded effect dispatches no opcode
and releases no module: it only deletes the idle timer, and a further
`Unload` changes nothing. -/
theorem Unload_idempotent (hostLE : Bool) (stem : List Char) (env : EntryResult) (s0 : State)
    (isSlave : Bool) (junk : Nat)
    (h : (Load hostLE stem env s0).1 = true) :
    ((Unload (Load hostLE stem env s0).2).calls
        = (Load hostLE stem env s0).2.calls
          ++ (if (Load hostLE stem env s0).2.mHasPower then
                [PluginCall.dispatcher Opcode.effStopProcess 0 0 0,
                 PluginCall.dispatcher Opcode.effMainsChanged 0 0 0]
              else [])
          ++ [PluginCall.dispatcher Opcode.effClose 0 0 0]
      ∧ (Unload (Load hostLE stem env s0).2).released = (Load hostLE stem env s0).2.released + 1
      ∧ (Unload (Load hostLE stem env s0).2).mModule = false
      ∧ (Unload (Load hostLE stem env s0).2).mAEffect = none
      ∧ (Unload (Load hostLE stem env s0).2).mHasPower = false
      ∧ Unload (Unload (Load hostLE stem env s0).2) = Unload (Load hostLE stem env s0).2) ∧
    ((Unload (construct isSlave junk)).calls = []
      ∧ (Unload (construct isSlave junk)).released = 0
      ∧ Unload (construct isSlave junk) = { construct isSlave junk with mTimer := false }
      ∧ Unload (Unload (construct isSlave junk)) = Unload (construct isSlave junk)) := by
  constructor
  · cases env with
    | noLibrary => simp [Load] at h
    | noEntryPoint => simp [Load] at h
    | noInstance => simp [Load] at h
    | plugin d =>
      have hf := LoadInstance_fields hostLE stem
        { s0 with mModule := true, mAEffect := some d } d
      have hL : (Load hostLE stem (EntryResult.plugin d) s0).2
          = (LoadInstance hostLE stem { s0 with mModule := true, mAEffect := some d } d).2 := by
        unfold Load at h ⊢
        by_cases hs : (LoadInstance hostLE stem
            { s0 with mModule := true, mAEffect := some d } d).1 = true
        · simp [hs]
        · simp [hs] at h
      rw [hL]
      generalize (LoadInstance hostLE stem { s0 with mModule := true, mAEffect := some d } d).2
        = s at hf ⊢
      have hm : s.mModule = true := hf.1
      have ha : s.mAEffect = some d := hf.2.1
      refine ⟨?_, (Unload_of_module s hm).2.2, (Unload_of_module s hm).1,
        (Unload_of_module s hm).2.1, ?_, Unload_idem s (fun _ => hm)⟩
      · unfold Unload
        by_cases ht : s.mTimer = true <;> by_cases hp : s.mHasPower = true <;>
          simp [ht, hp, ha, hm, callDispatcher, PowerOff]
      · unfold Unload
        by_cases ht : s.mTimer = true <;> by_cases hp : s.mHasPower = true <;>
          simp [ht, hp, ha, hm, callDispatcher, PowerOff]
  · refine ⟨?_, ?_, ?_, Unload_idem _ (by simp [construct])⟩
    · simp [Unload, construct]
    · simp [Unload, construct]
    · simp [Unload, construct]

theorem Unload_idempotent_witness :
    (Load true [] (EntryResult.plugin sampleDesc) (construct false 0)).1 = true ∧
      (Unload (Load true [] (EntryResult.plugin sampleDesc) (construct false 0)).2).released = 1 ∧
      Unload (Unload (Load true [] (EntryResult.plugin sampleDesc) (construct false 0)).2)
        = Unload (Load true [] (EntryResult.plugin sampleDesc) (construct false 0)).2 :=
  ⟨by decide,
    (Unload_idempotent true [] (EntryResult.plugin sampleDesc) (construct false 0) false 0
      (by decide)).1.2.1,
    (Unload_idempotent true [] (EntryResult.plugin sampleDesc) (construct false 0) false 0
      (by decide)).1.2.2.2.2.2⟩

theorem Load_plugin_instance (hostLE : Bool) (stem : List Char) (s : State) (d : PluginDesc)
    (h : acceptable d) :
    (Load hostLE stem (EntryResult.plugin d) s).2.mAEffect = some d := by
  have hs := (LoadInstance_success_iff hostLE stem
    { s with mModule := true, mAEffect := some d } d).2 h
  have hf := LoadInstance_fields hostLE stem { s with mModule := true, mAEffect := some d } d
  unfold Load
  simp only [hs, if_true]
  exact hf.2.1

theorem newSlave_instance (hostLE : Bool) (stem : List Char) (d : PluginDesc) (junk rate : Nat)
    (h : acceptable d) : (newSlave hostLE stem d junk rate).mAEffect = some d := by
  unfold newSlave SetSampleRate newVSTEffect
  simp only [if_true]
  exact Load_plugin_instance hostLE stem _ d h

theorem addProcessors_slaves (hostLE : Bool) (stem : List Char)
    (args : List (PluginDesc × Nat × Int × Nat)) :
    ∀ e : Effect, (addProcessors hostLE stem args e).mSlaves
      = e.mSlaves ++ args.map (fun a => newSlave hostLE stem a.1 a.2.1 a.2.2.2) := by
  induction args with
  | nil => intro e; simp [addProcessors]
  | cons a more ih =>
    intro e
    rw [addProcessors, ih]
    simp [RealtimeAddProcessor, newSlave]

/-- C15: after `RealtimeAddProcessor` has been called once per entry of `args`
on a master without slaves, each slave loading successfully, the master owns
as many slaves as there were calls, each with its own plugin instance, and one
`callSetParameter(index, value)` on the master adds exactly one
`setParameter(index, value)` to the calls received by the master's plugin
and exactly one to those received by each slave's plugin. -/
theorem RealtimeAddProcessor_fanout (hostLE : Bool) (stem : List Char)
    (args : List (PluginDesc × Nat × Int × Nat)) (e : Effect) (index : Int) (value : Nat)
    (he : e.mSlaves = []) (hargs : ∀ a ∈ args, acceptable a.1) :
    (addProcessors hostLE stem args e).mSlaves.length = args.length ∧
      (addProcessors hostLE stem args e).mSlaves.map (fun sl => sl.mAEffect)
        = args.map (fun a => some a.1) ∧
      (callSetParameter (addProcessors hostLE stem args e) index value).self.calls
        = (addProcessors hostLE stem args e).self.calls
          ++ [PluginCall.setParameter index value] ∧
      (callSetParameter (addProcessors hostLE stem args e) index value).mSlaves.length
        = args.length ∧
      (callSetParameter (addProcessors hostLE stem args e) index value).mSlaves.map
          (fun sl => sl.calls)
        = (addProcessors hostLE stem args e).mSlaves.map
          (fun sl => sl.calls ++ [PluginCall.setParameter index value]) := by
  have hs := addProcessors_slaves hostLE stem args e
  rw [he, List.nil_append] at hs
  refine ⟨by rw [hs, List.length_map], ?_, rfl, ?_, ?_⟩
  · rw [hs, List.map_map]
    apply List.map_congr_left
    intro a ha
    exact newSlave_instance hostLE stem a.1 a.2.1 a.2.2.2 (hargs a ha)
  · simp [callSetParameter, hs]
  · simp [callSetParameter, State.callSetParameter, List.map_map, Function.comp_def]

theorem RealtimeAddProcessor_fanout_witness :
    (sampleMaster.mSlaves = [] ∧
        ∀ a ∈ [(sampleDesc, 0, (2 : Int), f32OfInt 44100), (sampleDesc, 5, 1, f32OfInt 96000)],
          acceptable a.1) ∧
      (addProcessors true [] [(sampleDesc, 0, 2, f32OfInt 44100), (sampleDesc, 5, 1, f32OfInt 96000)]
          sampleMaster).mSlaves.length = 2 :=
  ⟨⟨by decide, by
      intro a ha
      simp only [List.mem_cons, List.mem_singleton, List.not_mem_nil, or_false] at ha
      rcases ha with rfl | rfl <;> exact ⟨by decide, by decide, by decide⟩⟩,
    (RealtimeAddProcessor_fanout true []
      [(sampleDesc, 0, 2, f32OfInt 44100), (sampleDesc, 5, 1, f32OfInt 96000)] sampleMaster 0 0
      (by decide) (by
        intro a ha
        simp only [List.mem_cons, List.mem_singleton, List.not_mem_nil, or_false] at ha
        rcases ha with rfl | rfl <;> exact ⟨by decide, by decide, by decide⟩)).1⟩

/-- C16: after `RealtimeAddProcessor(2, 96000.0)` on a loaded master, the
appended slave has its sample rate stored but is neither ready nor powered
on, and its plugin has received only the calls of `Load`: no
`effSetSampleRate` carrying 96000, no `effMainsChanged`, no
`effStartProcess`.  `ProcessInitialize` has run on the master instead. -/
theorem RealtimeAddProcessor_leaves_slave_uninitialized :
    sampleRealtime.1 = true ∧
      sampleRealtime.2.mSlaves.map (fun sl => (sl.mReady, sl.mHasPower, sl.mSampleRate))
        = [(false, false, f32OfInt 96000)] ∧
      sampleRealtime.2.mSlaves.map (fun sl => sl.calls)
        = [(Load true [] (EntryResult.plugin sampleDesc) (construct true 0)).2.calls] ∧
      (∀ sl ∈ sampleRealtime.2.mSlaves,
        PluginCall.dispatcher Opcode.effSetSampleRate 0 0 (f32OfInt 96000) ∉ sl.calls ∧
        PluginCall.dispatcher Opcode.effMainsChanged 0 1 0 ∉ sl.calls ∧
        PluginCall.dispatcher Opcode.effStartProcess 0 0 0 ∉ sl.calls) ∧
      sampleRealtime.2.self.mReady = true ∧ sampleRealtime.2.self.mHasPower = true ∧
      sampleRealtime.2.self.calls
        = sampleMaster.self.calls
          ++ [PluginCall.dispatcher Opcode.effSetSampleRate 0 0 sampleMaster.self.mSampleRate,
              PluginCall.dispatcher Opcode.effSetBlockSize 0 8192 0,
              PluginCall.dispatcher Opcode.effMainsChanged 0 1 0,
              PluginCall.dispatcher Opcode.effStartProcess 0 0 0] := by
  decide

/-- C19, as stated, fails for `audioMasterSizeWindow`: with no owner attached
it returns 1, not 0. -/
theorem AudioMaster_sizeWindow_without_owner :
    (AudioMaster sampleHost false none MasterOpcode.audioMasterSizeWindow 640 480 [] 0).ret
        = MasterReturn.value 1 ∧
      (AudioMaster sampleHost false (some ⟨none, 0⟩) MasterOpcode.audioMasterSizeWindow 640 480
        [] 0).ret = MasterReturn.value 1 := by
  decide

/-- C19, amended: when `AudioMaster` is invoked with no owner attached (null
plugin handle or null back-pointer), the opcodes needIdle, updateDisplay,
getTime, ioChanged, getSampleRate, getCurrentProcessLevel and automate
return 0, and sizeWindow returns 1; none of them stores any text, queues any
event or attaches an owner. -/
theorem AudioMaster_without_owner (host : HostIdent) (realtime : Bool)
    (effect : Option EffectRef) (index value : Int) (text : List Char) (opt : Nat)
    (h : effect = none ∨ ∃ d, effect = some ⟨none, d⟩) :
    (∀ op ∈ [MasterOpcode.audioMasterNeedIdle, MasterOpcode.audioMasterUpdateDisplay,
          MasterOpcode.audioMasterGetTime, MasterOpcode.audioMasterIOChanged,
          MasterOpcode.audioMasterGetSampleRate, MasterOpcode.audioMasterGetCurrentProcessLevel,
          MasterOpcode.audioMasterAutomate],
        AudioMaster host realtime effect op index value text opt
          = ⟨MasterReturn.value 0, none, [], [], false⟩) ∧
      AudioMaster host realtime effect MasterOpcode.audioMasterSizeWindow index value text opt
        = ⟨MasterReturn.value 1, none, [], [], false⟩ := by
  rcases h with rfl | ⟨d, rfl⟩
  · refine ⟨?_, rfl⟩
    intro op hop
    simp only [List.mem_cons, List.mem_singleton, List.not_mem_nil, or_false] at hop
    rcases hop with rfl | rfl | rfl | rfl | rfl | rfl | rfl <;> cases realtime <;> rfl
  · refine ⟨?_, rfl⟩
    intro op hop
    simp only [List.mem_cons, List.mem_singleton, List.not_mem_nil, or_false] at hop
    rcases hop with rfl | rfl | rfl | rfl | rfl | rfl | rfl <;> cases realtime <;> rfl

theorem AudioMaster_without_owner_witness :
    ((some ⟨none, 64⟩ : Option EffectRef) = none
        ∨ ∃ d, (some ⟨none, 64⟩ : Option EffectRef) = some ⟨none, d⟩) ∧
      AudioMaster sampleHost true (some ⟨none, 64⟩) MasterOpcode.audioMasterIOChanged 0 0 [] 0
        = ⟨MasterReturn.value 0, none, [], [], false⟩ :=
  ⟨Or.inr ⟨64, rfl⟩,
    (AudioMaster_without_owner sampleHost true (some ⟨none, 64⟩) 0 0 [] 0
      (Or.inr ⟨64, rfl⟩)).1 MasterOpcode.audioMasterIOChanged (by simp)⟩

end VSTEffect

namespace VSTEffectsModule

theorem registerLine_count (st : VSTSubProcess × Int) (line : List Char) :
    (registerLine st line).2 = st.2 + (if countedLine line = true then 1 else 0) := by
  unfold registerLine countedLine
  by_cases hp : StartsWith OUTPUTKEY line = true
  · simp only [hp, Bool.not_true, Bool.false_eq_true, if_false, Bool.true_and]
    by_cases h1 : lineKey line = KEY_ID
    · have hk : recognizedKeys.contains (lineKey line) = true := by rw [h1]; decide
      rw [if_pos h1, hk]
      simp
    by_cases h2 : lineKey line = KEY_NAME
    · have hk : recognizedKeys.contains (lineKey line) = true := by rw [h2]; decide
      rw [if_neg h1, if_pos h2, hk]
      simp
    by_cases h3 : lineKey line = KEY_PATH
    · have hk : recognizedKeys.contains (lineKey line) = true := by rw [h3]; decide
      rw [if_neg h1, if_neg h2, if_pos h3, hk]
      simp
    by_cases h4 : lineKey line = KEY_VENDOR
    · have hk : recognizedKeys.contains (lineKey line) = true := by rw [h4]; decide
      rw [if_neg h1, if_neg h2, if_neg h3, if_pos h4, hk]
      simp
    by_cases h5 : lineKey line = KEY_VERSION
    · have hk : recognizedKeys.contains (lineKey line) = true := by rw [h5]; decide
      rw [if_neg h1, if_neg h2, if_neg h3, if_neg h4, if_pos h5, hk]
      simp
    by_cases h6 : lineKey line = KEY_DESCRIPTION
    · have hk : recognizedKeys.contains (lineKey line) = true := by rw [h6]; decide
      rw [if_neg h1, if_neg h2, if_neg h3, if_neg h4, if_neg h5, if_pos h6, hk]
      simp
    by_cases h7 : lineKey line = KEY_EFFECTTYPE
    · have hk : recognizedKeys.contains (lineKey line) = true := by rw [h7]; decide
      rw [if_neg h1, if_neg h2, if_neg h3, if_neg h4, if_neg h5, if_neg h6, if_pos h7, hk]
      simp
    by_cases h8 : lineKey line = KEY_INTERACTIVE
    · have hk : recognizedKeys.contains (lineKey line) = true := by rw [h8]; decide
      rw [if_neg h1, if_neg h2, if_neg h3, if_neg h4, if_neg h5, if_neg h6, if_neg h7, if_pos h8, hk]
      simp
    · have hk : recognizedKeys.contains (lineKey line) = false := by
        simp [recognizedKeys, h1, h2, h3, h4, h5, h6, h7, h8]
      rw [if_neg h1, if_neg h2, if_neg h3, if_neg h4, if_neg h5, if_neg h6, if_neg h7, if_neg h8, hk]
      simp
  · have hp1 : StartsWith OUTPUTKEY line = false := by simpa using hp
    simp [hp1]

theorem registerLines_count (lines : List (List Char)) :
    ∀ st : VSTSubProcess × Int,
      (lines.foldl registerLine st).2 = st.2 + ((lines.filter countedLine).length : Int) := by
  induction lines with
  | nil => intro st; simp
  | cons line more ih =>
    intro st
    rw [List.foldl_cons, ih, registerLine_count]
    by_cases hc : countedLine line = true
    · simp [hc]; omega
    · simp [hc]

/-- C20, as stated, fails in both directions: a report of eight counted lines
that has `ID` twice and no `Path` line is accepted, and a report with all
eight keys and a repeated `ID` line is rejected. -/
theorem RegisterPlugin_counts_lines_not_keys :
    (keyPresent reportWithoutPath KEY_PATH = false ∧ (RegisterPlugin reportWithoutPath).1 = true) ∧
      ((∀ k ∈ recognizedKeys, keyPresent reportWithRepeat k = true) ∧
        (RegisterPlugin reportWithRepeat).1 = false) := by
  decide

/-- C20, amended: `RegisterPlugin` accepts a helper report (returns true and
registers the plugin) if and only if the report has exactly eight lines that
start with the output key and carry one of the eight recognised keys,
repeated keys counting each time; otherwise it returns false and registers
nothing. -/
theorem RegisterPlugin_accepts_iff (output : List Char) :
    ((RegisterPlugin output).1 = true
        ↔ ((lineTokens output).filter countedLine).length = 8) ∧
      ((RegisterPlugin output).2.isSome = (RegisterPlugin output).1) := by
  have hc := registerLines_count (lineTokens output) (VSTSubProcess.new, 0)
  unfold RegisterPlugin
  constructor
  · simp only [decide_eq_true_eq, hc]
    omega
  · by_cases hv : ((lineTokens output).foldl registerLine (VSTSubProcess.new, 0)).2 = 8
    · simp [hv]
    · simp [hv]

end VSTEffectsModule

namespace VSTEffect

open VSTEffectDialog (Call Opcode Plugin effFlagsProgramChunks)

theorem Store.get_set_same (st : Store) (group key value : List Char) :
    (Store.set st group key value).get group key = some value := by
  simp [Store.get, Store.set]

theorem find?_filter_of_imp {α : Type} (p q : α → Bool) (l : List α)
    (h : ∀ x, p x = true → q x = true) : (l.filter q).find? p = l.find? p := by
  induction l with
  | nil => rfl
  | cons a l ih =>
    by_cases hq : q a = true
    · rw [List.filter_cons_of_pos hq]
      by_cases hp : p a = true
      · rw [List.find?_cons_of_pos _ hp, List.find?_cons_of_pos _ hp]
      · rw [List.find?_cons_of_neg _ hp, List.find?_cons_of_neg _ hp, ih]
    · rw [List.filter_cons_of_neg hq]
      have hp : ¬ p a = true := fun hp => hq (h a hp)
      rw [List.find?_cons_of_neg _ hp, ih]

theorem Store.get_set_ne (st : Store) (group key key1 value : List Char) (h : key ≠ key1) :
    (Store.set st group key value).get group key1 = st.get group key1 := by
  have hne : ((group, key) : List Char × List Char) ≠ (group, key1) := by
    intro hc
    exact h (Prod.mk.inj hc).2
  unfold Store.get Store.set
  rw [List.find?_cons_of_neg _ (by simpa using hne)]
  rw [find?_filter_of_imp]
  intro x hx
  have hx1 : x.1 = (group, key1) := by simpa using hx
  simp [hx1, Ne.symm hne]

theorem takeWhile_token (t rem : List Char) (ht : ',' ∉ t)
    (hrem : rem = [] ∨ ∃ r, rem = ',' :: r) :
    (t ++ rem).takeWhile (· != ',') = t ∧ (t ++ rem).dropWhile (· != ',') = rem := by
  induction t with
  | nil =>
    rcases hrem with rfl | ⟨r, rfl⟩
    · simp
    · simp
  | cons c cs ih =>
    have hc : c ≠ ',' := fun h => ht (by simp [h])
    have hcs : ',' ∉ cs := fun h => ht (by simp [h])
    have hb : (c != ',') = true := by simpa using hc
    simp only [List.cons_append, List.takeWhile_cons, List.dropWhile_cons, hb, if_true]
    exact ⟨by rw [(ih hcs).1], (ih hcs).2⟩

theorem flatMap_comma_shape (ts : List (List Char)) :
    ts.flatMap (fun t => ',' :: t) = [] ∨ ∃ r, ts.flatMap (fun t => ',' :: t) = ',' :: r := by
  cases ts with
  | nil => left; rfl
  | cons t more => right; exact ⟨t ++ more.flatMap (fun t => ',' :: t), by simp [List.flatMap_cons]⟩

theorem tokensFrom_joined (ts : List (List Char)) (h : ∀ t ∈ ts, t ≠ [] ∧ ',' ∉ t) :
    ∀ (fuel : Nat) (b : Bool), ((ts.flatMap (fun t => ',' :: t)).drop 1).length < fuel →
      tokensFrom fuel b ((ts.flatMap (fun t => ',' :: t)).drop 1) = ts := by
  induction ts with
  | nil =>
    intro fuel b hf
    cases fuel with
    | zero => simp at hf
    | succ f => simp [tokensFrom]
  | cons t more ih =>
    intro fuel b hf
    have ht := h t (by simp)
    have hmore : ∀ t1 ∈ more, t1 ≠ [] ∧ ',' ∉ t1 := fun t1 h1 => h t1 (by simp [h1])
    have hj : ((t :: more).flatMap (fun t => ',' :: t)).drop 1
        = t ++ more.flatMap (fun t => ',' :: t) := by
      simp [List.flatMap_cons]
    rw [hj] at hf ⊢
    cases fuel with
    | zero => simp at hf
    | succ f =>
      have htw := takeWhile_token t (more.flatMap (fun t => ',' :: t)) ht.2
        (flatMap_comma_shape more)
      obtain ⟨c, cs, hcs⟩ : ∃ c cs, t = c :: cs := by
        cases t with
        | nil => exact absurd rfl ht.1
        | cons c cs => exact ⟨c, cs, rfl⟩
      have hc : c ≠ ',' := fun hh => ht.2 (by simp [hcs, hh])
      have hany : (t ++ more.flatMap (fun t => ',' :: t)).any (· != ',') = true := by
        rw [hcs]
        simp [hc]
      rw [tokensFrom]
      simp only [hany, Bool.true_or, if_true, htw.1, htw.2]
      congr 1
      apply ih hmore
      have hl : ((more.flatMap (fun t => ',' :: t)).drop 1).length
          ≤ (more.flatMap (fun t => ',' :: t)).length := by
        simp
      rw [hcs] at hf
      simp only [List.cons_append, List.length_cons, List.length_append] at hf
      omega

theorem loadTokens_range (lib : NumText) (f : Nat → List Char) (n : Nat) :
    ∀ k : Nat, (∀ i, k ≤ i → i < k + n → f64InUnitRange (lib.toDouble (f i)) = true) →
      loadTokens lib k ((List.range' k n).map f)
        = (List.range' k n).map
            (fun (i : Nat) => Call.setParameter (i : Int) (f64ToF32 (lib.toDouble (f i)))) := by
  induction n with
  | zero => intro k _; simp [loadTokens]
  | succ m ih =>
    intro k h
    rw [List.range'_succ, List.map_cons, List.map_cons, loadTokens,
      h k (le_refl k) (by omega), if_pos rfl, ih (k + 1) (fun i h1 h2 => h i (by omega) (by omega))]
    rfl

theorem parmsText_tokens (lib : NumText) (pl : Plugin) :
    parmsText lib pl
      = ((List.range pl.aeffect.numParams.toNat).map
          (fun (i : Nat) => lib.format (pl.getParameter (i : Int)))).flatMap
          (fun t => ',' :: t) := by
  unfold parmsText
  induction List.range pl.aeffect.numParams.toNat with
  | nil => rfl
  | cons a l ih => simp [List.flatMap_cons, ih]

/-- For a plugin without chunk support, a store without a "Chunk" entry for
the group, and parameter values whose `%f` texts are non-empty, free of
commas and read back as values in [-1, 1]: `LoadParameters` after
`SaveParameters` makes exactly one `callSetParameter` per parameter, in index
order, parameter `i` receiving the value read back from the text of the
saved value. -/
theorem LoadParameters_SaveParameters_of_texts (lib : NumText) (pl : Plugin) (clen : Int)
    (store : Store) (group : List Char)
    (hflag : pl.aeffect.flags &&& effFlagsProgramChunks = 0)
    (hstore : store.get group "Chunk".toList = none)
    (htext : ∀ i : Nat, i < pl.aeffect.numParams.toNat →
      lib.format (pl.getParameter (i : Int)) ≠ [] ∧ ',' ∉ lib.format (pl.getParameter (i : Int))
        ∧ f64InUnitRange (lib.toDouble (lib.format (pl.getParameter (i : Int)))) = true) :
    LoadParameters lib (SaveParameters lib pl clen store group) group
      = (List.range pl.aeffect.numParams.toNat).map
          (fun (i : Nat) => Call.setParameter (i : Int)
            (f64ToF32 (lib.toDouble (lib.format (pl.getParameter (i : Int)))))) := by
  have hsave : SaveParameters lib pl clen store group
      = store.set group "Value".toList ((parmsText lib pl).drop 1) := by
    unfold SaveParameters
    rw [if_neg]
    intro hc
    exact hc.1 hflag
  have hchunk : (store.set group "Value".toList ((parmsText lib pl).drop 1)).get group
      "Chunk".toList = none := by
    rw [Store.get_set_ne _ _ _ _ _ (by decide), hstore]
  have htok : valueTokens ((parmsText lib pl).drop 1)
      = (List.range pl.aeffect.numParams.toNat).map
          (fun (i : Nat) => lib.format (pl.getParameter (i : Int))) := by
    unfold valueTokens
    rw [parmsText_tokens]
    apply tokensFrom_joined
    · intro t ht
      rw [List.mem_map] at ht
      obtain ⟨i, hi, rfl⟩ := ht
      rw [List.mem_range] at hi
      exact ⟨(htext i hi).1, (htext i hi).2.1⟩
    · omega
  unfold LoadParameters
  rw [hsave, hchunk, Store.get_set_same]
  simp only [htok]
  rw [List.range_eq_range']
  exact loadTokens_range lib (fun (i : Nat) => lib.format (pl.getParameter (i : Int))) _ 0
    (fun i _ h2 => (htext i (by omega)).2.2)

/-- C14, as stated, fails: a plugin with the chunk flag set whose
`effGetChunk` returns 0 gets its parameters written as the "Value" list, and
no "Chunk" entry. -/
theorem SaveParameters_chunk_plugin_writes_values :
    (paramPlugin effFlagsProgramChunks 0x3F000000 0 0x3F800000 []).aeffect.flags
        &&& effFlagsProgramChunks ≠ 0 ∧
      SaveParameters cLocale (paramPlugin effFlagsProgramChunks 0x3F000000 0 0x3F800000 []) 0 []
          "Current".toList
        = [(("Current".toList, "Value".toList), "0.500000,0.000000,1.000000".toList)] := by
  decide

/-- C14, amended: for a plugin whose chunk flag is set, `SaveParameters`
writes only the base64-encoded chunk, under "Chunk", and leaves "Value" as it
was, when `effGetChunk` returns a positive length; when it returns zero or a
negative length, the per-parameter list is written under "Value" and "Chunk"
is left as it was. -/
theorem SaveParameters_chunk_or_values (lib : NumText) (pl : Plugin) (clen : Int)
    (store : Store) (group : List Char)
    (hflag : pl.aeffect.flags &&& effFlagsProgramChunks ≠ 0) :
    (0 < clen →
        SaveParameters lib pl clen store group
            = store.set group "Chunk".toList
                (b64encode (((pl.getChunk 1).map (· % 256)).take clen.toNat))
          ∧ (SaveParameters lib pl clen store group).get group "Value".toList
            = store.get group "Value".toList) ∧
      (clen ≤ 0 →
        SaveParameters lib pl clen store group
            = store.set group "Value".toList ((parmsText lib pl).drop 1)
          ∧ (SaveParameters lib pl clen store group).get group "Chunk".toList
            = store.get group "Chunk".toList) := by
  constructor
  · intro hc
    have hs : SaveParameters lib pl clen store group
        = store.set group "Chunk".toList
            (b64encode (((pl.getChunk 1).map (· % 256)).take clen.toNat)) := by
      unfold SaveParameters
      rw [if_pos ⟨hflag, hc⟩]
    exact ⟨hs, by rw [hs, Store.get_set_ne _ _ _ _ _ (by decide)]⟩
  · intro hc
    have hs : SaveParameters lib pl clen store group
        = store.set group "Value".toList ((parmsText lib pl).drop 1) := by
      unfold SaveParameters
      rw [if_neg]
      intro h
      omega
    exact ⟨hs, by rw [hs, Store.get_set_ne _ _ _ _ _ (by decide)]⟩

theorem SaveParameters_chunk_or_values_witness :
    ((paramPlugin effFlagsProgramChunks 0 0 0 [1, 2, 3]).aeffect.flags
        &&& effFlagsProgramChunks ≠ 0 ∧ (0 : Int) < 3) ∧
      SaveParameters cLocale (paramPlugin effFlagsProgramChunks 0 0 0 [1, 2, 3]) 3 []
          "Current".toList
        = Store.set [] "Current".toList "Chunk".toList
            (b64encode ((((paramPlugin effFlagsProgramChunks 0 0 0 [1, 2, 3]).getChunk 1).map
              (· % 256)).take (3 : Int).toNat)) :=
  ⟨⟨by decide, by decide⟩,
    ((SaveParameters_chunk_or_values cLocale (paramPlugin effFlagsProgramChunks 0 0 0 [1, 2, 3])
      3 [] "Current".toList (by decide)).1 (by decide)).1⟩

/-- C13, as stated, fails, in two ways.  In the "C" locale a plugin without
chunk support whose parameters are 0.5, 0.3 and 2^-24 (all inside [0, 1])
gets, after `SaveParameters` and `LoadParameters`, the values 0.5, 0.3 and
0.0: the third saved value (`0x33800000`) is stored as "0.000000" and comes
back as 0.  In a locale with a decimal comma the parameters 0.5, 0.3 and 1.0
are stored as "0,500000,0,300000,1,000000", which `LoadParameters` reads as
six tokens: parameters 0 and 2 are set to 0.0, the parameter indices 4 and 5
(beyond the three parameters) to 1.0 and 0.0, and parameter 1 is not set. -/
theorem LoadParameters_does_not_restore_saved_values :
    (f32Lt0 0x33800000 = false ∧ f32Gt1 0x33800000 = false ∧
      LoadParameters cLocale
          (SaveParameters cLocale (paramPlugin 0 0x3F000000 0x3E99999A 0x33800000 []) 0 []
            "Current".toList)
          "Current".toList
        = [Call.setParameter 0 0x3F000000, Call.setParameter 1 0x3E99999A,
           Call.setParameter 2 0]) ∧
      (Store.get
          (SaveParameters commaLocale (paramPlugin 0 0x3F000000 0x3E99999A 0x3F800000 []) 0 []
            "Current".toList)
          "Current".toList "Value".toList
        = some "0,500000,0,300000,1,000000".toList ∧
       LoadParameters commaLocale
          (SaveParameters commaLocale (paramPlugin 0 0x3F000000 0x3E99999A 0x3F800000 []) 0 []
            "Current".toList)
          "Current".toList
        = [Call.setParameter 0 0, Call.setParameter 2 0, Call.setParameter 4 0x3F800000,
           Call.setParameter 5 0]) := by
  decide

end VSTEffect

namespace VSTEffect

open VSTEffectDialog (Call Opcode Plugin effFlagsProgramChunks)

theorem ilog2Loop_spec : ∀ (fuel n : Nat), 0 < n → n ≤ fuel →
    2 ^ ilog2Loop fuel n ≤ n ∧ n < 2 ^ (ilog2Loop fuel n + 1)
  | 0, n, h0, hf => by omega
  | fuel + 1, n, h0, hf => by
    rw [ilog2Loop]
    by_cases h2 : n < 2
    · rw [if_pos h2]
      simp only [pow_zero, zero_add, pow_one]
      omega
    · rw [if_neg h2]
      have ih := ilog2Loop_spec fuel (n / 2) (by omega) (by omega)
      rw [pow_succ, pow_succ]
      generalize 2 ^ ilog2Loop fuel (n / 2) = x at ih ⊢
      rw [pow_succ] at ih
      omega

theorem ilog2_spec (n : Nat) (h : 0 < n) : 2 ^ ilog2 n ≤ n ∧ n < 2 ^ (ilog2 n + 1) :=
  ilog2Loop_spec n n h (le_refl n)

theorem roundHalfEven_le (num den c : Nat) (hd : 0 < den) (h : num ≤ den * c) :
    roundHalfEven num den ≤ c := by
  have hq : num / den ≤ c := by
    apply Nat.div_le_of_le_mul
    exact h
  have hdm := Nat.div_add_mod num den
  have hr : num % den < den := Nat.mod_lt _ hd
  by_cases hlt : num / den < c
  · unfold roundHalfEven
    split_ifs <;> omega
  · have hqc : num / den = c := by omega
    rw [hqc] at hdm
    have hr0 : num % den = 0 := by omega
    unfold roundHalfEven
    rw [hr0, hqc]
    simp [hd]

theorem encodeBinary_normal (fb bias emax num den : Nat) (e : Int) (h0 : num ≠ 0)
    (he : (if geTwoPow num den ((ilog2 num : Int) - (ilog2 den : Int)) = true
            then (ilog2 num : Int) - (ilog2 den : Int)
            else (ilog2 num : Int) - (ilog2 den : Int) - 1) = e)
    (hn : 0 < e + bias) (hfb : e ≤ fb) :
    encodeBinary fb bias emax num den
      = min (((e + bias).toNat - 1) * 2 ^ fb + roundHalfEven (num * 2 ^ ((fb : Int) - e).toNat) den)
          (emax * 2 ^ fb) := by
  unfold encodeBinary
  simp only [if_neg h0, he, if_neg (not_le.mpr hn), if_pos hfb]

theorem encode_millionths_le_one (n : Nat) (h : n ≤ 10 ^ 6) :
    encodeBinary 52 1023 2047 n (10 ^ 6) ≤ 0x3FF0000000000000 := by
  by_cases h0 : n = 0
  · subst h0
    decide
  · have hs := ilog2_spec n (by omega)
    have hb : ilog2 (10 ^ 6) = 19 := by decide
    have ha : ilog2 n ≤ 19 := by
      by_contra hc
      have h20 : 2 ^ 20 ≤ 2 ^ ilog2 n := Nat.pow_le_pow_right (by norm_num) (by omega)
      omega
    by_cases hg : geTwoPow n (10 ^ 6) ((ilog2 n : Int) - (ilog2 (10 ^ 6) : Int)) = true
    · rw [encodeBinary_normal 52 1023 2047 n (10 ^ 6) ((ilog2 n : Int) - (ilog2 (10 ^ 6) : Int))
        h0 (if_pos hg) (by rw [hb]; omega) (by rw [hb]; omega)]
      refine le_trans (min_le_left _ _) ?_
      rw [hb] at hg ⊢
      unfold geTwoPow at hg
      generalize ilog2 n = a at hs ha hg ⊢
      interval_cases a
      all_goals simp at hs hg ⊢
      all_goals
        first
        | (refine le_trans (Nat.add_le_add_left
              (roundHalfEven_le _ _ (2 ^ 53) (by norm_num) ?_) _) ?_
           · omega
           · norm_num)
        | (refine le_trans (Nat.add_le_add_left
              (roundHalfEven_le _ _ (2 ^ 52) (by norm_num) ?_) _) ?_
           · omega
           · norm_num)
    · rw [encodeBinary_normal 52 1023 2047 n (10 ^ 6)
        ((ilog2 n : Int) - (ilog2 (10 ^ 6) : Int) - 1)
        h0 (if_neg hg) (by rw [hb]; omega) (by rw [hb]; omega)]
      refine le_trans (min_le_left _ _) ?_
      rw [hb] at hg ⊢
      unfold geTwoPow at hg
      generalize ilog2 n = a at hs ha hg ⊢
      interval_cases a
      all_goals simp at hs hg ⊢
      all_goals
        exact le_trans (Nat.add_le_add_left
            (roundHalfEven_le _ _ (2 ^ 53) (by norm_num) (by omega)) _) (by norm_num)

theorem f32InUnit_magnitude (b : Nat) (h : f32InUnit b = true) :
    f32IsNaN b = false ∧ f32IsInf b = false ∧ f32Mant b * 2 ^ f32Scale b ≤ 2 ^ 149 := by
  have hsign : f32Sign b = 0 ∨ f32Sign b = 1 := by unfold f32Sign; omega
  unfold f32InUnit f32Lt0 f32Gt1 at h
  rcases hsign with hs | hs
  · simp [hs] at h
    obtain ⟨hn, hrest⟩ := h
    rcases hrest with hc | ⟨hi, hm⟩
    · rw [hn] at hc
      exact absurd hc (by decide)
    · exact ⟨hn, hi, le_trans hm (by norm_num)⟩
  · simp [hs] at h
    obtain ⟨hn, hrest⟩ := h
    rcases hrest with hc | ⟨hi, hm⟩
    · rw [hn] at hc
      exact absurd hc (by decide)
    · refine ⟨hn, hi, ?_⟩
      rw [hm]
      simp

theorem millionths_le (b : Nat) (h : f32InUnit b = true) : millionths b ≤ 10 ^ 6 := by
  have hm : f32Mant b * 2 ^ f32Scale b ≤ 2 ^ 149 := (f32InUnit_magnitude b h).2.2
  have hd : 0 < 2 ^ 149 := Nat.two_pow_pos 149
  exact roundHalfEven_le (f32Mant b * 2 ^ f32Scale b * 10 ^ 6) (2 ^ 149) (10 ^ 6) hd
    (Nat.mul_le_mul_right (10 ^ 6) hm)

theorem digitChar_facts : ∀ d, d < 10 →
    (Nat.digitChar d).isDigit = true ∧ (Nat.digitChar d).toNat - 48 = d
      ∧ Nat.digitChar d ≠ ',' ∧ Nat.toDigits 10 d = [Nat.digitChar d] := by
  decide

theorem digitChar_mod_isDigit (x : Nat) : (Nat.digitChar (x % 10)).isDigit = true :=
  (digitChar_facts (x % 10) (Nat.mod_lt _ (by norm_num))).1

theorem digitChar_mod_toNat (x : Nat) : (Nat.digitChar (x % 10)).toNat - 48 = x % 10 :=
  (digitChar_facts (x % 10) (Nat.mod_lt _ (by norm_num))).2.1

theorem comma_ne_digitChar_mod (x : Nat) : ',' ≠ Nat.digitChar (x % 10) :=
  Ne.symm (digitChar_facts (x % 10) (Nat.mod_lt _ (by norm_num))).2.2.1

theorem formatF_unit (b : Nat) (h : f32InUnit b = true) :
    formatF b = (if f32Sign b = 1 then ['-'] else [])
      ++ (Nat.digitChar (millionths b / 10 ^ 6 % 10) :: '.'
          :: sixDigits (millionths b % 10 ^ 6)) := by
  have hm := f32InUnit_magnitude b h
  have hle := millionths_le b h
  have hd : millionths b / 10 ^ 6 % 10 = millionths b / 10 ^ 6 := by omega
  unfold formatF
  rw [hm.1, hm.2.1, hd, (digitChar_facts (millionths b / 10 ^ 6) (by omega)).2.2.2]
  simp

theorem strtodUnsigned_unit (neg : Bool) (n : Nat) :
    strtodUnsigned neg (Nat.digitChar (n / 10 ^ 6 % 10) :: '.' :: sixDigits (n % 10 ^ 6))
      = f64OfDecimal neg (n % 10 ^ 7) (-6) := by
  unfold strtodUnsigned
  have hdot : ('.' : Char).isDigit = false := by decide
  simp only [List.takeWhile_cons, List.dropWhile_cons, digitChar_mod_isDigit, hdot, if_true,
    Bool.false_eq_true, if_false, sixDigits, List.takeWhile_nil, List.dropWhile_nil]
  simp only [exponentPart, List.isEmpty_cons, Bool.false_eq_true, false_and, if_false,
    List.length_cons, List.length_nil]
  congr 1
  simp only [digitsValue, List.cons_append, List.nil_append, List.foldl_cons, List.foldl_nil,
    digitChar_mod_toNat]
  omega

theorem strtodC_formatF_unit (b : Nat) (h : f32InUnit b = true) :
    strtodC (formatF b) = f64OfDecimal (decide (f32Sign b = 1)) (millionths b) (-6) := by
  have hle := millionths_le b h
  have hsign : f32Sign b = 0 ∨ f32Sign b = 1 := by unfold f32Sign; omega
  have hc : millionths b / 10 ^ 6 % 10 = 0 ∨ millionths b / 10 ^ 6 % 10 = 1 := by omega
  have hmod : millionths b % 10 ^ 7 = millionths b := by omega
  have hu := strtodUnsigned_unit (decide (f32Sign b = 1)) (millionths b)
  rw [hmod] at hu
  rw [formatF_unit b h, ← hu]
  generalize sixDigits (millionths b % 10 ^ 6) = t
  rcases hsign with hs | hs <;> rcases hc with hc | hc <;> rw [hs, hc] <;> rfl

theorem formatF_unit_text (b : Nat) (h : f32InUnit b = true) :
    formatF b ≠ [] ∧ ',' ∉ formatF b := by
  rw [formatF_unit b h]
  constructor
  · simp
  · by_cases hs : f32Sign b = 1 <;> simp [hs, sixDigits, comma_ne_digitChar_mod]

theorem f64OfDecimal_millionths_inRange (neg : Bool) (n : Nat) (h : n ≤ 10 ^ 6) :
    f64InUnitRange (f64OfDecimal neg n (-6)) = true := by
  have he := encode_millionths_le_one n h
  have h6 : (-(-6 : Int)).toNat = 6 := by decide
  have hneg : ¬ (0 : Int) ≤ -6 := by decide
  unfold f64InUnitRange f64OfDecimal
  rw [if_neg hneg, h6]
  generalize encodeBinary 52 1023 2047 n (10 ^ 6) = x at he ⊢
  cases neg
  · simp only [Bool.false_eq_true, if_false, decide_eq_true_eq]
    omega
  · simp only [if_true, decide_eq_true_eq]
    omega

/-- C13, amended: when numbers are formatted and read as in the "C" locale
(decimal point), for a plugin without chunk support, a store without a
"Chunk" entry for the group, and parameters that are all numbers in [0, 1]:
`LoadParameters` after `SaveParameters` makes exactly one `callSetParameter`
per parameter, in index order, and parameter `i` receives
`sixDecimalRoundTrip` of its saved value, that is the saved value rounded to
six decimals and converted back, not the saved value. -/
theorem LoadParameters_SaveParameters_six_decimals (pl : Plugin) (clen : Int)
    (store : Store) (group : List Char)
    (hflag : pl.aeffect.flags &&& effFlagsProgramChunks = 0)
    (hstore : store.get group "Chunk".toList = none)
    (hval : ∀ i : Nat, i < pl.aeffect.numParams.toNat →
      f32InUnit (pl.getParameter (i : Int)) = true) :
    LoadParameters cLocale (SaveParameters cLocale pl clen store group) group
      = (List.range pl.aeffect.numParams.toNat).map
          (fun (i : Nat) => Call.setParameter (i : Int)
            (sixDecimalRoundTrip (pl.getParameter (i : Int)))) := by
  rw [LoadParameters_SaveParameters_of_texts cLocale pl clen store group hflag hstore]
  · apply List.map_congr_left
    intro i hi
    have hu := hval i (List.mem_range.mp hi)
    show Call.setParameter (i : Int) (f64ToF32 (strtodC (formatF (pl.getParameter (i : Int)))))
      = Call.setParameter (i : Int) (sixDecimalRoundTrip (pl.getParameter (i : Int)))
    rw [strtodC_formatF_unit _ hu]
    rfl
  · intro i hi
    have hu := hval i hi
    refine ⟨(formatF_unit_text _ hu).1, (formatF_unit_text _ hu).2, ?_⟩
    show f64InUnitRange (strtodC (formatF (pl.getParameter (i : Int)))) = true
    rw [strtodC_formatF_unit _ hu]
    exact f64OfDecimal_millionths_inRange _ _ (millionths_le _ hu)

theorem LoadParameters_SaveParameters_six_decimals_witness :
    ((paramPlugin 0 0x3F000000 0x3E99999A 0x3F800000 []).aeffect.flags
          &&& effFlagsProgramChunks = 0 ∧
        Store.get [] "Current".toList "Chunk".toList = none ∧
        ∀ i : Nat, i < (paramPlugin 0 0x3F000000 0x3E99999A 0x3F800000 []).aeffect.numParams.toNat →
          f32InUnit ((paramPlugin 0 0x3F000000 0x3E99999A 0x3F800000 []).getParameter (i : Int))
            = true) ∧
      LoadParameters cLocale
          (SaveParameters cLocale (paramPlugin 0 0x3F000000 0x3E99999A 0x3F800000 []) 0 []
            "Current".toList)
          "Current".toList
        = [Call.setParameter 0 0x3F000000, Call.setParameter 1 0x3E99999A,
           Call.setParameter 2 0x3F800000] :=
  ⟨⟨by decide, by decide, by decide⟩,
    (LoadParameters_SaveParameters_six_decimals
      (paramPlugin 0 0x3F000000 0x3E99999A 0x3F800000 []) 0 [] "Current".toList
      (by decide) (by decide) (by decide)).trans (by decide)⟩

end VSTEffect

namespace VSTEffectDialog

/-- C23: for every plugin, buffer, position, remaining length and index,
`LoadFXProgram` with `dryrun = true` returns the same `bool` and leaves
`*bptr` and `len` at the same values as with `dryrun = false`, and makes no
call at all. -/
theorem LoadFXProgram_dryrun_faithful (fx : AEffect) (data : List Nat) (pos len index : Int) :
    (LoadFXProgram fx data pos len index true).ret
        = (LoadFXProgram fx data pos len index false).ret ∧
      (LoadFXProgram fx data pos len index true).pos
        = (LoadFXProgram fx data pos len index false).pos ∧
      (LoadFXProgram fx data pos len index true).len
        = (LoadFXProgram fx data pos len index false).len ∧
      (LoadFXProgram fx data pos len index true).calls = [] := by
  unfold LoadFXProgram
  by_cases h1 : len < 28
  · simp only [if_pos h1, and_self]
  by_cases h2 : rdI32 data pos 0 ≠ CCONST 'C' 'c' 'n' 'K'
  · simp only [if_neg h1, if_pos h2, and_self]
  by_cases h3 : rdI32 data pos 4 ≠ fx.uniqueID
  · simp only [if_neg h1, if_neg h2, if_pos h3, and_self]
  by_cases h4 : rdI32 data pos 6 ≠ fx.numParams
  · simp only [if_neg h1, if_neg h2, if_neg h3, if_pos h4, and_self]
  by_cases h5 : len < 56
  · simp only [if_neg h1, if_neg h2, if_neg h3, if_neg h4, if_pos h5, and_self]
  simp only [if_neg h1, if_neg h2, if_neg h3, if_neg h4, if_neg h5]
  by_cases h6 : rdI32 data pos 2 = CCONST 'F' 'x' 'C' 'k'
  · simp only [if_pos h6]
    by_cases h7 : len < wrapInt32 (56 + rdI32 data pos 6 * 4)
    · simp only [if_pos h7, and_self]
    simp only [if_neg h7]
    split_ifs <;> simp
  simp only [if_neg h6]
  by_cases h8 : rdI32 data pos 2 = CCONST 'F' 'P' 'C' 'h'
  · simp only [if_pos h8]
    split_ifs <;> simp
  · simp only [if_neg h8, and_self]

end VSTEffectDialog

namespace VSTEffect

theorem versionLoop_bytes (v : Int) :
    versionLoop v [0, 8, 16, 24] true [] = dottedAfterZeros (versionBytes v) := by
  have hv : v / 2 ^ 0 = v := by simp
  unfold dottedAfterZeros versionBytes versionLoop versionLoop versionLoop versionLoop
    versionLoop
  rw [hv]
  generalize v % 256 = a
  generalize v / 2 ^ 8 % 256 = b
  generalize v / 2 ^ 16 % 256 = c
  generalize v / 2 ^ 24 % 256 = d
  by_cases h0 : a = 0 <;> by_cases h1 : b = 0 <;> by_cases h2 : c = 0 <;>
    by_cases h3 : d = 0 <;>
    simp [h0, h1, h2, h3, List.intercalate, List.intersperse]

/-- C29: `GetVersion` renders the four bytes of the stored version, least
significant first, as dotted decimal: the leading zero bytes are skipped and
every byte from the first non-zero one on is printed, separated by `.`; a
version of 0 gives the empty text, and the version with bytes 0, 1, 0, 2
(low to high) gives "1.0.2". -/
theorem GetVersion_dotted (s : State) :
    GetVersion s = dottedAfterZeros (versionBytes s.mVersion) ∧
      GetVersion { s with mVersion := 0 } = [] ∧
      GetVersion { s with mVersion := 0 + 1 * 2 ^ 8 + 0 * 2 ^ 16 + 2 * 2 ^ 24 }
        = "1.0.2".toList := by
  refine ⟨versionLoop_bytes s.mVersion, ?_, ?_⟩
  · show versionLoop 0 [0, 8, 16, 24] true [] = []
    decide
  · show versionLoop (0 + 1 * 2 ^ 8 + 0 * 2 ^ 16 + 2 * 2 ^ 24) [0, 8, 16, 24] true []
      = "1.0.2".toList
    decide

/-- C30: on an effect with 2 audio inputs and 1 audio output `GetDescription`
returns "Audio In: 2"; the output count, which the text with both counts
would show, does not appear. -/
theorem GetDescription_drops_output_count :
    GetDescription { sampleMaster.self with mAudioIns := 2, mAudioOuts := 1 }
        = "Audio In: 2".toList ∧
      bothCounts 2 1 = "Audio In: 2, Audio Out: 1".toList ∧
      GetDescription { sampleMaster.self with mAudioIns := 2, mAudioOuts := 1 }
        ≠ bothCounts 2 1 := by
  decide

end VSTEffect

namespace VSTEffect

open VSTEffectDialog (Opcode)

theorem b64decodeChar_error_length (c temp remaining : Nat) (bytes : List Nat)
    (h : b64decodeChar c temp remaining = .error bytes) : bytes.length ≤ 2 := by
  unfold b64decodeChar at h
  split_ifs at h
  split at h
  · cases h; simp
  · cases h; simp
  · cases h

theorem b64decodeLoop_length : ∀ (rest : List Char) (qp temp : Nat) (out : List Nat),
    qp < 4 → (qp + rest.length) % 4 = 0 →
      (b64decodeLoop rest qp temp out).length ≤ out.length + 3 * ((qp + rest.length) / 4)
  | [], qp, temp, out, _, _ => by simp [b64decodeLoop]
  | ch :: rest, qp, temp, out, hq, hm => by
    rw [b64decodeLoop]
    simp only [List.length_cons] at hm ⊢
    cases hc : b64decodeChar (ch.toNat % 256) ((temp <<< 6) % 2 ^ 64) (rest.length + 1) with
    | error bytes =>
      have hb := b64decodeChar_error_length _ _ _ _ hc
      simp only [List.length_append]
      omega
    | ok temp1 =>
      simp only []
      by_cases h3 : qp = 3
      · rw [if_pos h3]
        have ih := b64decodeLoop_length rest 0 temp1
          (out ++ [(temp1 >>> 16) &&& 0x000000FF, (temp1 >>> 8) &&& 0x000000FF,
                   temp1 &&& 0x000000FF]) (by omega) (by omega)
        simp only [List.length_append, List.length_cons, List.length_nil] at ih
        omega
      · rw [if_neg h3]
        have ih := b64decodeLoop_length rest (qp + 1) temp1 out (by omega) (by omega)
        omega

/-- C28: for every input text, of length `L`, the value `b64decode` returns
is the number of bytes it has written, and that number is 0 when `L` is not a
multiple of 4 and at most `3 * (L / 4)` otherwise, whatever characters the
text holds: a buffer of `L / 4 * 3` bytes is never overrun. -/
theorem b64decode_bounded (inp : List Char) :
    (b64decode inp).1 = (b64decode inp).2.length ∧
      (b64decode inp).2.length ≤ (if inp.length % 4 = 0 then inp.length / 4 * 3 else 0) := by
  unfold b64decode
  by_cases h : inp.length % 4 = 0
  · have hl := b64decodeLoop_length inp 0 0 [] (by omega) (by omega)
    simp only [h, ne_eq, not_true_eq_false, if_false, if_true, true_and]
    simp only [List.length_nil, Nat.zero_add] at hl
    omega
  · simp [h]

/-- C22, as stated, fails: an instance with a wrong magic tag, for which
`Load` returns false, has received the six handshake calls (and then
`effClose`). -/
theorem Load_bad_magic_receives_handshake :
    badMagicDesc.magic ≠ kEffectMagic ∧
      (Load true [] (EntryResult.plugin badMagicDesc) (construct false 0)).1 = false ∧
      (Load true [] (EntryResult.plugin badMagicDesc) (construct false 0)).2.calls
        = handshake ++ [PluginCall.dispatcher Opcode.effClose 0 0 0] := by
  decide

theorem LoadInstance_calls_start (hostLE : Bool) (stem : List Char) (s : State)
    (d : PluginDesc) :
    s.calls ++ handshake <+: (LoadInstance hostLE stem s d).2.calls := by
  unfold LoadInstance
  by_cases h : d.magic = kEffectMagic ∧ d.flags &&& effFlagsIsSynth = 0
      ∧ d.flags &&& effFlagsCanReplacing ≠ 0
  · simp only [if_pos h]
    by_cases hn : d.effectName.length = 0 <;> cases hostLE <;>
      simp [GetString, callDispatcher, hn, handshake, List.prefix_iff_eq_append]
  · simp only [if_neg h]
    simp [callDispatcher, handshake]

theorem LoadInstance_calls_rejected (hostLE : Bool) (stem : List Char) (s : State)
    (d : PluginDesc) (h : ¬ acceptable d) :
    (LoadInstance hostLE stem s d).2.calls = s.calls ++ handshake
      ∧ (LoadInstance hostLE stem s d).1 = false := by
  unfold acceptable at h
  unfold LoadInstance
  simp only [if_neg h]
  simp [callDispatcher, handshake]

theorem Unload_calls (s : State) :
    (Unload s).calls = s.calls ++
      (if s.mAEffect.isSome then
        (if s.mHasPower then [PluginCall.dispatcher Opcode.effStopProcess 0 0 0,
            PluginCall.dispatcher Opcode.effMainsChanged 0 0 0] else [])
          ++ [PluginCall.dispatcher Opcode.effClose 0 0 0]
       else []) := by
  unfold Unload
  by_cases ht : s.mTimer = true <;> by_cases ha : s.mAEffect.isSome = true <;>
    by_cases hm : s.mModule = true <;> by_cases hp : s.mHasPower = true <;>
    simp [ht, ha, hm, hp, callDispatcher, PowerOff]

theorem Load_plugin_eq (hostLE : Bool) (stem : List Char) (s : State) (d : PluginDesc) :
    Load hostLE stem (EntryResult.plugin d) s
      = if (LoadInstance hostLE stem { s with mModule := true, mAEffect := some d } d).1 = true
        then (true, (LoadInstance hostLE stem { s with mModule := true, mAEffect := some d } d).2)
        else (false,
          Unload (LoadInstance hostLE stem { s with mModule := true, mAEffect := some d } d).2) :=
  rfl

/-- C22, amended: `Load` issues the handshake (set sample rate, set block
size, identify, open, set sample rate, set block size) to every instance the
entry point returns, before it tests the magic tag and the flags; for an
instance that fails that test `Load` returns false after exactly these six
calls followed by the calls of `Unload` (stop-process and mains-off if the
power was on, then `effClose`). -/
theorem Load_handshake_precedes_validation (hostLE : Bool) (stem : List Char) (s : State)
    (d : PluginDesc) :
    s.calls ++ handshake <+: (Load hostLE stem (EntryResult.plugin d) s).2.calls ∧
      (¬ acceptable d →
        (Load hostLE stem (EntryResult.plugin d) s).1 = false ∧
        (Load hostLE stem (EntryResult.plugin d) s).2.calls
          = s.calls ++ handshake ++
              ((if s.mHasPower then [PluginCall.dispatcher Opcode.effStopProcess 0 0 0,
                  PluginCall.dispatcher Opcode.effMainsChanged 0 0 0] else [])
                ++ [PluginCall.dispatcher Opcode.effClose 0 0 0])) := by
  have hp := LoadInstance_calls_start hostLE stem { s with mModule := true, mAEffect := some d } d
  have hf := LoadInstance_fields hostLE stem { s with mModule := true, mAEffect := some d } d
  rw [Load_plugin_eq]
  constructor
  · by_cases h : (LoadInstance hostLE stem { s with mModule := true, mAEffect := some d } d).1
        = true
    · rw [if_pos h]
      exact hp
    · rw [if_neg h]
      dsimp only
      rw [Unload_calls]
      exact List.IsPrefix.trans hp (List.prefix_append _ _)
  · intro hacc
    have hr := LoadInstance_calls_rejected hostLE stem
      { s with mModule := true, mAEffect := some d } d hacc
    rw [if_neg (by rw [hr.2]; decide)]
    dsimp only
    rw [Unload_calls, hr.1, hf.2.1, hf.2.2.1]
    simp

theorem Load_handshake_precedes_validation_witness :
    ¬ acceptable badMagicDesc ∧
      (Load true [] (EntryResult.plugin badMagicDesc) (construct false 0)).1 = false ∧
      (Load true [] (EntryResult.plugin badMagicDesc) (construct false 0)).2.calls
        = (construct false 0).calls ++ handshake ++
            ((if (construct false 0).mHasPower then
                [PluginCall.dispatcher Opcode.effStopProcess 0 0 0,
                 PluginCall.dispatcher Opcode.effMainsChanged 0 0 0] else [])
              ++ [PluginCall.dispatcher Opcode.effClose 0 0 0]) :=
  ⟨by unfold acceptable; decide,
    (Load_handshake_precedes_validation true [] (construct false 0) badMagicDesc).2
      (by unfold acceptable; decide)⟩

end VSTEffect

namespace VSTEffect

open VSTEffectDialog (Opcode)

theorem PowerOn_mBufferDelay (s : State) : (PowerOn s).mBufferDelay = s.mBufferDelay := by
  unfold PowerOn
  by_cases h : s.mHasPower = true <;> simp [h, callDispatcher]

theorem PowerOff_mBufferDelay (s : State) : (PowerOff s).mBufferDelay = s.mBufferDelay := by
  unfold PowerOff
  by_cases h : s.mHasPower = true <;> simp [h, callDispatcher]

theorem Unload_mBufferDelay (s : State) : (Unload s).mBufferDelay = s.mBufferDelay := by
  unfold Unload
  by_cases ht : s.mTimer = true <;> by_cases ha : s.mAEffect.isSome = true <;>
    by_cases hm : s.mModule = true <;> by_cases hp : s.mHasPower = true <;>
    simp [ht, ha, hm, hp, callDispatcher, PowerOff]

theorem LoadInstance_mBufferDelay (hostLE : Bool) (stem : List Char) (s : State)
    (d : PluginDesc) : (LoadInstance hostLE stem s d).2.mBufferDelay = s.mBufferDelay := by
  unfold LoadInstance
  by_cases h : d.magic = kEffectMagic ∧ d.flags &&& effFlagsIsSynth = 0
      ∧ d.flags &&& effFlagsCanReplacing ≠ 0
  · simp only [if_pos h]
    by_cases hn : d.effectName.length = 0 <;> cases hostLE <;>
      simp [GetString, callDispatcher, hn]
  · simp only [if_neg h]
    simp [callDispatcher]

theorem Load_mBufferDelay (hostLE : Bool) (stem : List Char) (env : EntryResult) (s : State) :
    (Load hostLE stem env s).2.mBufferDelay = s.mBufferDelay := by
  cases env with
  | noLibrary => simp [Load]
  | noEntryPoint => simp [Load]
  | noInstance => simp [Load, Unload_mBufferDelay]
  | plugin d =>
    rw [Load_plugin_eq]
    by_cases h : (LoadInstance hostLE stem { s with mModule := true, mAEffect := some d } d).1
        = true
    · rw [if_pos h]
      exact LoadInstance_mBufferDelay hostLE stem _ d
    · rw [if_neg h]
      dsimp only
      rw [Unload_mBufferDelay]
      exact LoadInstance_mBufferDelay hostLE stem _ d

theorem SetBufferDelay_nonneg (s : State) (d : Int) (h : 0 ≤ s.mBufferDelay) :
    0 ≤ (SetBufferDelay s d).mBufferDelay := by
  unfold SetBufferDelay
  by_cases hc : d ≥ 0 ∧ s.mUseBufferDelay = true
  · rw [if_pos hc]
    exact hc.1
  · rw [if_neg hc]
    exact h

theorem GetLatency_nonneg (s : State) (h : 0 ≤ s.mBufferDelay) :
    0 ≤ (GetLatency s).2.mBufferDelay := by
  unfold GetLatency
  by_cases hc : s.mUseBufferDelay = true
  · simp [hc]
  · simp [hc, h]

theorem ProcessInitialize_nonneg (s : State) (h : 0 ≤ s.mBufferDelay) :
    0 ≤ (ProcessInitialize s).2.mBufferDelay := by
  unfold ProcessInitialize
  dsimp only
  apply SetBufferDelay_nonneg
  rw [PowerOn_mBufferDelay]
  exact h

theorem newVSTEffect_mBufferDelay (hostLE : Bool) (stem : List Char) (env : EntryResult)
    (isSlave : Bool) (junk : Nat) :
    (newVSTEffect hostLE stem env isSlave junk).mBufferDelay = 0 := by
  unfold newVSTEffect
  by_cases h : isSlave = true
  · rw [if_pos h, Load_mBufferDelay]
    rfl
  · rw [if_neg h]
    rfl

theorem afterCallback_nonneg (e : Effect) (host : HostIdent) (realtime : Bool) (d : Int)
    (opcode : MasterOpcode) (index value : Int) (text : List Char) (opt : Nat)
    (h : delaysNonneg e) :
    delaysNonneg (afterCallback e host realtime d opcode index value text opt) := by
  cases opcode with
  | audioMasterNeedIdle => exact ⟨h.1, h.2⟩
  | audioMasterIOChanged => exact ⟨SetBufferDelay_nonneg _ _ h.1, h.2⟩
  | audioMasterCanDo =>
    unfold afterCallback AudioMaster
    dsimp only
    split_ifs <;> exact h
  | audioMasterAutomate =>
    cases realtime
    · exact h
    · show delaysNonneg (Automate e index opt)
      unfold Automate
      by_cases hm : e.self.mMaster = true
      · rw [if_pos hm]; exact h
      · rw [if_neg hm]
        refine ⟨h.1, ?_⟩
        intro sl hsl
        obtain ⟨sl0, hsl0, rfl⟩ := List.mem_map.mp hsl
        exact h.2 sl0 hsl0
  | _ => exact h

theorem step_nonneg (e : Effect) (op : Op) (h : delaysNonneg e) : delaysNonneg (step e op) := by
  cases op with
  | load hostLE stem env => exact ⟨by simp only [step]; rw [Load_mBufferDelay]; exact h.1, h.2⟩
  | unload => exact ⟨by simp only [step]; rw [Unload_mBufferDelay]; exact h.1, h.2⟩
  | useBufferDelay b => exact ⟨h.1, h.2⟩
  | setSampleRate rate => exact ⟨h.1, h.2⟩
  | getBlockSize m => exact ⟨h.1, h.2⟩
  | getLatency => exact ⟨GetLatency_nonneg _ h.1, h.2⟩
  | processInitialize => exact ⟨ProcessInitialize_nonneg _ h.1, h.2⟩
  | processFinalize =>
    exact ⟨by simp only [step, ProcessFinalize]; rw [PowerOff_mBufferDelay]; exact h.1, h.2⟩
  | powerOn => exact ⟨by simp only [step]; rw [PowerOn_mBufferDelay]; exact h.1, h.2⟩
  | powerOff => exact ⟨by simp only [step]; rw [PowerOff_mBufferDelay]; exact h.1, h.2⟩
  | setBufferDelay samples => exact ⟨SetBufferDelay_nonneg _ _ h.1, h.2⟩
  | setParameter index value =>
    refine ⟨h.1, ?_⟩
    intro sl hsl
    simp only [step, callSetParameter] at hsl
    obtain ⟨sl0, hsl0, rfl⟩ := List.mem_map.mp hsl
    exact h.2 sl0 hsl0
  | realtimeAddProcessor hostLE stem env junk numChannels sampleRate =>
    refine ⟨ProcessInitialize_nonneg _ h.1, ?_⟩
    intro sl hsl
    simp only [step, RealtimeAddProcessor, List.mem_append, List.mem_singleton] at hsl
    rcases hsl with hsl | rfl
    · exact h.2 sl hsl
    · show 0 ≤ (newVSTEffect hostLE stem env true junk).mBufferDelay
      rw [newVSTEffect_mBufferDelay]
  | audioMaster host realtime d opcode index value text opt =>
    exact afterCallback_nonneg e host realtime d opcode index value text opt h
  | slaveAudioMaster i host realtime d opcode index value text opt =>
    refine ⟨h.1, ?_⟩
    intro sl hsl
    simp only [step] at hsl
    rw [List.mem_iff_getElem] at hsl
    obtain ⟨n, hn, rfl⟩ := hsl
    rw [List.getElem_modify]
    have hn1 : n < e.mSlaves.length := by simpa using hn
    by_cases hin : i = n
    · rw [if_pos hin]
      exact (afterCallback_nonneg { self := e.mSlaves[n], mSlaves := [] } host realtime d opcode
        index value text opt
        ⟨h.2 _ (List.getElem_mem _), by simp⟩).1
    · rw [if_neg hin]
      exact h.2 _ (List.getElem_mem _)

theorem run_nonneg (ops : List Op) : ∀ e : Effect, delaysNonneg e → delaysNonneg (run e ops) := by
  induction ops with
  | nil => intro e h; exact h
  | cons op more ih =>
    intro e h
    exact ih (step e op) (step_nonneg e op h)

/-- C26: `SetBufferDelay(d)` stores `d` as the buffer delay when `d >= 0` and
delay compensation is enabled, and otherwise leaves the object as it is; the
`ioChanged` callback with an owner attached does `SetBufferDelay` with the
instance's initial delay on the owner and returns 1; and after any sequence
of operations on a newly constructed effect the buffer delay of the effect
and of each of its slaves is not negative. -/
theorem SetBufferDelay_stores_iff (s : State) (d : Int) (host : HostIdent) (realtime : Bool)
    (e : Effect) (index value : Int) (text : List Char) (opt : Nat) (junk : Nat)
    (ops : List Op) :
    SetBufferDelay s d
        = (if 0 ≤ d ∧ s.mUseBufferDelay = true then { s with mBufferDelay := d } else s) ∧
      (SetBufferDelay s d).mBufferDelay
        = (if 0 ≤ d ∧ s.mUseBufferDelay = true then d else s.mBufferDelay) ∧
      AudioMaster host realtime (some { user := some e, initialDelay := d })
          MasterOpcode.audioMasterIOChanged index value text opt
        = ⟨MasterReturn.value 1, some { e with self := SetBufferDelay e.self d }, [], [], false⟩ ∧
      0 ≤ (run (newMaster junk) ops).self.mBufferDelay ∧
      ∀ sl ∈ (run (newMaster junk) ops).mSlaves, 0 ≤ sl.mBufferDelay := by
  refine ⟨rfl, ?_, rfl, ?_⟩
  · unfold SetBufferDelay
    by_cases hc : d ≥ 0 ∧ s.mUseBufferDelay = true
    · rw [if_pos hc, if_pos hc]
    · rw [if_neg hc, if_neg hc]
  · exact run_nonneg ops (newMaster junk) ⟨le_refl _, by simp [newMaster]⟩

end VSTEffect

namespace VSTEffect

open VSTEffectDialog (Opcode)

theorem roundHalfEven_one (x : Nat) : roundHalfEven x 1 = x := by
  unfold roundHalfEven
  rw [Nat.mod_one, Nat.div_one]
  simp

theorem ilog2_one : ilog2 1 = 0 := by decide

theorem encodeBinary_nat_exact (n : Nat) (h0 : 0 < n) (h : n < 2 ^ 24) :
    encodeBinary 23 127 255 n 1 = (ilog2 n + 126) * 2 ^ 23 + n * 2 ^ (23 - ilog2 n)
      ∧ ilog2 n ≤ 23 := by
  have hs := ilog2_spec n h0
  have ha : ilog2 n ≤ 23 := by
    by_contra hc
    have h24 : 2 ^ 24 ≤ 2 ^ ilog2 n := Nat.pow_le_pow_right (by norm_num) (by omega)
    omega
  have hg : geTwoPow n 1 ((ilog2 n : Int) - (ilog2 1 : Int)) = true := by
    rw [ilog2_one]
    unfold geTwoPow
    simp only [Nat.cast_zero, sub_zero, Int.natCast_nonneg, if_true, Int.toNat_ofNat, one_mul,
      decide_eq_true_eq]
    exact hs.1
  refine ⟨?_, ha⟩
  rw [encodeBinary_normal 23 127 255 n 1 (ilog2 n : Int) (by omega)
    (by rw [if_pos hg, ilog2_one]; simp) (by omega) (by exact_mod_cast ha)]
  rw [roundHalfEven_one]
  have h1 : (((ilog2 n : Int) + (127 : Nat)).toNat - 1) = ilog2 n + 126 := by omega
  have h2 : (((23 : Nat) : Int) - (ilog2 n : Int)).toNat = 23 - ilog2 n := by omega
  rw [h1, h2]
  apply min_eq_left
  have hm : n * 2 ^ (23 - ilog2 n) < 2 ^ 24 := by
    have : n * 2 ^ (23 - ilog2 n) < 2 ^ (ilog2 n + 1) * 2 ^ (23 - ilog2 n) :=
      Nat.mul_lt_mul_of_lt_of_le hs.2 (le_refl _) (Nat.two_pow_pos _)
    rw [← pow_add] at this
    have he : ilog2 n + 1 + (23 - ilog2 n) = 24 := by omega
    rw [he] at this
    exact this
  have hb : (ilog2 n + 126) * 2 ^ 23 ≤ 149 * 2 ^ 23 := Nat.mul_le_mul_right _ (by omega)
  norm_num at hm hb ⊢
  omega

theorem f32Trunc_f32OfInt (r : Int) (h0 : 0 ≤ r) (h : r < 2 ^ 24) :
    f32Trunc (f32OfInt r) = r := by
  obtain ⟨n, rfl⟩ := Int.eq_ofNat_of_zero_le h0
  by_cases hn : n = 0
  · subst hn
    decide
  have hn0 : 0 < n := Nat.pos_of_ne_zero hn
  have hn24 : n < 2 ^ 24 := by exact_mod_cast h
  obtain ⟨he, ha⟩ := encodeBinary_nat_exact n hn0 hn24
  have hs := ilog2_spec n hn0
  unfold f32OfInt
  rw [if_neg (by omega), Int.natAbs_ofNat, Nat.zero_add, he]
  generalize ilog2 n = a at hs ha
  -- the significand `n * 2 ^ (23 - a)` lies in `[2 ^ 23, 2 ^ 24)`
  have hlo : 2 ^ 23 ≤ n * 2 ^ (23 - a) := by
    have : 2 ^ a * 2 ^ (23 - a) ≤ n * 2 ^ (23 - a) := Nat.mul_le_mul_right _ hs.1
    rw [← pow_add] at this
    have hea : a + (23 - a) = 23 := by omega
    rw [hea] at this
    exact this
  have hhi : n * 2 ^ (23 - a) < 2 ^ 24 := by
    have : n * 2 ^ (23 - a) < 2 ^ (a + 1) * 2 ^ (23 - a) :=
      Nat.mul_lt_mul_of_lt_of_le hs.2 (le_refl _) (Nat.two_pow_pos _)
    rw [← pow_add] at this
    have hea : a + 1 + (23 - a) = 24 := by omega
    rw [hea] at this
    exact this
  have hpow : 2 ^ (23 - a) * 2 ^ (a + 126) = 2 ^ 149 := by
    rw [← pow_add]
    congr 1
    omega
  generalize hm : n * 2 ^ (23 - a) = m at hlo hhi
  have hexp : f32Exp ((a + 126) * 2 ^ 23 + m) = a + 127 := by
    unfold f32Exp
    norm_num at hlo hhi ⊢
    omega
  have hfrac : f32Frac ((a + 126) * 2 ^ 23 + m) = m - 2 ^ 23 := by
    unfold f32Frac
    norm_num at hlo hhi ⊢
    omega
  have hsign : f32Sign ((a + 126) * 2 ^ 23 + m) = 0 := by
    unfold f32Sign
    norm_num at hlo hhi ⊢
    omega
  have hmant : f32Mant ((a + 126) * 2 ^ 23 + m) = m := by
    unfold f32Mant
    rw [hexp, hfrac, if_neg (by omega)]
    omega
  have hscale : f32Scale ((a + 126) * 2 ^ 23 + m) = a + 126 := by
    unfold f32Scale
    rw [hexp, if_neg (by omega)]
    omega
  unfold f32Trunc
  rw [hexp, hsign, hmant, hscale, if_neg (by omega), if_neg (by omega), ← hm, Nat.mul_assoc, hpow,
    Nat.mul_div_cancel _ (Nat.two_pow_pos 149)]

theorem ProcessInitialize_timeInfo (s : State) :
    (ProcessInitialize s).2.timeInfoSampleRate = s.mSampleRate := by
  unfold ProcessInitialize SetBufferDelay PowerOn
  by_cases hp : s.mHasPower = true <;> simp [hp, callDispatcher] <;> split_ifs <;> rfl

/-- C27, as stated, fails: on a loaded effect, after `SetSampleRate(96000)`
the `getSampleRate` callback still returns 44100, the value the constructor
put into `mTimeInfo.sampleRate`. -/
theorem getSampleRate_stale_after_SetSampleRate :
    (AudioMaster sampleHost false
        (some { user := some { sampleMaster with self := SetSampleRate sampleMaster.self 96000 },
                initialDelay := 0 })
        MasterOpcode.audioMasterGetSampleRate 0 0 [] 0).ret = MasterReturn.value 44100 := by
  decide

/-- C27, amended: for an attached instance the `getSampleRate` callback
returns `mTimeInfo.sampleRate`, which takes the rate set by `SetSampleRate`
when `ProcessInitialize` runs: after `SetSampleRate(r)` followed by
`ProcessInitialize` the callback returns `r` (for `0 <= r < 2^24`, the rates
a `float` holds exactly), while `SetSampleRate(r)` alone leaves the value the
callback returns as it was. -/
theorem getSampleRate_after_ProcessInitialize (host : HostIdent) (realtime : Bool) (e : Effect)
    (d index value : Int) (text : List Char) (opt : Nat) (r : Int)
    (h0 : 0 ≤ r) (h : r < 2 ^ 24) :
    (AudioMaster host realtime
        (some { user := some { e with self := (ProcessInitialize (SetSampleRate e.self r)).2 },
                initialDelay := d })
        MasterOpcode.audioMasterGetSampleRate index value text opt).ret = MasterReturn.value r ∧
      (AudioMaster host realtime
        (some { user := some { e with self := SetSampleRate e.self r }, initialDelay := d })
        MasterOpcode.audioMasterGetSampleRate index value text opt).ret
        = (AudioMaster host realtime (some { user := some e, initialDelay := d })
            MasterOpcode.audioMasterGetSampleRate index value text opt).ret := by
  constructor
  · show MasterReturn.value
        (f32Trunc (GetSampleRate (ProcessInitialize (SetSampleRate e.self r)).2)) = _
    unfold GetSampleRate
    rw [ProcessInitialize_timeInfo]
    show MasterReturn.value (f32Trunc (f32OfInt r)) = _
    rw [f32Trunc_f32OfInt r h0 h]
  · rfl

theorem getSampleRate_after_ProcessInitialize_witness :
    (0 : Int) ≤ 96000 ∧ (96000 : Int) < 2 ^ 24 ∧
      (AudioMaster sampleHost false
        (some { user := some { sampleMaster with
                  self := (ProcessInitialize (SetSampleRate sampleMaster.self 96000)).2 },
                initialDelay := 0 })
        MasterOpcode.audioMasterGetSampleRate 0 0 [] 0).ret = MasterReturn.value 96000 :=
  ⟨by decide, by decide,
    (getSampleRate_after_ProcessInitialize sampleHost false sampleMaster 0 0 0 [] 0 96000
      (by decide) (by decide)).1⟩

end VSTEffect

namespace VSTEffect

open VSTEffectDialog (Call Opcode Plugin effFlagsProgramChunks)

theorem exponent_of_le (num den : Nat) (hn : 0 < num) (hle : num ≤ den) :
    ∃ k : Nat,
      (if geTwoPow num den ((ilog2 num : Int) - (ilog2 den : Int)) = true
        then (ilog2 num : Int) - (ilog2 den : Int)
        else (ilog2 num : Int) - (ilog2 den : Int) - 1) = -(k : Int)
      ∧ (k = 0 → num = den) ∧ (0 < k → num * 2 ^ (k - 1) < den) := by
  have hsn := ilog2_spec num hn
  have hsd := ilog2_spec den (by omega)
  have hab : ilog2 num ≤ ilog2 den := by
    by_contra hc
    have : 2 ^ (ilog2 den + 1) ≤ 2 ^ ilog2 num := Nat.pow_le_pow_right (by norm_num) (by omega)
    omega
  obtain ⟨j, hj⟩ : ∃ j, ilog2 den = ilog2 num + j := ⟨ilog2 den - ilog2 num, by omega⟩
  generalize ilog2 num = a at hsn hab hj ⊢
  generalize ilog2 den = b at hsd hab hj ⊢
  subst hj
  have hl : (a : Int) - ((a + j : Nat) : Int) = -(j : Int) := by push_cast; ring
  rw [hl]
  have hpow : 2 ^ (a + j) = 2 ^ a * 2 ^ j := pow_add 2 a j
  by_cases hj0 : j = 0
  · subst hj0
    by_cases hg : geTwoPow num den (-((0 : Nat) : Int)) = true
    · rw [if_pos hg]
      refine ⟨0, by simp, ?_, by omega⟩
      intro _
      unfold geTwoPow at hg
      simp at hg
      omega
    · rw [if_neg hg]
      refine ⟨1, by simp, by omega, ?_⟩
      intro _
      unfold geTwoPow at hg
      simp at hg
      simpa using hg
  · have hjpos : 0 < j := Nat.pos_of_ne_zero hj0
    have hneg : ¬ (0 : Int) ≤ -(j : Int) := by omega
    have htn : (-(-(j : Int))).toNat = j := by omega
    by_cases hg : geTwoPow num den (-(j : Int)) = true
    · rw [if_pos hg]
      refine ⟨j, rfl, by omega, ?_⟩
      intro _
      have h1 : num * 2 ^ (j - 1) < 2 ^ (a + 1) * 2 ^ (j - 1) :=
        Nat.mul_lt_mul_of_lt_of_le hsn.2 (le_refl _) (Nat.two_pow_pos _)
      rw [← pow_add] at h1
      have he : a + 1 + (j - 1) = a + j := by omega
      rw [he] at h1
      omega
    · rw [if_neg hg]
      refine ⟨j + 1, by push_cast; ring, by omega, ?_⟩
      intro _
      unfold geTwoPow at hg
      rw [if_neg hneg, htn] at hg
      simp at hg
      simpa using hg

theorem encodeBinary_le_one (fb bias emax num den : Nat) (hb : 1 ≤ bias) (hd : 0 < den)
    (hle : num ≤ den) : encodeBinary fb bias emax num den ≤ bias * 2 ^ fb := by
  by_cases h0 : num = 0
  · subst h0
    simp [encodeBinary]
  obtain ⟨k, hk, hk0, hkpos⟩ := exponent_of_le num den (Nat.pos_of_ne_zero h0) hle
  have hP : 0 < 2 ^ fb := Nat.two_pow_pos fb
  unfold encodeBinary
  simp only [if_neg h0, hk]
  by_cases hbe : -(k : Int) + (bias : Int) ≤ 0
  · rw [if_pos hbe]
    have hkb : bias ≤ k := by omega
    have hlt := hkpos (by omega)
    have h1 : num * 2 ^ (bias - 1) ≤ num * 2 ^ (k - 1) :=
      Nat.mul_le_mul_left _ (Nat.pow_le_pow_right (by norm_num) (by omega))
    have h2 : num * 2 ^ (bias - 1 + fb) ≤ den * 2 ^ fb := by
      rw [pow_add, ← Nat.mul_assoc]
      exact Nat.mul_le_mul_right _ (by omega)
    have h3 := roundHalfEven_le _ _ (2 ^ fb) hd h2
    calc roundHalfEven (num * 2 ^ (bias - 1 + fb)) den ≤ 2 ^ fb := h3
      _ = 1 * 2 ^ fb := (Nat.one_mul _).symm
      _ ≤ bias * 2 ^ fb := Nat.mul_le_mul_right _ hb
  · rw [if_neg hbe]
    have hkb : k < bias := by omega
    have hfb : -(k : Int) ≤ (fb : Int) := by omega
    rw [if_pos hfb]
    refine le_trans (min_le_left _ _) ?_
    have ht1 : ((fb : Int) - -(k : Int)).toNat = fb + k := by omega
    have ht2 : (-(k : Int) + (bias : Int)).toNat - 1 = bias - k - 1 := by omega
    rw [ht1, ht2]
    by_cases hk00 : k = 0
    · subst hk00
      have hnd := hk0 rfl
      subst hnd
      have h3 := roundHalfEven_le (num * 2 ^ (fb + 0)) num (2 ^ fb) hd (by simp)
      have h4 : (bias - 0 - 1) * 2 ^ fb + 2 ^ fb = bias * 2 ^ fb := by
        have : bias - 0 - 1 + 1 = bias := by omega
        rw [← this, Nat.add_mul, Nat.one_mul]
        simp
      omega
    · have hlt := hkpos (by omega)
      have h2 : num * 2 ^ (fb + k) ≤ den * 2 ^ (fb + 1) := by
        have he : fb + k = (k - 1) + (fb + 1) := by omega
        rw [he, pow_add, ← Nat.mul_assoc]
        exact Nat.mul_le_mul_right _ (by omega)
      have h3 := roundHalfEven_le _ _ (2 ^ (fb + 1)) hd h2
      have h4 : (bias - k - 1) * 2 ^ fb ≤ (bias - 2) * 2 ^ fb :=
        Nat.mul_le_mul_right _ (by omega)
      have h5 : (bias - 2) * 2 ^ fb + 2 ^ (fb + 1) = bias * 2 ^ fb := by
        have : bias = (bias - 2) + 2 := by omega
        conv_rhs => rw [this]
        rw [Nat.add_mul, pow_succ]
        ring
      omega

theorem f64ToF32_le_one (b : Nat) (h : f64InUnitRange b = true) :
    f32InSignedUnit (f64ToF32 b) = true := by
  unfold f64InUnitRange at h
  have h1 : b % 2 ^ 63 ≤ 0x3FF0000000000000 := by simpa using h
  have hexp : f64Exp b ≤ 1023 := by
    unfold f64Exp
    norm_num at h1 ⊢
    omega
  have hfrac : f64Exp b = 1023 → f64Frac b = 0 := by
    unfold f64Exp f64Frac
    norm_num at h1 ⊢
    omega
  have hfr : f64Frac b < 2 ^ 52 := by
    unfold f64Frac
    exact Nat.mod_lt _ (Nat.two_pow_pos 52)
  have hsc : ¬ 1074 ≤ f64Scale b := by
    unfold f64Scale
    split_ifs <;> omega
  have hden : 0 < f64Den b := by
    unfold f64Den
    rw [if_neg hsc]
    exact Nat.two_pow_pos _
  have hnd : f64Num b ≤ f64Den b := by
    unfold f64Num f64Den
    rw [if_neg hsc, if_neg hsc]
    unfold f64Mant f64Scale
    by_cases he0 : f64Exp b = 0
    · rw [if_pos he0, if_pos he0]
      have hpow : ∀ m : Nat, 52 ≤ m → f64Frac b ≤ 2 ^ m := fun m hm =>
        le_trans (le_of_lt hfr) (Nat.pow_le_pow_right (by norm_num) hm)
      exact hpow _ (by omega)
    · rw [if_neg he0, if_neg he0]
      by_cases he1 : f64Exp b = 1023
      · rw [hfrac he1, he1]
        exact le_of_eq rfl
      · have : 2 ^ 52 + f64Frac b ≤ 2 ^ 53 := by
          rw [pow_succ 2 52]
          omega
        exact le_trans this (Nat.pow_le_pow_right (by norm_num) (by omega))
  have henc := encodeBinary_le_one 23 127 255 (f64Num b) (f64Den b) (by norm_num) hden hnd
  unfold f32InSignedUnit f64ToF32
  rw [if_neg (by omega)]
  generalize encodeBinary 23 127 255 (f64Num b) (f64Den b) = x at henc
  generalize f64Sign b = sg
  norm_num at henc ⊢
  omega

theorem loadTokens_mem (lib : NumText) (c : Call) : ∀ (toks : List (List Char)) (k : Nat),
    c ∈ loadTokens lib k toks ↔
      ∃ (i : Nat) (tok : List Char), toks[i]? = some tok ∧
        f64InUnitRange (lib.toDouble tok) = true ∧
        c = Call.setParameter ((k + i : Nat) : Int) (f64ToF32 (lib.toDouble tok))
  | [], k => by simp [loadTokens]
  | t :: more, k => by
    rw [loadTokens, List.mem_append, loadTokens_mem lib c more (k + 1)]
    constructor
    · rintro (hhead | ⟨i, tok, hi, hr, hc⟩)
      · by_cases hr : f64InUnitRange (lib.toDouble t) = true
        · rw [if_pos hr] at hhead
          exact ⟨0, t, by simp, hr, by simpa using hhead⟩
        · rw [if_neg hr] at hhead
          simp at hhead
      · refine ⟨i + 1, tok, by simpa using hi, hr, ?_⟩
        rw [hc]
        congr 1
        push_cast
        ring
    · rintro ⟨i, tok, hi, hr, hc⟩
      cases i with
      | zero =>
        left
        have ht : t = tok := by simpa using hi
        subst ht
        rw [if_pos hr, hc]
        simp
      | succ j =>
        right
        refine ⟨j, tok, by simpa using hi, hr, ?_⟩
        rw [hc]
        congr 1
        push_cast
        ring

theorem loadTokens_enumFrom (lib : NumText) : ∀ (toks : List (List Char)) (k : Nat),
    loadTokens lib k toks
      = ((toks.enumFrom k).filter (fun p => f64InUnitRange (lib.toDouble p.2))).map
          (fun p => Call.setParameter (p.1 : Int) (f64ToF32 (lib.toDouble p.2)))
  | [], k => by simp [loadTokens]
  | t :: more, k => by
    rw [loadTokens, loadTokens_enumFrom lib more (k + 1), List.enumFrom_cons]
    by_cases hr : f64InUnitRange (lib.toDouble t) = true
    · rw [if_pos hr, List.filter_cons_of_pos (by simpa using hr)]
      simp
    · rw [if_neg hr, List.filter_cons_of_neg (by simpa using hr)]
      simp

theorem LoadParameters_of_value (lib : NumText) (store : Store) (group value : List Char)
    (hchunk : store.get group "Chunk".toList = none)
    (hvalue : store.get group "Value".toList = some value) :
    LoadParameters lib store group = loadTokens lib 0 (valueTokens value) := by
  unfold LoadParameters
  rw [hchunk]
  dsimp only
  rw [hvalue]

end VSTEffect

namespace VSTEffect

open VSTEffectDialog (Call Opcode Plugin effFlagsProgramChunks)

/-- C24, as stated, fails: with the stored list "0.5,abc,0.25" the malformed
token "abc" at position 1 is not skipped: `setParameter(1, 0.0)` is issued,
between the calls for the two well-formed tokens. -/
theorem LoadParameters_applies_malformed_token :
    LoadParameters cLocale (valueStore "0.5,abc,0.25".toList) "Current".toList
      = [Call.setParameter 0 0x3F000000, Call.setParameter 1 0,
         Call.setParameter 2 0x3E800000] := by
  decide

/-- C24, amended: in `LoadParameters` with a stored "Value" list no token is
skipped for being malformed: the token at position `i` is converted by
`ToDouble` into `val` (whose result is not examined) and
`setParameter(i, (float) val)` is issued exactly when `val` lies in
[-1.0, 1.0], for every token, well-formed or not, in the order of the list;
so a token that leaves `val` at its initial 0.0 is applied as 0.0 at its
position.  This holds whatever the conversion `ToDouble` is. -/
theorem LoadParameters_applies_tokens_in_range (lib : NumText) (store : Store)
    (group value : List Char)
    (hchunk : store.get group "Chunk".toList = none)
    (hvalue : store.get group "Value".toList = some value) :
    LoadParameters lib store group
        = ((valueTokens value).enum.filter (fun p => f64InUnitRange (lib.toDouble p.2))).map
            (fun p => Call.setParameter (p.1 : Int) (f64ToF32 (lib.toDouble p.2))) ∧
      ∀ (i : Nat) (tok : List Char), (valueTokens value)[i]? = some tok →
        lib.toDouble tok = 0 → Call.setParameter (i : Int) 0 ∈ LoadParameters lib store group := by
  rw [LoadParameters_of_value lib store group value hchunk hvalue]
  refine ⟨loadTokens_enumFrom lib _ 0, ?_⟩
  intro i tok hi h0
  rw [loadTokens_mem]
  refine ⟨i, tok, hi, ?_, ?_⟩
  · rw [h0]; decide
  · rw [h0, Nat.zero_add]
    have : f64ToF32 0 = 0 := by decide
    rw [this]

theorem LoadParameters_applies_tokens_in_range_witness :
    Store.get (valueStore "0.5,abc,2.5".toList) "Current".toList "Chunk".toList = none ∧
      Store.get (valueStore "0.5,abc,2.5".toList) "Current".toList "Value".toList
        = some "0.5,abc,2.5".toList ∧
      LoadParameters cLocale (valueStore "0.5,abc,2.5".toList) "Current".toList
        = [Call.setParameter 0 0x3F000000, Call.setParameter 1 0] :=
  ⟨by decide, by decide,
    (LoadParameters_applies_tokens_in_range cLocale (valueStore "0.5,abc,2.5".toList)
      "Current".toList "0.5,abc,2.5".toList (by decide) (by decide)).1.trans (by decide)⟩

/-- C25, as stated, fails: with the stored list "-0.5,0.1,0.2,0.3" on a
plugin that declares three parameters, `LoadParameters` issues
`setParameter(0, -0.5)`, a value below 0.0, and `setParameter(3, 0.3)`, an
index that is not a declared parameter. -/
theorem LoadParameters_applies_negative_and_extra :
    (paramPlugin 0 0 0 0 []).aeffect.numParams = 3 ∧ f32Lt0 0xBF000000 = true ∧
      LoadParameters cLocale (valueStore "-0.5,0.1,0.2,0.3".toList) "Current".toList
        = [Call.setParameter 0 0xBF000000, Call.setParameter 1 0x3DCCCCCD,
           Call.setParameter 2 0x3E4CCCCD, Call.setParameter 3 0x3E99999A] := by
  decide

/-- C25, amended: every `setParameter` call that `LoadParameters` issues
from a stored "Value" list has as index the position of a token of the list
(so `0 <= index <` number of tokens; the declared parameter count is not
consulted) and as value the `float` conversion of that token, a number in
[-1.0, 1.0]; a token whose value lies outside [-1.0, 1.0] is not applied. -/
theorem LoadParameters_calls_in_signed_unit (lib : NumText) (store : Store)
    (group value : List Char)
    (hchunk : store.get group "Chunk".toList = none)
    (hvalue : store.get group "Value".toList = some value) :
    (∀ c ∈ LoadParameters lib store group, ∃ (i : Nat) (tok : List Char),
        (valueTokens value)[i]? = some tok ∧
        c = Call.setParameter (i : Int) (f64ToF32 (lib.toDouble tok)) ∧
        f32InSignedUnit (f64ToF32 (lib.toDouble tok)) = true) ∧
      (∀ (i : Nat) (tok : List Char) (v : Nat), (valueTokens value)[i]? = some tok →
        f64InUnitRange (lib.toDouble tok) = false →
        Call.setParameter (i : Int) v ∉ LoadParameters lib store group) := by
  rw [LoadParameters_of_value lib store group value hchunk hvalue]
  constructor
  · intro c hc
    obtain ⟨i, tok, hi, hr, hcall⟩ := (loadTokens_mem lib c _ 0).mp hc
    refine ⟨i, tok, hi, ?_, f64ToF32_le_one _ hr⟩
    rw [hcall, Nat.zero_add]
  · intro i tok v hi hout hmem
    obtain ⟨j, tok1, hj, hr, hcall⟩ := (loadTokens_mem lib _ _ 0).mp hmem
    rw [Nat.zero_add] at hcall
    have hij : (i : Int) = (j : Int) := by
      injection hcall
    have hij1 : i = j := by exact_mod_cast hij
    subst hij1
    rw [hi] at hj
    injection hj with hj
    subst hj
    rw [hr] at hout
    exact Bool.noConfusion hout

theorem LoadParameters_calls_in_signed_unit_witness :
    Store.get (valueStore "-0.5,2.5".toList) "Current".toList "Chunk".toList = none ∧
      Store.get (valueStore "-0.5,2.5".toList) "Current".toList "Value".toList
        = some "-0.5,2.5".toList ∧
      (valueTokens "-0.5,2.5".toList)[1]? = some "2.5".toList ∧
      f64InUnitRange (cLocale.toDouble "2.5".toList) = false ∧
      Call.setParameter 1 0x40200000
        ∉ LoadParameters cLocale (valueStore "-0.5,2.5".toList) "Current".toList :=
  ⟨by decide, by decide, by decide, by decide,
    (LoadParameters_calls_in_signed_unit cLocale (valueStore "-0.5,2.5".toList)
      "Current".toList "-0.5,2.5".toList (by decide) (by decide)).2 1 "2.5".toList 0x40200000
      (by decide) (by decide)⟩

end VSTEffect

namespace VSTEffectDialog

theorem putI32_bytes (hostLE : Bool) (v : Int) :
    putI32 hostLE v
      = [(v % 2 ^ 32).toNat / 2 ^ 24 % 256, (v % 2 ^ 32).toNat / 2 ^ 16 % 256,
         (v % 2 ^ 32).toNat / 2 ^ 8 % 256, (v % 2 ^ 32).toNat % 256] := by
  have hu : (v % 2 ^ 32).toNat < 2 ^ 32 := by
    have := Int.emod_lt_of_pos v (by norm_num : (0 : Int) < 2 ^ 32)
    have := Int.emod_nonneg v (by norm_num : (2 : Int) ^ 32 ≠ 0)
    omega
  unfold putI32 hostBytes32 wxINT32_SWAP_ON_LE
  generalize (v % 2 ^ 32).toNat = u at hu
  cases hostLE
  · simp only [Bool.false_eq_true, if_false]
    rw [Nat.mod_eq_of_lt hu]
  · simp only [if_true]
    have h0 : u % 256 < 256 := Nat.mod_lt _ (by norm_num)
    have h1 : u / 2 ^ 8 % 256 < 256 := Nat.mod_lt _ (by norm_num)
    have h2 : u / 2 ^ 16 % 256 < 256 := Nat.mod_lt _ (by norm_num)
    have h3 : u / 2 ^ 24 % 256 < 256 := Nat.mod_lt _ (by norm_num)
    generalize u % 256 = b0 at h0 ⊢
    generalize u / 2 ^ 8 % 256 = b1 at h1 ⊢
    generalize u / 2 ^ 16 % 256 = b2 at h2 ⊢
    generalize u / 2 ^ 24 % 256 = b3 at h3 ⊢
    have e0 : (b0 * 2 ^ 24 + b1 * 2 ^ 16 + b2 * 2 ^ 8 + b3) % 256 = b3 := by
      norm_num
      omega
    have e1 : (b0 * 2 ^ 24 + b1 * 2 ^ 16 + b2 * 2 ^ 8 + b3) / 2 ^ 8 % 256 = b2 := by
      norm_num
      omega
    have e2 : (b0 * 2 ^ 24 + b1 * 2 ^ 16 + b2 * 2 ^ 8 + b3) / 2 ^ 16 % 256 = b1 := by
      norm_num
      omega
    have e3 : (b0 * 2 ^ 24 + b1 * 2 ^ 16 + b2 * 2 ^ 8 + b3) / 2 ^ 24 % 256 = b0 := by
      norm_num
      omega
    rw [e0, e1, e2, e3]

theorem putI32_length (hostLE : Bool) (v : Int) : (putI32 hostLE v).length = 4 := by
  rw [putI32_bytes]
  rfl

theorem byteAt_append_right (pre l : List Nat) (i : Int) (h : (pre.length : Int) ≤ i) :
    byteAt (pre ++ l) i = byteAt l (i - pre.length) := by
  unfold byteAt
  obtain ⟨n, rfl⟩ := Int.eq_ofNat_of_zero_le (by omega : 0 ≤ i)
  have hn : pre.length ≤ n := by omega
  rw [if_pos (by omega), if_pos (by omega), Int.toNat_ofNat,
    List.getD_append_right _ _ _ _ hn]
  congr 2
  omega

theorem rdU32_append_right (pre l : List Nat) (pos k : Int)
    (h : (pre.length : Int) ≤ pos + 4 * k) :
    rdU32 (pre ++ l) pos k = rdU32 l (pos - pre.length) k := by
  unfold rdU32
  rw [byteAt_append_right pre l _ (by omega), byteAt_append_right pre l _ (by omega),
    byteAt_append_right pre l _ (by omega), byteAt_append_right pre l _ (by omega)]
  have e0 : pos + 4 * k - pre.length = pos - pre.length + 4 * k := by ring
  have e1 : pos + 4 * k + 1 - pre.length = pos - pre.length + 4 * k + 1 := by ring
  have e2 : pos + 4 * k + 2 - pre.length = pos - pre.length + 4 * k + 2 := by ring
  have e3 : pos + 4 * k + 3 - pre.length = pos - pre.length + 4 * k + 3 := by ring
  rw [e0, e1, e2, e3]

theorem rdU32_shift (l : List Nat) (pos k pos1 k1 : Int) (h : pos + 4 * k = pos1 + 4 * k1) :
    rdU32 l pos k = rdU32 l pos1 k1 := by
  unfold rdU32
  rw [h]

theorem rdU32_putI32_head (hostLE : Bool) (v : Int) (rest : List Nat) :
    rdU32 (putI32 hostLE v ++ rest) 0 0 = (v % 2 ^ 32).toNat := by
  have hu : (v % 2 ^ 32).toNat < 2 ^ 32 := by
    have := Int.emod_lt_of_pos v (by norm_num : (0 : Int) < 2 ^ 32)
    have := Int.emod_nonneg v (by norm_num : (2 : Int) ^ 32 ≠ 0)
    omega
  rw [putI32_bytes]
  generalize (v % 2 ^ 32).toNat = u at hu
  have hb : ∀ a b c d : Nat,
      rdU32 ([a, b, c, d] ++ rest) 0 0
        = a % 256 * 2 ^ 24 + b % 256 * 2 ^ 16 + c % 256 * 2 ^ 8 + d % 256 :=
    fun _ _ _ _ => rfl
  rw [hb]
  norm_num at hu ⊢
  omega

theorem rdU32_words (hostLE : Bool) : ∀ (ws : List Int) (k : Nat) (rest : List Nat),
    k < ws.length →
      rdU32 (ws.flatMap (putI32 hostLE) ++ rest) 0 (k : Int) = ((ws.getD k 0) % 2 ^ 32).toNat
  | [], k, rest, hk => by simp at hk
  | w :: more, 0, rest, _ => by
    rw [List.flatMap_cons, List.append_assoc]
    exact rdU32_putI32_head hostLE w _
  | w :: more, k + 1, rest, hk => by
    rw [List.flatMap_cons, List.append_assoc,
      rdU32_append_right _ _ _ _ (by rw [putI32_length]; push_cast; omega), putI32_length,
      rdU32_shift _ _ _ 0 (k : Int) (by push_cast; ring),
      rdU32_words hostLE more k rest (by simpa using hk)]
    simp

theorem toInt32_wrap (v : Int) (h1 : -2 ^ 31 ≤ v) (h2 : v < 2 ^ 31) :
    toInt32 (v % 2 ^ 32).toNat = v := by
  unfold toInt32
  have hlt := Int.emod_lt_of_pos v (by norm_num : (0 : Int) < 2 ^ 32)
  have hnn := Int.emod_nonneg v (by norm_num : (2 : Int) ^ 32 ≠ 0)
  have hm : (v % 2 ^ 32).toNat % 2 ^ 32 = (v % 2 ^ 32).toNat := Nat.mod_eq_of_lt (by omega)
  rw [hm]
  split_ifs with hc
  · omega
  · omega

theorem rdI32_words (hostLE : Bool) (ws : List Int) (k : Nat) (rest : List Nat)
    (hk : k < ws.length) (h1 : -2 ^ 31 ≤ ws.getD k 0) (h2 : ws.getD k 0 < 2 ^ 31) :
    rdI32 (ws.flatMap (putI32 hostLE) ++ rest) 0 (k : Int) = ws.getD k 0 := by
  unfold rdI32
  rw [rdU32_words hostLE ws k rest hk, toInt32_wrap _ h1 h2]

end VSTEffectDialog

namespace VSTEffectDialog

theorem wrapInt32_le (x : Int) (h : 0 ≤ x) : wrapInt32 x ≤ x := by
  unfold wrapInt32 toInt32
  have hlt := Int.emod_lt_of_pos x (by norm_num : (0 : Int) < 2 ^ 32)
  have hnn := Int.emod_nonneg x (by norm_num : (2 : Int) ^ 32 ≠ 0)
  have hle : x % 2 ^ 32 ≤ x := by omega
  have hm : (x % 2 ^ 32).toNat % 2 ^ 32 = (x % 2 ^ 32).toNat := Nat.mod_eq_of_lt (by omega)
  rw [hm]
  split_ifs <;> omega

theorem bankChunk_reads (hostLE : Bool) (tab : List Int) (n : Nat) (body : List Nat)
    (htab : tab.length = 8) (hn : n < 2 ^ 31) (hbody : body.length = n) :
    ((tab.flatMap (putI32 hostLE) ++ List.replicate 124 0
        ++ (putI32 hostLE (n : Int) ++ body.map (· % 256))).length : Int) = 160 + n ∧
      rdI32 (tab.flatMap (putI32 hostLE) ++ List.replicate 124 0
        ++ (putI32 hostLE (n : Int) ++ body.map (· % 256))) 0 39 = n ∧
      bytesAt (tab.flatMap (putI32 hostLE) ++ List.replicate 124 0
        ++ (putI32 hostLE (n : Int) ++ body.map (· % 256))) 160 n = body.map (· % 256) := by
  have hlen : ∀ ws : List Int, (ws.flatMap (putI32 hostLE)).length = 4 * ws.length := by
    intro ws
    induction ws with
    | nil => rfl
    | cons w more ih =>
      rw [List.flatMap_cons, List.length_append, putI32_length, ih, List.length_cons]
      omega
  have hpre : (tab.flatMap (putI32 hostLE) ++ List.replicate 124 0).length = 156 := by
    rw [List.length_append, hlen, htab, List.length_replicate]
  refine ⟨?_, ?_, ?_⟩
  · rw [List.length_append, hpre, List.length_append, putI32_length, List.length_map, hbody]
    push_cast
    ring
  · unfold rdI32
    rw [rdU32_append_right _ _ _ _ (by rw [hpre]; norm_num), hpre,
      rdU32_shift _ _ _ 0 0 (by norm_num), rdU32_putI32_head]
    exact toInt32_wrap _ (by omega) (by exact_mod_cast hn)
  · unfold bytesAt
    have h160 : (tab.flatMap (putI32 hostLE) ++ List.replicate 124 0
        ++ putI32 hostLE (n : Int)).length = 160 := by
      rw [List.length_append, hpre, putI32_length]
    rw [← List.append_assoc, show (160 : Int).toNat = 160 from rfl, List.drop_left' h160,
      List.map_map, Int.toNat_ofNat]
    have hmm : ((fun x : Nat => x % 256) ∘ fun x : Nat => x % 256) = fun x : Nat => x % 256 := by
      funext x
      simp
    rw [hmm, List.take_of_length_le (by rw [List.length_map, hbody])]

end VSTEffectDialog

namespace VSTEffectDialog

theorem SaveFXB_chunk_eq (hostLE : Bool) (pl : Plugin) (p : Int)
    (hflag : pl.aeffect.flags &&& effFlagsProgramChunks ≠ 0) :
    SaveFXB hostLE pl p
      = [CCONST 'C' 'c' 'n' 'K', 148 + (4 + ((pl.getChunk 0).length : Int)),
          CCONST 'F' 'B' 'C' 'h', if p ≥ 0 then 2 else 1, pl.aeffect.uniqueID,
          pl.aeffect.version, pl.aeffect.numPrograms, if p ≥ 0 then p else 0].flatMap
            (putI32 hostLE)
          ++ List.replicate 124 0
          ++ (putI32 hostLE ((pl.getChunk 0).length : Int)
                ++ (pl.getChunk 0).map (· % 256)) := by
  unfold SaveFXB
  have hb : (pl.aeffect.flags &&& effFlagsProgramChunks != 0) = true := by simpa using hflag
  simp only [hb, if_true]

theorem LoadFXB_bankChunk (fx : AEffect) (hostLE : Bool) (ver cur dataSize : Int) (n : Nat)
    (body : List Nat)
    (hflag : fx.flags &&& effFlagsProgramChunks ≠ 0)
    (hid : -2 ^ 31 ≤ fx.uniqueID ∧ fx.uniqueID < 2 ^ 31)
    (hnp : -2 ^ 31 ≤ fx.numPrograms ∧ fx.numPrograms < 2 ^ 31)
    (hver : (ver = 1 ∧ cur = 0) ∨ (ver = 2 ∧ 0 ≤ cur ∧ cur < fx.numPrograms))
    (hn : n < 2 ^ 31) (hbody : body.length = n) :
    LoadFXB fx
        ([CCONST 'C' 'c' 'n' 'K', dataSize, CCONST 'F' 'B' 'C' 'h', ver, fx.uniqueID,
          fx.version, fx.numPrograms, cur].flatMap (putI32 hostLE)
          ++ List.replicate 124 0 ++ (putI32 hostLE (n : Int) ++ body.map (· % 256)))
      = setActiveProgram true ver cur
          [Call.dispatcher Opcode.effSetChunk 0 n (body.map (· % 256))] := by
  obtain ⟨hlen, h39, hbytes⟩ := bankChunk_reads hostLE
    [CCONST 'C' 'c' 'n' 'K', dataSize, CCONST 'F' 'B' 'C' 'h', ver, fx.uniqueID,
      fx.version, fx.numPrograms, cur] n body rfl hn hbody
  have hcur : -2 ^ 31 ≤ cur ∧ cur < 2 ^ 31 := by
    rcases hver with ⟨_, h⟩ | ⟨_, h1, h2⟩ <;> omega
  have hvr : -2 ^ 31 ≤ ver ∧ ver < 2 ^ 31 := by
    rcases hver with ⟨h, _⟩ | ⟨h, _, _⟩ <;> omega
  have r0 := rdI32_words hostLE [CCONST 'C' 'c' 'n' 'K', dataSize, CCONST 'F' 'B' 'C' 'h', ver,
    fx.uniqueID, fx.version, fx.numPrograms, cur] 0
    (List.replicate 124 0 ++ (putI32 hostLE (n : Int) ++ body.map (· % 256)))
    (by simp) (by show -2 ^ 31 ≤ CCONST 'C' 'c' 'n' 'K'; decide)
    (by show CCONST 'C' 'c' 'n' 'K' < 2 ^ 31; decide)
  have r2 := rdI32_words hostLE [CCONST 'C' 'c' 'n' 'K', dataSize, CCONST 'F' 'B' 'C' 'h', ver,
    fx.uniqueID, fx.version, fx.numPrograms, cur] 2
    (List.replicate 124 0 ++ (putI32 hostLE (n : Int) ++ body.map (· % 256)))
    (by simp) (by show -2 ^ 31 ≤ CCONST 'F' 'B' 'C' 'h'; decide)
    (by show CCONST 'F' 'B' 'C' 'h' < 2 ^ 31; decide)
  have r3 := rdI32_words hostLE [CCONST 'C' 'c' 'n' 'K', dataSize, CCONST 'F' 'B' 'C' 'h', ver,
    fx.uniqueID, fx.version, fx.numPrograms, cur] 3
    (List.replicate 124 0 ++ (putI32 hostLE (n : Int) ++ body.map (· % 256)))
    (by simp) hvr.1 hvr.2
  have r4 := rdI32_words hostLE [CCONST 'C' 'c' 'n' 'K', dataSize, CCONST 'F' 'B' 'C' 'h', ver,
    fx.uniqueID, fx.version, fx.numPrograms, cur] 4
    (List.replicate 124 0 ++ (putI32 hostLE (n : Int) ++ body.map (· % 256)))
    (by simp) hid.1 hid.2
  have r6 := rdI32_words hostLE [CCONST 'C' 'c' 'n' 'K', dataSize, CCONST 'F' 'B' 'C' 'h', ver,
    fx.uniqueID, fx.version, fx.numPrograms, cur] 6
    (List.replicate 124 0 ++ (putI32 hostLE (n : Int) ++ body.map (· % 256)))
    (by simp) hnp.1 hnp.2
  have r7 := rdI32_words hostLE [CCONST 'C' 'c' 'n' 'K', dataSize, CCONST 'F' 'B' 'C' 'h', ver,
    fx.uniqueID, fx.version, fx.numPrograms, cur] 7
    (List.replicate 124 0 ++ (putI32 hostLE (n : Int) ++ body.map (· % 256)))
    (by simp) hcur.1 hcur.2
  rw [← List.append_assoc] at r0 r2 r3 r4 r6 r7
  have q0 : rdI32 ([CCONST 'C' 'c' 'n' 'K', dataSize, CCONST 'F' 'B' 'C' 'h', ver, fx.uniqueID,
      fx.version, fx.numPrograms, cur].flatMap (putI32 hostLE)
      ++ List.replicate 124 0 ++ (putI32 hostLE (n : Int) ++ body.map (· % 256))) 0 0
      = CCONST 'C' 'c' 'n' 'K' := r0
  have q2 : rdI32 ([CCONST 'C' 'c' 'n' 'K', dataSize, CCONST 'F' 'B' 'C' 'h', ver, fx.uniqueID,
      fx.version, fx.numPrograms, cur].flatMap (putI32 hostLE)
      ++ List.replicate 124 0 ++ (putI32 hostLE (n : Int) ++ body.map (· % 256))) 0 2
      = CCONST 'F' 'B' 'C' 'h' := r2
  have q3 : rdI32 ([CCONST 'C' 'c' 'n' 'K', dataSize, CCONST 'F' 'B' 'C' 'h', ver, fx.uniqueID,
      fx.version, fx.numPrograms, cur].flatMap (putI32 hostLE)
      ++ List.replicate 124 0 ++ (putI32 hostLE (n : Int) ++ body.map (· % 256))) 0 3
      = ver := r3
  have q4 : rdI32 ([CCONST 'C' 'c' 'n' 'K', dataSize, CCONST 'F' 'B' 'C' 'h', ver, fx.uniqueID,
      fx.version, fx.numPrograms, cur].flatMap (putI32 hostLE)
      ++ List.replicate 124 0 ++ (putI32 hostLE (n : Int) ++ body.map (· % 256))) 0 4
      = fx.uniqueID := r4
  have q6 : rdI32 ([CCONST 'C' 'c' 'n' 'K', dataSize, CCONST 'F' 'B' 'C' 'h', ver, fx.uniqueID,
      fx.version, fx.numPrograms, cur].flatMap (putI32 hostLE)
      ++ List.replicate 124 0 ++ (putI32 hostLE (n : Int) ++ body.map (· % 256))) 0 6
      = fx.numPrograms := r6
  have q7 : rdI32 ([CCONST 'C' 'c' 'n' 'K', dataSize, CCONST 'F' 'B' 'C' 'h', ver, fx.uniqueID,
      fx.version, fx.numPrograms, cur].flatMap (putI32 hostLE)
      ++ List.replicate 124 0 ++ (putI32 hostLE (n : Int) ++ body.map (· % 256))) 0 7
      = cur := r7
  clear r0 r2 r3 r4 r6 r7
  generalize [CCONST 'C' 'c' 'n' 'K', dataSize, CCONST 'F' 'B' 'C' 'h', ver, fx.uniqueID,
      fx.version, fx.numPrograms, cur].flatMap (putI32 hostLE)
      ++ List.replicate 124 0 ++ (putI32 hostLE (n : Int) ++ body.map (· % 256)) = data
    at hlen h39 hbytes q0 q2 q3 q4 q6 q7 ⊢
  have hw := wrapInt32_le (160 + (n : Int)) (by omega)
  have hsub : CCONST 'F' 'B' 'C' 'h' ≠ CCONST 'F' 'x' 'B' 'k' := by decide
  unfold LoadFXB
  simp only [hlen, q0, q2, q3, q4, q6, q7, h39, hbytes]
  rw [if_neg (by omega), if_neg (by simp), if_neg (by omega), if_neg (by simp),
    if_neg (by simp)]
  have hc : (if ver = 2 then cur else 0) = cur := by
    rcases hver with ⟨h1, h2⟩ | ⟨h1, _, _⟩
    · rw [if_neg (by omega), h2]
    · rw [if_pos h1]
  rw [hc, if_neg (by rcases hver with ⟨h1, _⟩ | ⟨_, h2, h3⟩ <;> omega), if_neg hsub,
    if_pos trivial, if_neg hflag, if_neg (by omega), if_neg (by omega)]

/-- C21: for a plugin with chunk support whose bank chunk has `n` bytes `c`
and a current program selection `p` with `-1 <= p < numPrograms`, the file
`SaveFXB` writes is the 8-word big-endian header, 124 zero bytes, the size
word `n` and the chunk, and `LoadFXB` on the same plugin accepts it: it
returns true, passes size `n` and the bytes `c` to `effSetChunk`, and selects
program `p` when `p >= 0` (and makes no other call). -/
theorem SaveFXB_LoadFXB_chunk (hostLE : Bool) (pl : Plugin) (p : Int)
    (hflag : pl.aeffect.flags &&& effFlagsProgramChunks ≠ 0)
    (hid : -2 ^ 31 ≤ pl.aeffect.uniqueID ∧ pl.aeffect.uniqueID < 2 ^ 31)
    (hnp : pl.aeffect.numPrograms < 2 ^ 31)
    (hp : -1 ≤ p ∧ p < pl.aeffect.numPrograms)
    (hn : (pl.getChunk 0).length < 2 ^ 31) :
    SaveFXB hostLE pl p
        = beWords [CCONST 'C' 'c' 'n' 'K', 152 + ((pl.getChunk 0).length : Int),
            CCONST 'F' 'B' 'C' 'h', if 0 ≤ p then 2 else 1, pl.aeffect.uniqueID,
            pl.aeffect.version, pl.aeffect.numPrograms, if 0 ≤ p then p else 0]
          ++ List.replicate 124 0 ++ beWords [((pl.getChunk 0).length : Int)]
          ++ (pl.getChunk 0).map (· % 256) ∧
      LoadFXB pl.aeffect (SaveFXB hostLE pl p)
        = (true,
            Call.dispatcher Opcode.effSetChunk 0 ((pl.getChunk 0).length : Int)
              ((pl.getChunk 0).map (· % 256))
            :: (if 0 ≤ p then [Call.dispatcher Opcode.effSetProgram 0 p [],
                  Call.comboSetSelection p] else [])) := by
  have hsave := SaveFXB_chunk_eq hostLE pl p hflag
  have hput : putI32 hostLE = putI32 true := by
    funext v
    rw [putI32_bytes, putI32_bytes]
  constructor
  · rw [hsave, hput]
    unfold beWords
    have h152 : (148 : Int) + (4 + ((pl.getChunk 0).length : Int))
        = 152 + ((pl.getChunk 0).length : Int) := by ring
    rw [h152]
    simp only [ge_iff_le, List.flatMap_cons, List.flatMap_nil, List.append_nil,
      List.append_assoc]
  · rw [hsave]
    by_cases hp0 : 0 ≤ p
    · rw [if_pos hp0, if_pos hp0, if_pos hp0,
        LoadFXB_bankChunk pl.aeffect hostLE 2 p _ _ _ hflag hid ⟨by omega, hnp⟩
          (Or.inr ⟨rfl, hp0, hp.2⟩) hn rfl]
      rfl
    · rw [if_neg hp0, if_neg hp0, if_neg hp0,
        LoadFXB_bankChunk pl.aeffect hostLE 1 0 _ _ _ hflag hid ⟨by omega, hnp⟩
          (Or.inl ⟨rfl, rfl⟩) hn rfl]
      rfl

theorem SaveFXB_LoadFXB_chunk_witness :
    ((chunkyPlugin [1, 2, 3, 4, 5]).aeffect.flags &&& effFlagsProgramChunks ≠ 0 ∧
      (-1 : Int) ≤ 1 ∧ (1 : Int) < (chunkyPlugin [1, 2, 3, 4, 5]).aeffect.numPrograms) ∧
      LoadFXB (chunkyPlugin [1, 2, 3, 4, 5]).aeffect
          (SaveFXB true (chunkyPlugin [1, 2, 3, 4, 5]) 1)
        = (true,
            [Call.dispatcher Opcode.effSetChunk 0 5 [1, 2, 3, 4, 5],
             Call.dispatcher Opcode.effSetProgram 0 1 [], Call.comboSetSelection 1]) :=
  ⟨by decide,
    (SaveFXB_LoadFXB_chunk true (chunkyPlugin [1, 2, 3, 4, 5]) 1 (by decide) (by decide)
      (by decide) (by decide) (by decide)).2⟩

end VSTEffectDialog
